import Mathlib

/-!
# GETFILE protocol engine: client (`gfclient.c`), server (`gfserver.c`) and
thread pool (`handler.c`)

A shallow embedding of the GETFILE request/response code.  A byte of a C `char`
buffer is its value as a `Nat`, a buffer is a `List Nat`, sockets are scripts
of what `recv`/`send` return, and callbacks are recorded as events of a trace.
The worker pool is a step function on the job queue and the shutdown flag, one
step per locked section.
-/

namespace GetFile

/-! ## Bytes and C strings -/

/-- ASCII codes of a string literal, used to read the constants below. -/
def bytes (s : String) : List Nat := s.toList.map Char.toNat

/-- The literal `"GETFILE"`. -/
def GETFILE : List Nat := [71, 69, 84, 70, 73, 76, 69]

/-- The literal `"GET"`. -/
def GET : List Nat := [71, 69, 84]

/-- The literal `"OK"`. -/
def OK : List Nat := [79, 75]

/-- The literal `"FILE_NOT_FOUND"`. -/
def FILE_NOT_FOUND : List Nat := [70, 73, 76, 69, 95, 78, 79, 84, 95, 70, 79, 85, 78, 68]

/-- The literal `"ERROR"`. -/
def ERROR : List Nat := [69, 82, 82, 79, 82]

/-- The literal `"INVALID"`. -/
def INVALID : List Nat := [73, 78, 86, 65, 76, 73, 68]

/-- The header terminator `"\r\n\r\n"`. -/
def CRLFCRLF : List Nat := [13, 10, 13, 10]

/-- `BUF_SIZE` of gfserver.c. -/
def BUF_SIZE : Nat := 4096

/-- `REQ_BUFSIZE` of gfclient.c. -/
def REQ_BUFSIZE : Nat := 1024

/-- `HDR_BUFSIZE` of gfclient.c. -/
def HDR_BUFSIZE : Nat := 4096

/-- `DATA_BUFSIZE` of gfclient.c. -/
def DATA_BUFSIZE : Nat := 4096

/-- One more than the largest `size_t` (64-bit). -/
def SIZE_LIMIT : Nat := 2 ^ 64

/-- The C string stored at the start of a buffer: the bytes before the first NUL. -/
def cstr (buf : List Nat) : List Nat := buf.takeWhile (fun b => b != 0)

/-- `strstr(hay, needle)` on C strings: offset of the first occurrence, if any. -/
def strstr (needle : List Nat) : List Nat → Option Nat
  | [] => if needle.isPrefixOf [] then some 0 else none
  | b :: t =>
    if needle.isPrefixOf (b :: t) then some 0
    else (strstr needle t).map (fun i => i + 1)

/-- `isspace` in the C locale: space, `\t`, `\n`, `\v`, `\f`, `\r`. -/
def isspace (b : Nat) : Bool :=
  b == 32 || b == 9 || b == 10 || b == 11 || b == 12 || b == 13

/-- `isdigit`. -/
def isdigit (b : Nat) : Bool := decide (48 ≤ b) && decide (b ≤ 57)

/-- Digits of `n` in base ten, most significant first, pushed in front of `acc`. -/
def decimalAux : Nat → Nat → List Nat → List Nat
  | 0, _, acc => acc
  | fuel + 1, n, acc =>
    if n < 10 then (48 + n) :: acc
    else decimalAux fuel (n / 10) ((48 + n % 10) :: acc)

/-- What `%zu` prints for `n`. -/
def decimal (n : Nat) : List Nat := decimalAux (n + 1) n []

/-- `snprintf(buf, size, ...)` given the fully formatted text: the buffer holds
at most `size - 1` bytes of it, the return value is the untruncated length. -/
def snprintf (size : Nat) (text : List Nat) : List Nat × Int :=
  (text.take (size - 1), (text.length : Int))

/-! ## `sscanf` directives -/

/-- The `%s` directive (`%Ns` with `width = some N`): skip white space, then
take the longest run of non-space bytes, at most `width` of them.  `none` is an
input failure (end of string before any byte of the token). -/
def scan_s (width : Option Nat) (s : List Nat) : Option (List Nat × List Nat) :=
  let s1 := s.dropWhile isspace
  if s1 = [] then none
  else
    let run := s1.takeWhile (fun b => !isspace b)
    let tok := match width with
      | none => run
      | some w => run.take w
    some (tok, s1.drop tok.length)

/-- Value of a run of decimal digits. -/
def digitsValue (ds : List Nat) : Nat := ds.foldl (fun a d => a * 10 + (d - 48)) 0

/-- The `%zu` directive: skip white space, an optional sign, then at least one
digit.  The value is converted as `strtoul` does (glibc): saturating at
`SIZE_MAX` on overflow, negated modulo `2^64` after a minus sign. -/
def scan_zu (s : List Nat) : Option Nat :=
  let s1 := s.dropWhile isspace
  let neg := s1.head? == some 45
  let s2 := if s1.head? == some 45 || s1.head? == some 43 then s1.drop 1 else s1
  let ds := s2.takeWhile isdigit
  if ds = [] then none
  else
    let v := digitsValue ds
    if SIZE_LIMIT ≤ v then some (SIZE_LIMIT - 1)
    else if neg then some ((SIZE_LIMIT - v) % SIZE_LIMIT)
    else some v

/-- The call `sscanf(req, "%s %s %s", scheme, method, path)` of gfserver.c: the
return value and the tokens stored, in order.  The directives carry no width,
so a token is stored whole, whatever its length (see `tokens_overflow`). -/
def sscanf_request (s : List Nat) : Int × List (List Nat) :=
  match scan_s none s with
  | none => (-1, [])
  | some (t1, r1) =>
    match scan_s none r1 with
    | none => (1, [t1])
    | some (t2, r2) =>
      match scan_s none r2 with
      | none => (2, [t1, t2])
      | some (t3, _) => (3, [t1, t2, t3])

/-! ## Sockets -/

/-- `send_all`: loop on `send` until the buffer is written or a `send` returns
`<= 0`.  `sends` are the values the successive `send` calls return (a value
larger than what is left counts as all of it; once the script is used up a
`send` takes everything).  Result: return value, bytes that reached the socket,
rest of the script. -/
def send_all : List Int → List Nat → Int × List Nat × List Int
  | sends, [] => (0, [], sends)
  | [], b :: buf => (0, b :: buf, [])
  | r :: rs, b :: buf =>
    if r ≤ 0 then (-1, [], rs)
    else
      let k := min r.toNat (b :: buf).length
      let res := send_all rs ((b :: buf).drop k)
      (res.1, (b :: buf).take k ++ res.2.1, res.2.2)

/-! ## Server: `gfserver.c` -/

/-- Modelled from the spec: the status enumeration `gfstatus_t` of the missing
header gfserver.h / gfclient.h, a closed set of four statuses. -/
inductive gfstatus_t
  | GF_OK
  | GF_FILE_NOT_FOUND
  | GF_ERROR
  | GF_INVALID
  deriving DecidableEq, Repr

/-- Modelled from the spec: the handler result `gfh_error_t` of the missing
header gfserver.h. -/
inductive gfh_error_t
  | gfh_success
  | gfh_failure
  deriving DecidableEq, Repr

open gfstatus_t gfh_error_t

/-- The connection context `struct gfcontext_t`. -/
structure gfcontext_t where
  clientfd : Nat
  deriving DecidableEq, Repr

/-- What the server engine does to the outside world. -/
inductive SrvEvent
  /-- bytes one `send_all` call got onto the socket `fd` -/
  | sent (fd : Nat) (bs : List Nat)
  /-- `close(fd)` -/
  | closed (fd : Nat)
  /-- `free` of a context -/
  | freed (ctx : gfcontext_t)
  /-- a call of the registered handler with the context reference and the path -/
  | handled (ctx : Option gfcontext_t) (path : List Nat)
  deriving DecidableEq, Repr

/-- A registered handler, as far as the engine sees it: from the context
reference and the path to the value it leaves in the reference and its result. -/
abbrev Handler := Option gfcontext_t → List Nat → Option gfcontext_t × gfh_error_t

/-- `get_status_str`. -/
def get_status_str (status : gfstatus_t) : List Nat :=
  if status = GF_OK then OK
  else if status = GF_FILE_NOT_FOUND then FILE_NOT_FOUND
  else if status = GF_ERROR then ERROR
  else INVALID

/-- `gfs_abort`: the new value of the reference and the events. -/
def gfs_abort (ctx : Option gfcontext_t) : Option gfcontext_t × List SrvEvent :=
  match ctx with
  | none => (none, [])
  | some c => (none, [SrvEvent.closed c.clientfd, SrvEvent.freed c])

/-- `gfs_send`: return value, events, rest of the send script. -/
def gfs_send (ctx : Option gfcontext_t) (data : List Nat) (sends : List Int) :
    Int × List SrvEvent × List Int :=
  match ctx with
  | none => (-1, [], sends)
  | some c =>
    let res := send_all sends data
    if res.1 < 0 then (-1, [SrvEvent.sent c.clientfd res.2.1], res.2.2)
    else ((data.length : Int), [SrvEvent.sent c.clientfd res.2.1], res.2.2)

/-- The text `gfs_sendheader` formats into `buf`, with `snprintf`'s result. -/
def format_header (status : gfstatus_t) (file_len : Nat) : List Nat × Int :=
  if status = GF_OK then
    snprintf BUF_SIZE (GETFILE ++ [32] ++ OK ++ [32] ++ decimal file_len ++ CRLFCRLF)
  else
    snprintf BUF_SIZE (GETFILE ++ [32] ++ get_status_str status ++ CRLFCRLF)

/-- `gfs_sendheader`: return value, events, rest of the send script. -/
def gfs_sendheader (ctx : Option gfcontext_t) (status : gfstatus_t) (file_len : Nat)
    (sends : List Int) : Int × List SrvEvent × List Int :=
  match ctx with
  | none => (-1, [], sends)
  | some c =>
    let fmt := format_header status file_len
    if fmt.2 ≤ 0 then (-1, [], sends)
    else
      let res := send_all sends (fmt.1.take fmt.2.toNat)
      if res.1 < 0 then (-1, [SrvEvent.sent c.clientfd res.2.1], res.2.2)
      else (fmt.2, [SrvEvent.sent c.clientfd res.2.1], res.2.2)

/-- The request read loop of `gfserver_serve`: one byte per `recv` into
`req[received]`, a NUL behind it, until `BUF_SIZE - 1` bytes are in, `recv`
returns `<= 0` (here: `incoming` is used up) or `strstr` finds the terminator.
Result: the buffer and `received`. -/
def recv_request (req : List Nat) (received : Nat) : List Nat → List Nat × Nat
  | [] => (req, received)
  | b :: rest =>
    if received < BUF_SIZE - 1 then
      let req1 := (req.set received b).set (received + 1) 0
      if (strstr CRLFCRLF (cstr req1)).isSome then (req1, received + 1)
      else recv_request req1 (received + 1) rest
    else (req, received)

/-- A token the request scan stored is longer than its array can hold with the
closing NUL: `scheme[16]`, `method[16]`, `path[256]`. -/
def tokens_overflow (toks : List (List Nat)) : Bool :=
  decide (16 ≤ (toks.getD 0 []).length) || decide (16 ≤ (toks.getD 1 []).length) ||
    decide (256 ≤ (toks.getD 2 []).length)

/-- The validation test of `gfserver_serve`:
`parts != 3 || strcmp(scheme, "GETFILE") != 0 || strcmp(method, "GET") != 0 || path[0] != '/'`. -/
def request_invalid (parsed : Int × List (List Nat)) : Bool :=
  parsed.1 != 3 || parsed.2.getD 0 [] != GETFILE || parsed.2.getD 1 [] != GET ||
    (parsed.2.getD 2 []).head? != some 47

/-- Outcome of one iteration of the accept loop. -/
structure ConnResult where
  /-- events, in order -/
  trace : List SrvEvent
  /-- the local `ctx` at the end of the iteration -/
  ctx : Option gfcontext_t
  /-- the contents of `req` at the end of the iteration -/
  req : List Nat
  /-- number of request bytes read -/
  received : Nat
  /-- the request scan wrote past one of its arrays -/
  overflow : Bool
  deriving DecidableEq, Repr

/-- One iteration of the accept loop of `gfserver_serve`, after a successful
`accept`: `stale` is what the array `req` holds before the read loop (the array
is not initialised), `incoming` the bytes the peer delivers before `recv`
returns `<= 0`.  The tokens are used as scanned; `overflow` records that the
scan wrote past an array, from where on the C program is undefined: the other
fields describe the C program only when `overflow = false`. -/
def serve_connection (handler : Option Handler) (clientfd : Nat) (stale : List Nat)
    (incoming : List Nat) (sends : List Int) : ConnResult :=
  let ctx : Option gfcontext_t := some ⟨clientfd⟩
  let rd := recv_request stale 0 incoming
  let parsed := sscanf_request (cstr rd.1)
  if request_invalid parsed then
    let h := gfs_sendheader ctx GF_INVALID 0 sends
    let a := gfs_abort ctx
    ⟨h.2.1 ++ a.2, a.1, rd.1, rd.2, tokens_overflow parsed.2⟩
  else
    let path := parsed.2.getD 2 []
    match handler with
    | some f =>
      let ctx1 := (f ctx path).1
      if ctx1.isSome then
        let a := gfs_abort ctx1
        ⟨SrvEvent.handled ctx path :: a.2, a.1, rd.1, rd.2, tokens_overflow parsed.2⟩
      else ⟨[SrvEvent.handled ctx path], ctx1, rd.1, rd.2, tokens_overflow parsed.2⟩
    | none =>
      let h := gfs_sendheader ctx GF_ERROR 0 sends
      let a := gfs_abort ctx
      ⟨h.2.1 ++ a.2, a.1, rd.1, rd.2, tokens_overflow parsed.2⟩

/-- The accept loop of `gfserver_serve` over the connections accepted so far:
each is the descriptor, the bytes it delivers and its send script; `none` is an
`accept` that failed.  The array `req` keeps its contents between iterations. -/
def gfserver_serve (handler : Option Handler) (stale : List Nat) :
    List (Option (Nat × List Nat × List Int)) → List SrvEvent
  | [] => []
  | none :: conns => gfserver_serve handler stale conns
  | some (fd, incoming, sends) :: conns =>
    let r := serve_connection handler fd stale incoming sends
    r.trace ++ gfserver_serve handler r.req conns

/-! ## Client: `gfclient.c` -/

/-- What a `recv` call on the client socket meets next: bytes that arrived
together, or an error.  The end of the script is the peer's orderly close. -/
inductive RecvEvent
  | data (bs : List Nat)
  | fail
  deriving DecidableEq, Repr

/-- `recv(sockfd, buf, cap, 0)`: return value, bytes stored, rest of the script.
At most `cap` of the bytes that arrived are taken, the others stay for the next
call; an empty arrival or the end of the script gives 0. -/
def recv (cap : Nat) : List RecvEvent → Int × List Nat × List RecvEvent
  | [] => (0, [], [])
  | RecvEvent.fail :: rest => (-1, [], rest)
  | RecvEvent.data bs :: rest =>
    if bs.length ≤ cap then ((bs.length : Int), bs, rest)
    else ((cap : Int), bs.take cap, RecvEvent.data (bs.drop cap) :: rest)

/-- Callback invocations of one `gfc_perform`. -/
inductive CliEvent
  /-- `headerfunc(hdrbuf, header_bytes, headerarg)` -/
  | header (bs : List Nat)
  /-- `writefunc(buffer, length, writearg)` -/
  | data (bs : List Nat)
  deriving DecidableEq, Repr

/-- The request handle `struct gfcrequest_t`; of a callback only whether it is
set (non-null) matters to the engine. -/
structure gfcrequest_t where
  server : List Nat
  port : Nat
  path : List Nat
  headerfunc : Bool
  writefunc : Bool
  status : gfstatus_t
  filelen : Nat
  bytesreceived : Nat
  deriving DecidableEq, Repr

/-- The network as one `gfc_perform` meets it. -/
structure ClientNet where
  /-- `getaddrinfo` returned 0 -/
  resolved : Bool
  /-- for each candidate address, in order: `socket` and `connect` both succeed -/
  candidates : List Bool
  /-- values returned by the `send` calls -/
  sends : List Int
  /-- what the `recv` calls meet -/
  recvs : List RecvEvent
  deriving DecidableEq, Repr

/-- Outcome of `gfc_perform`. -/
structure PerformResult where
  /-- return value -/
  ret : Int
  /-- the handle on return -/
  req : gfcrequest_t
  /-- callback invocations, in order -/
  trace : List CliEvent
  /-- number of `recv` calls of the body loop -/
  body_reads : Nat
  /-- request bytes that reached the socket -/
  sent : List Nat
  deriving DecidableEq, Repr

/-- `parse_status`. -/
def parse_status (status_str : List Nat) : gfstatus_t :=
  if status_str = OK then GF_OK
  else if status_str = FILE_NOT_FOUND then GF_FILE_NOT_FOUND
  else if status_str = ERROR then GF_ERROR
  else if status_str = INVALID then GF_INVALID
  else GF_INVALID

/-- The call `sscanf(hdrbuf, "%31s %31s %zu", proto, status_str, &filelen)`:
return value, `proto`, `status_str`, `filelen` (which starts as 0). -/
def sscanf_header (s : List Nat) : Int × List Nat × List Nat × Nat :=
  match scan_s (some 31) s with
  | none => (-1, [], [], 0)
  | some (t1, r1) =>
    match scan_s (some 31) r1 with
    | none => (1, t1, [], 0)
    | some (t2, r2) =>
      match scan_zu r2 with
      | none => (2, t1, t2, 0)
      | some v => (3, t1, t2, v)

/-- The connect loop: the first candidate that connects ends it. -/
def connect_any : List Bool → Bool
  | [] => false
  | ok :: rest => if ok then true else connect_any rest

/-- The body loop `for (;;)` of `gfc_perform` (one unit of fuel per `recv`). -/
def gfc_body_loop : Nat → gfcrequest_t → List CliEvent → Nat → List RecvEvent →
    Option PerformResult
  | 0, _, _, _, _ => none
  | fuel + 1, req, tr, reads, sock =>
    let rc := recv DATA_BUFSIZE sock
    if rc.1 < 0 then some ⟨-1, req, tr, reads + 1, []⟩
    else if rc.1 = 0 then
      if req.bytesreceived < req.filelen then some ⟨-1, req, tr, reads + 1, []⟩
      else some ⟨0, req, tr, reads + 1, []⟩
    else
      let req1 := { req with
        bytesreceived := (req.bytesreceived + rc.2.1.length) % SIZE_LIMIT }
      let tr1 := if req.writefunc then tr ++ [CliEvent.data rc.2.1] else tr
      if req1.bytesreceived ≥ req1.filelen then some ⟨0, req1, tr1, reads + 1, []⟩
      else gfc_body_loop fuel req1 tr1 (reads + 1) rc.2.2

/-- The code of `gfc_perform` from the label `read_body` on. -/
def gfc_read_body (fuel : Nat) (req : gfcrequest_t) (tr : List CliEvent)
    (sock : List RecvEvent) : Option PerformResult :=
  if req.status ≠ GF_OK then some ⟨0, { req with bytesreceived := 0 }, tr, 0, []⟩
  else gfc_body_loop fuel req tr 0 sock

/-- The body of `if (end)` in the header loop: `hdrbuf` holds the bytes read so
far, `e` is the offset `strstr` found the terminator at, `sock` what the socket
still has.  Parses the header line, sets status and file length, calls the
header callback, delivers the bytes behind the header and jumps to `read_body`. -/
def gfc_parse_header (req : gfcrequest_t) (fuel : Nat) (hdrbuf : List Nat) (e : Nat)
    (sock : List RecvEvent) : Option PerformResult :=
  let header_bytes := e + 4
  let parsed := sscanf_header (cstr hdrbuf)
  if parsed.1 < 2 then some ⟨-1, req, [], 0, []⟩
  else
    let filelen := if parsed.1 = 2 then 0 else parsed.2.2.2
    if parsed.2.1 ≠ GETFILE then some ⟨-1, req, [], 0, []⟩
    else
      let req1 := { req with status := parse_status parsed.2.2.1, filelen := filelen }
      let tr1 := if req1.headerfunc then [CliEvent.header (hdrbuf.take header_bytes)] else []
      let remaining := hdrbuf.length - header_bytes
      if req1.status = GF_OK then
        let tr2 := if remaining > 0 ∧ req1.writefunc then
          tr1 ++ [CliEvent.data (hdrbuf.drop header_bytes)] else tr1
        let req2 := { req1 with
          bytesreceived := (req1.bytesreceived + remaining) % SIZE_LIMIT }
        gfc_read_body fuel req2 tr2 sock
      else gfc_read_body fuel req1 tr1 sock

/-- The header loop of `gfc_perform`: `hdrbuf` is the array up to `hdrlen`
(a NUL is stored behind it after every `recv`). -/
def gfc_header_loop (req : gfcrequest_t) : Nat → List Nat → List RecvEvent →
    Option PerformResult
  | 0, _, _ => none
  | fuel + 1, hdrbuf, sock =>
    if hdrbuf.length + 1 < HDR_BUFSIZE then
      let rc := recv (HDR_BUFSIZE - hdrbuf.length - 1) sock
      if rc.1 ≤ 0 then some ⟨-1, req, [], 0, []⟩
      else
        let hdrbuf1 := hdrbuf ++ rc.2.1
        match strstr CRLFCRLF (cstr hdrbuf1) with
        | some e => gfc_parse_header req fuel hdrbuf1 e rc.2.2
        | none => gfc_header_loop req fuel hdrbuf1 rc.2.2
    else some ⟨-1, req, [], 0, []⟩

/-- Fuel that covers every `recv` of a script: each call takes at least one
byte or one entry of it. -/
def recv_fuel : List RecvEvent → Nat
  | [] => 1
  | RecvEvent.fail :: rest => recv_fuel rest + 1
  | RecvEvent.data bs :: rest => recv_fuel rest + bs.length + 1

/-- `gfc_perform` on a non-null handle: `none` only if the fuel ran out. -/
def gfc_perform (req0 : gfcrequest_t) (net : ClientNet) : Option PerformResult :=
  let req := { req0 with bytesreceived := 0, filelen := 0, status := GF_INVALID }
  if !net.resolved then some ⟨-1, req, [], 0, []⟩
  else if !connect_any net.candidates then some ⟨-1, req, [], 0, []⟩
  else
    let fmt := snprintf REQ_BUFSIZE (GETFILE ++ [32] ++ GET ++ [32] ++ cstr req.path ++ CRLFCRLF)
    if fmt.2 ≤ 0 ∨ (REQ_BUFSIZE : Int) ≤ fmt.2 then some ⟨-1, req, [], 0, []⟩
    else
      let sd := send_all net.sends (fmt.1.take fmt.2.toNat)
      if sd.1 < 0 then some ⟨-1, req, [], 0, sd.2.1⟩
      else
        (gfc_header_loop req (recv_fuel net.recvs) [] net.recvs).map
          (fun r => { r with sent := sd.2.1 })

/-! ## Specification-side notions -/

/-- The response header of the wire format, written from the spec's words:
`"GETFILE OK <filelen>\r\n\r\n"` or `"GETFILE <STATUS>\r\n\r\n"`. -/
def wire_header (s : gfstatus_t) (n : Nat) : List Nat :=
  match s with
  | GF_OK => bytes "GETFILE OK " ++ bytes (toString n) ++ bytes "\r\n\r\n"
  | GF_FILE_NOT_FOUND => bytes "GETFILE FILE_NOT_FOUND\r\n\r\n"
  | GF_ERROR => bytes "GETFILE ERROR\r\n\r\n"
  | GF_INVALID => bytes "GETFILE INVALID\r\n\r\n"

/-- A request without terminator that is longer than the request buffer:
`"GETFILE GET /x "` followed by 5000 letters `A`. -/
def unterminated_request : List Nat :=
  GETFILE ++ [32] ++ GET ++ [32, 47, 120, 32] ++ List.replicate 5000 65

/-- A handler that answers nothing and leaves the context to the engine. -/
def idle_handler : Handler := fun ctx _ => (ctx, gfh_success)

/-- The script of a peer that delivers the given chunks, one per arrival, and
then closes the connection. -/
def arrivals (chunks : List (List Nat)) : List RecvEvent := chunks.map RecvEvent.data

/-- The bytes a script delivers before its first failure. -/
def recv_stream : List RecvEvent → List Nat
  | [] => []
  | RecvEvent.fail :: _ => []
  | RecvEvent.data bs :: rest => bs ++ recv_stream rest

/-- The bytes handed to the data callback, in call order. -/
def delivered : List CliEvent → List Nat
  | [] => []
  | CliEvent.header _ :: rest => delivered rest
  | CliEvent.data bs :: rest => bs ++ delivered rest

/-- The buffers handed to the header callback, in call order. -/
def header_calls : List CliEvent → List (List Nat)
  | [] => []
  | CliEvent.header bs :: rest => bs :: header_calls rest
  | CliEvent.data _ :: rest => header_calls rest

/-- The request line of the wire format for a path. -/
def request_line (path : List Nat) : List Nat :=
  bytes "GETFILE GET " ++ path ++ bytes "\r\n\r\n"

/-- The connection is set up and the request line is sent in full: address
resolution succeeds, some candidate connects, the line fits the request buffer
and no `send` fails. -/
def request_sent (req : gfcrequest_t) (net : ClientNet) : Bool :=
  net.resolved && connect_any net.candidates &&
    decide ((request_line (cstr req.path)).length < REQ_BUFSIZE) &&
    decide ((send_all net.sends (request_line (cstr req.path))).1 = 0)

/-- The terminator occurs in `s` at offset `i` and at no smaller offset. -/
def FirstTerminatorAt (s : List Nat) (i : Nat) : Prop :=
  (s.drop i).take 4 = CRLFCRLF ∧ ∀ j < i, (s.drop j).take 4 ≠ CRLFCRLF

/-- A request handle with both callbacks set, as `gfc_create` and the setters
leave it for the path `/x`. -/
def sample_request : gfcrequest_t :=
  ⟨bytes "localhost", 8080, bytes "/x", true, true, GF_INVALID, 0, 0⟩

/-- A network on which the connection succeeds at the second candidate address,
every `send` takes all bytes, and `recvs` is what the peer delivers. -/
def sample_net (recvs : List RecvEvent) : ClientNet := ⟨true, [false, true], [], recvs⟩

/-- The response `"GETFILE OK 3\r\n\r\nabc"` fed one byte per read. -/
def bytewise_response : List (List Nat) :=
  (bytes "GETFILE OK 3\r\n\r\nabc").map (fun b => [b])

/-- The outcome of `sample_request` on the response `"GETFILE OK 3\r\n\r\nabc"`
that arrives in the two pieces `"GETFILE OK 3\r\n\r\na"` and `"bc"`. -/
def sample_result : PerformResult :=
  ⟨0, ⟨bytes "localhost", 8080, bytes "/x", true, true, GF_OK, 3, 3⟩,
    [CliEvent.header (bytes "GETFILE OK 3\r\n\r\n"), CliEvent.data (bytes "a"),
      CliEvent.data (bytes "bc")],
    1, bytes "GETFILE GET /x\r\n\r\n"⟩

/-! ## Thread pool: `handler.c` -/

/-- `BUFSIZE` of handler.c. -/
def BUFSIZE : Nat := 4096

/-- The job `job_t`: the context reference `ctx` and the path copy `path`. -/
structure job_t where
  ctx : Option gfcontext_t
  path : List Nat
  deriving DecidableEq, Repr

/-- Modelled from the spec: the queue type `steque_t` of the missing header
steque.h, a first-in first-out queue of jobs. -/
abbrev steque_t := List job_t

/-- Modelled from the spec: `steque_enqueue` of the missing steque.h adds the
item at the tail of the queue. -/
def steque_enqueue (q : steque_t) (job : job_t) : steque_t := q ++ [job]

/-- Modelled from the spec: `steque_isempty` of the missing steque.h. -/
def steque_isempty (q : steque_t) : Bool := q.isEmpty

/-- Modelled from the spec: `steque_front` of the missing steque.h, the item at
the head of the queue (`none` on an empty queue). -/
def steque_front (q : steque_t) : Option job_t := q.head?

/-- Modelled from the spec: `steque_pop` of the missing steque.h removes the
item at the head of the queue. -/
def steque_pop (q : steque_t) : steque_t := q.tail

/-- What the path of a job resolves to.  Modelled from the spec: `content_get`
of the missing content.h is taken by its result `fd`, negative when the path is
not served.  `stat` is the outcome of `fstat` (`none` for a failure, else
`st_size`), `content` the bytes of the file, `preads` the limits of the
successive `pread` calls. -/
structure JobFile where
  fd : Int
  stat : Option Int
  content : List Nat
  preads : List Int
  deriving DecidableEq, Repr

/-- `pread(fd, buf, count, offset)`: return value, bytes stored, rest of the
script.  A negative entry of the script is a failure, any other entry bounds
the bytes this call reads (a short read); once the script is used up a call
reads all it can.  The bytes come from the file at `offset`, none at or behind
its end. -/
def pread (content : List Nat) (count offset : Nat) : List Int → Int × List Nat × List Int
  | [] => ((((content.drop offset).take count).length : Int),
      (content.drop offset).take count, [])
  | r :: rs =>
    if r < 0 then (-1, [], rs)
    else ((((content.drop offset).take (min r.toNat count)).length : Int),
      (content.drop offset).take (min r.toNat count), rs)

/-- The streaming loop `while (remaining > 0)` of `worker_thread` (one unit of
fuel per iteration): the events, the values the `gfs_send` calls returned, and
the rest of the send script. -/
def stream_loop (ctx : Option gfcontext_t) (content : List Nat) :
    Nat → Int → Int → List Int → List Int → Option (List SrvEvent × List Int × List Int)
  | 0, remaining, _, _, sends => if remaining > 0 then none else some ([], [], sends)
  | fuel + 1, remaining, offset, preads, sends =>
    if remaining > 0 then
      let chunk : Nat := if remaining > (BUFSIZE : Int) then BUFSIZE else remaining.toNat
      let rd := pread content chunk offset.toNat preads
      if rd.1 ≤ 0 then some ([], [], sends)
      else
        let s := gfs_send ctx rd.2.1 sends
        if s.1 ≤ 0 then some (s.2.1, [s.1], s.2.2)
        else
          (stream_loop ctx content fuel (remaining - s.1) (offset + s.1) rd.2.2 s.2.2).map
            (fun res => (s.2.1 ++ res.1, s.1 :: res.2.1, res.2.2))
    else some ([], [], sends)

/-- Outcome of the work on one job. -/
structure JobResult where
  /-- events, in order -/
  trace : List SrvEvent
  /-- the values the `gfs_send` calls of the streaming loop returned -/
  rets : List Int
  /-- `job->ctx` when the job is freed -/
  ctx : Option gfcontext_t
  /-- rest of the send script -/
  sends : List Int
  deriving DecidableEq, Repr

/-- The part of `worker_thread` that serves a job taken from the queue, from
`content_get` to `free(job)`: `none` only if the fuel ran out.  The file size
goes to `gfs_sendheader` as a `size_t`. -/
def worker_thread_job (job : job_t) (file : JobFile) (sends : List Int) : Option JobResult :=
  if file.fd < 0 then
    let h := gfs_sendheader job.ctx GF_FILE_NOT_FOUND 0 sends
    some ⟨h.2.1, [], none, h.2.2⟩
  else
    match file.stat with
    | none =>
      let h := gfs_sendheader job.ctx GF_ERROR 0 sends
      some ⟨h.2.1, [], none, h.2.2⟩
    | some st_size =>
      let h := gfs_sendheader job.ctx GF_OK (st_size % (SIZE_LIMIT : Int)).toNat sends
      (stream_loop job.ctx file.content st_size.toNat st_size 0 file.preads h.2.2).map
        (fun res => ⟨h.2.1 ++ res.1, res.2.1, none, res.2.2⟩)

/-- What a worker does in one pass through its locked section. -/
inductive WorkerAction
  /-- `pthread_cond_wait`: the queue is empty and no shutdown was requested -/
  | wait
  /-- `break`: the thread ends -/
  | exit
  /-- a job is taken from the head of the queue -/
  | take (job : job_t)
  /-- `steque_front` on an empty queue -/
  | fault
  deriving DecidableEq, Repr

/-- The locked section of `worker_thread` on the queue and the flag
`shutting_down`: the action and the queue it leaves. -/
def worker_thread_locked (q : steque_t) (shutting_down : Bool) : WorkerAction × steque_t :=
  if steque_isempty q && !shutting_down then (WorkerAction.wait, q)
  else if shutting_down && steque_isempty q then (WorkerAction.exit, q)
  else
    match steque_front q with
    | some job => (WorkerAction.take job, steque_pop q)
    | none => (WorkerAction.fault, q)

/-- Outcome of `gfs_handler`. -/
structure HandlerResult where
  /-- the value returned -/
  ret : gfh_error_t
  /-- the caller's reference `*ctx` on return -/
  ctx : Option gfcontext_t
  /-- the job queue on return -/
  queue : steque_t
  /-- events, in order -/
  trace : List SrvEvent
  /-- rest of the send script -/
  sends : List Int
  deriving DecidableEq, Repr

/-- `gfs_handler` on the queue `queue`; `malloc_ok` and `strdup_ok` tell whether
the two allocations succeed.  `strdup` copies the path up to its NUL. -/
def gfs_handler (malloc_ok strdup_ok : Bool) (ctx : Option gfcontext_t) (path : List Nat)
    (queue : steque_t) (sends : List Int) : HandlerResult :=
  if !malloc_ok then
    let h := gfs_sendheader ctx GF_ERROR 0 sends
    ⟨gfh_failure, none, queue, h.2.1, h.2.2⟩
  else
    let job_ctx := ctx
    if !strdup_ok then
      let h := gfs_sendheader ctx GF_ERROR 0 sends
      ⟨gfh_failure, none, queue, h.2.1, h.2.2⟩
    else
      ⟨gfh_success, none, steque_enqueue queue ⟨job_ctx, cstr path⟩, [], sends⟩

/-- The steps of the pool, one per locked section: `gfs_handler` enqueues a
job, `cleanup_threads` requests the shutdown, worker `i` passes through its
locked section. -/
inductive PoolEvent
  | enqueue (job : job_t)
  | shutdown
  | worker (i : Nat)
  deriving DecidableEq, Repr

/-- The pool: the queue, the flag, the workers that have ended, and the history
of the jobs enqueued and of the jobs taken, in order. -/
structure PoolState where
  queue : steque_t
  shutting_down : Bool
  exited : List Nat
  enqueued : List job_t
  dequeued : List job_t
  deriving DecidableEq, Repr

/-- The pool after `init_threads`: empty queue, `shutting_down = 0`. -/
def init_threads : PoolState := ⟨[], false, [], [], []⟩

/-- One step of the pool.  A worker that has ended takes no further step. -/
def pool_step (s : PoolState) : PoolEvent → PoolState
  | PoolEvent.enqueue job =>
    { s with queue := steque_enqueue s.queue job, enqueued := s.enqueued ++ [job] }
  | PoolEvent.shutdown => { s with shutting_down := true }
  | PoolEvent.worker i =>
    if i ∈ s.exited then s
    else
      match worker_thread_locked s.queue s.shutting_down with
      | (WorkerAction.take job, q) => { s with queue := q, dequeued := s.dequeued ++ [job] }
      | (WorkerAction.exit, _) => { s with exited := i :: s.exited }
      | (_, _) => s

/-- The pool after a sequence of steps. -/
def pool_run (s : PoolState) (evs : List PoolEvent) : PoolState := evs.foldl pool_step s

/-- The bytes the events put on the wire, in order. -/
def wire_bytes : List SrvEvent → List Nat
  | [] => []
  | SrvEvent.sent _ bs :: rest => bs ++ wire_bytes rest
  | _ :: rest => wire_bytes rest

/-- A file of 5000 bytes that is found, with a successful `fstat` and full
reads. -/
def sample_file : JobFile := ⟨3, some 5000, List.replicate 5000 120, []⟩

/-- A file of 10 bytes that is found, with a successful `fstat` and full reads. -/
def short_file : JobFile := ⟨3, some 10, bytes "0123456789", []⟩

/-- A path that the content lookup does not find. -/
def missing_file : JobFile := ⟨-1, none, [], []⟩

/-! ## Client: status names and the path setter -/

/-- The literal `"UNKNOWN"`. -/
def UNKNOWN : List Nat := [85, 78, 75, 78, 79, 87, 78]

/-- `gfc_strstatus`: the `switch` has a case for each of the four statuses, so
the initial value `"UNKNOWN"` of `strstatus` is overwritten for every status of
the enumeration. -/
def gfc_strstatus (status : gfstatus_t) : List Nat :=
  match status with
  | GF_OK => OK
  | GF_FILE_NOT_FOUND => FILE_NOT_FOUND
  | GF_INVALID => INVALID
  | GF_ERROR => ERROR

/-- `gfc_set_path` on a non-null handle and a non-null path: the new contents
of the array `path[256]`.  `strncpy` copies at most 255 bytes of the string and
fills the rest of these 255 bytes with NULs; the last byte is set to NUL. -/
def gfc_set_path (req : gfcrequest_t) (path : List Nat) : gfcrequest_t :=
  { req with
    path := (cstr path).take 255 ++ List.replicate (255 - ((cstr path).take 255).length) 0 ++
      [0] }

/-- A request with a tag of 21 bytes. -/
def long_tag_request : List Nat := bytes "GETFILEGETFILEGETFILE GET /x\r\n\r\n"

/-- A request `"GETFILE GET /aaa...a\r\n\r\n"` whose path has 300 bytes. -/
def long_path_request : List Nat :=
  bytes "GETFILE GET /" ++ List.replicate 299 97 ++ bytes "\r\n\r\n"

/-- A request whose first token is 40 letters `G`. -/
def overlong_tag_request : List Nat := List.replicate 40 71 ++ bytes " GET /x\r\n\r\n"

/-- A request `"GETFILE GET /bbb...b\r\n\r\n"` whose path has 256 bytes. -/
def full_path_request : List Nat :=
  bytes "GETFILE GET /" ++ List.replicate 255 98 ++ bytes "\r\n\r\n"

/-! # Theorems -/

/-! ## Decimal printing -/

theorem decimalAux_acc (f : Nat) : ∀ (n : Nat) (acc : List Nat),
    decimalAux f n acc = decimalAux f n [] ++ acc := by
  induction f with
  | zero => intro n acc; simp [decimalAux]
  | succ f ih =>
    intro n acc
    unfold decimalAux
    by_cases h : n < 10
    · simp [h]
    · simp only [h, if_false]
      rw [ih (n / 10) ((48 + n % 10) :: acc), ih (n / 10) [48 + n % 10]]
      simp

theorem decimalAux_fuel (f : Nat) : ∀ (g n : Nat) (acc : List Nat), n < f → n < g →
    decimalAux f n acc = decimalAux g n acc := by
  induction f with
  | zero => intro g n acc h; omega
  | succ f ih =>
    intro g n acc hf hg
    cases g with
    | zero => omega
    | succ g =>
      unfold decimalAux
      by_cases h : n < 10
      · simp [h]
      · simp only [h, if_false]
        exact ih g (n / 10) _ (by omega) (by omega)

theorem decimal_small (n : Nat) (h : n < 10) : decimal n = [48 + n] := by
  simp [decimal, decimalAux, h]

theorem decimal_big (n : Nat) (h : 10 ≤ n) :
    decimal n = decimal (n / 10) ++ [48 + n % 10] := by
  have h1 : ¬ n < 10 := by omega
  unfold decimal
  rw [decimalAux]
  simp only [h1, if_false]
  rw [decimalAux_acc, decimalAux_fuel n (n / 10 + 1) (n / 10) [] (by omega) (by omega)]

theorem decimal_isdigit (n : Nat) : ∀ b ∈ decimal n, isdigit b = true := by
  induction n using Nat.strong_induction_on with
  | _ n ih =>
    by_cases h : n < 10
    · rw [decimal_small n h]
      intro b hb
      simp at hb
      subst hb
      simp only [isdigit, Bool.and_eq_true, decide_eq_true_eq]
      omega
    · rw [decimal_big n (by omega)]
      intro b hb
      rcases List.mem_append.mp hb with hb | hb
      · exact ih (n / 10) (by omega) b hb
      · simp at hb
        subst hb
        simp only [isdigit, Bool.and_eq_true, decide_eq_true_eq]
        omega

theorem decimal_ne_nil (n : Nat) : decimal n ≠ [] := by
  by_cases h : n < 10
  · rw [decimal_small n h]; simp
  · rw [decimal_big n (by omega)]; simp

theorem digitsValue_append (xs : List Nat) (d : Nat) :
    digitsValue (xs ++ [d]) = digitsValue xs * 10 + (d - 48) := by
  simp [digitsValue, List.foldl_append]

theorem digitsValue_decimal (n : Nat) : digitsValue (decimal n) = n := by
  induction n using Nat.strong_induction_on with
  | _ n ih =>
    by_cases h : n < 10
    · rw [decimal_small n h]; simp [digitsValue]
    · rw [decimal_big n (by omega), digitsValue_append, ih (n / 10) (by omega)]
      omega

theorem decimal_length (k : Nat) : ∀ n, n < 10 ^ (k + 1) → (decimal n).length ≤ k + 1 := by
  induction k with
  | zero => intro n h; rw [decimal_small n (by simpa using h)]; simp
  | succ k ih =>
    intro n h
    by_cases h10 : n < 10
    · rw [decimal_small n h10]; simp
    · rw [decimal_big n (by omega)]
      have : n / 10 < 10 ^ (k + 1) := by
        rw [Nat.div_lt_iff_lt_mul (by norm_num)]
        rw [pow_succ] at h; exact h
      have := ih (n / 10) this
      simp; omega

theorem decimal_length_size (n : Nat) (h : n < SIZE_LIMIT) : (decimal n).length ≤ 20 := by
  apply decimal_length 19
  unfold SIZE_LIMIT at h
  omega

theorem digitChar_toNat (m : Nat) (h : m < 10) : (Nat.digitChar m).toNat = 48 + m := by
  interval_cases m <;> rfl

theorem toDigitsCore_decimalAux (f : Nat) : ∀ (n : Nat) (ds : List Char),
    (Nat.toDigitsCore 10 f n ds).map Char.toNat = decimalAux f n (ds.map Char.toNat) := by
  induction f with
  | zero => intro n ds; simp [Nat.toDigitsCore, decimalAux]
  | succ f ih =>
    intro n ds
    unfold Nat.toDigitsCore decimalAux
    by_cases h : n < 10
    · have h0 : n / 10 = 0 := by omega
      have h1 : n % 10 = n := by omega
      simp [h, h0, h1, digitChar_toNat n h]
    · have h0 : ¬ n / 10 = 0 := by omega
      simp only [h0, h, if_false]
      rw [ih]
      simp [digitChar_toNat (n % 10) (Nat.mod_lt n (by norm_num))]

/-- The printer agrees with the library's decimal representation. -/
theorem decimal_eq_repr (n : Nat) : decimal n = bytes (toString n) := by
  show decimal n = ((Nat.toDigits 10 n).asString).toList.map Char.toNat
  unfold decimal Nat.toDigits
  simp [List.asString, toDigitsCore_decimalAux]

/-! ## `send_all` -/

theorem send_all_initial (sends : List Int) : ∀ buf : List Nat,
    (send_all sends buf).2.1 <+: buf := by
  induction sends with
  | nil => intro buf; cases buf <;> simp [send_all]
  | cons r rs ih =>
    intro buf
    cases buf with
    | nil => simp [send_all]
    | cons b buf =>
      unfold send_all
      by_cases h : r ≤ 0
      · simp [h]
      · simp only [h, if_false]
        have := ih ((b :: buf).drop (min r.toNat (b :: buf).length))
        obtain ⟨t, ht⟩ := this
        refine ⟨t, ?_⟩
        rw [List.append_assoc, ht, List.take_append_drop]

theorem send_all_ret (sends : List Int) : ∀ buf : List Nat,
    (send_all sends buf).1 = 0 ∨ (send_all sends buf).1 = -1 := by
  induction sends with
  | nil => intro buf; cases buf <;> simp [send_all]
  | cons r rs ih =>
    intro buf
    cases buf with
    | nil => simp [send_all]
    | cons b buf =>
      unfold send_all
      by_cases h : r ≤ 0
      · simp [h]
      · simp only [h, if_false]
        exact ih _

theorem send_all_ok (sends : List Int) : ∀ buf : List Nat,
    (send_all sends buf).1 = 0 → (send_all sends buf).2.1 = buf := by
  induction sends with
  | nil => intro buf; cases buf <;> simp [send_all]
  | cons r rs ih =>
    intro buf
    cases buf with
    | nil => simp [send_all]
    | cons b buf =>
      unfold send_all
      by_cases h : r ≤ 0
      · simp [h]
      · simp only [h, if_false]
        intro h0
        rw [ih _ h0, List.take_append_drop]

theorem send_all_pos (sends : List Int) : ∀ buf : List Nat,
    (∀ r ∈ sends, 0 < r) → (send_all sends buf).1 = 0 := by
  induction sends with
  | nil => intro buf; cases buf <;> simp [send_all]
  | cons r rs ih =>
    intro buf hp
    cases buf with
    | nil => simp [send_all]
    | cons b buf =>
      unfold send_all
      have hr : ¬ r ≤ 0 := by
        have := hp r (by simp)
        omega
      simp only [hr, if_false]
      exact ih _ (fun x hx => hp x (by simp [hx]))

/-! ## C strings and `strstr` -/

theorem cstr_append_nul (a t : List Nat) (h : ∀ b ∈ a, b ≠ 0) : cstr (a ++ 0 :: t) = a := by
  induction a with
  | nil => simp [cstr]
  | cons x a ih =>
    have hx : x ≠ 0 := h x (by simp)
    have := ih (fun b hb => h b (by simp [hb]))
    simp only [cstr] at this ⊢
    simp [List.takeWhile_cons, hx, this]

theorem cstr_append (a t : List Nat) (h : ∀ b ∈ a, b ≠ 0) : cstr (a ++ t) = a ++ cstr t := by
  induction a with
  | nil => simp
  | cons x a ih =>
    have hx : x ≠ 0 := h x (by simp)
    have := ih (fun b hb => h b (by simp [hb]))
    simp only [cstr] at this ⊢
    simp [List.takeWhile_cons, hx, this]

theorem cstr_self (a : List Nat) (h : ∀ b ∈ a, b ≠ 0) : cstr a = a := by
  have := cstr_append a [] h
  simpa [cstr] using this

theorem crlf_not_leading (b : Nat) (t : List Nat) (hb : b ≠ 13) :
    CRLFCRLF.isPrefixOf (b :: t) = false := by
  have hb2 : ¬ (13 = b) := fun e => hb e.symm
  simp [CRLFCRLF, List.isPrefixOf, hb2]

theorem strstr_no_cr (x : List Nat) (h : ∀ b ∈ x, b ≠ 13) : strstr CRLFCRLF x = none := by
  induction x with
  | nil => simp [strstr, CRLFCRLF, List.isPrefixOf]
  | cons b t ih =>
    have hb : b ≠ 13 := h b (by simp)
    have := ih (fun c hc => h c (by simp [hc]))
    simp [strstr, crlf_not_leading b t hb, this]

/-! ## The request read loop -/

theorem set_set_eq (r : Nat) : ∀ (req : List Nat) (b : Nat), r + 2 ≤ req.length →
    (req.set r b).set (r + 1) 0 = req.take r ++ b :: 0 :: req.drop (r + 2) := by
  induction r with
  | zero =>
    intro req b h
    match req, h with
    | x :: y :: t, _ => simp
  | succ r ih =>
    intro req b h
    match req, h with
    | x :: t, h =>
      simp only [List.length_cons] at h
      simp [ih t b (by omega)]

/-- Bytes free of NUL and CR are stored one after the other as long as the
buffer has room; `extra` are bytes left unread once the buffer is full. -/
theorem recv_request_plain (rest : List Nat) : ∀ (b : Nat) (req : List Nat) (r : Nat)
    (extra : List Nat),
    (∀ c ∈ req.take r, c ≠ 0 ∧ c ≠ 13) → (∀ c ∈ b :: rest, c ≠ 0 ∧ c ≠ 13) →
    r + rest.length + 2 ≤ req.length → r + rest.length + 1 ≤ BUF_SIZE - 1 →
    (extra = [] ∨ r + rest.length + 1 = BUF_SIZE - 1) →
    recv_request req r (b :: rest ++ extra) =
      (req.take r ++ (b :: rest) ++ 0 :: req.drop (r + rest.length + 2), r + rest.length + 1) := by
  induction rest with
  | nil =>
    intro b req r extra hpre hin hlen hcap hex
    simp only [List.length_nil, Nat.add_zero] at hlen hcap hex ⊢
    have hr : r < BUF_SIZE - 1 := by omega
    have hclean : ∀ c ∈ req.take r ++ [b], c ≠ 0 ∧ c ≠ 13 := by
      intro c hc
      rcases List.mem_append.mp hc with hc | hc
      · exact hpre c hc
      · exact hin c (by simpa using hc)
    have hc : cstr (req.take r ++ b :: 0 :: req.drop (r + 2)) = req.take r ++ [b] := by
      have := cstr_append_nul (req.take r ++ [b]) (req.drop (r + 2)) (fun c hc => (hclean c hc).1)
      simpa using this
    have hs : strstr CRLFCRLF (req.take r ++ [b]) = none :=
      strstr_no_cr _ (fun c hc => (hclean c hc).2)
    simp only [List.cons_append, List.nil_append]
    rw [recv_request]
    simp only [hr, if_true, set_set_eq r req b hlen, hc, hs, Option.isSome_none]
    rcases hex with hex | hex
    · subst hex
      simp [recv_request]
    · cases extra with
      | nil => simp [recv_request]
      | cons e es =>
        rw [recv_request]
        have : ¬ r + 1 < BUF_SIZE - 1 := by omega
        simp [this]
  | cons b' rest ih =>
    intro b req r extra hpre hin hlen hcap hex
    simp only [List.length_cons] at hlen hcap hex ⊢
    have hr : r < BUF_SIZE - 1 := by omega
    have hclean : ∀ c ∈ req.take r ++ [b], c ≠ 0 ∧ c ≠ 13 := by
      intro c hc
      rcases List.mem_append.mp hc with hc | hc
      · exact hpre c hc
      · exact hin c (by simp at hc; simp [hc])
    have hc : cstr (req.take r ++ b :: 0 :: req.drop (r + 2)) = req.take r ++ [b] := by
      have := cstr_append_nul (req.take r ++ [b]) (req.drop (r + 2)) (fun c hc => (hclean c hc).1)
      simpa using this
    have hs : strstr CRLFCRLF (req.take r ++ [b]) = none :=
      strstr_no_cr _ (fun c hc => (hclean c hc).2)
    simp only [List.cons_append]
    rw [recv_request]
    simp only [hr, if_true, set_set_eq r req b (by omega), hc, hs, Option.isSome_none]
    have hlt : r ≤ req.length := by omega
    have htake : (req.take r ++ b :: 0 :: req.drop (r + 2)).take (r + 1) = req.take r ++ [b] := by
      rw [List.take_append_eq_append_take]
      simp [List.length_take, Nat.min_eq_left hlt]
    have hdrop : (req.take r ++ b :: 0 :: req.drop (r + 2)).drop (r + 1 + rest.length + 2) =
        req.drop (r + (rest.length + 1) + 2) := by
      rw [List.drop_append_eq_append_drop]
      simp only [List.length_take, Nat.min_eq_left hlt]
      have h1 : r + 1 + rest.length + 2 - r = (rest.length + 1) + 2 := by omega
      rw [h1, List.drop_eq_nil_of_le (by simp; omega)]
      simp only [List.nil_append, List.drop_succ_cons, List.drop_drop]
      congr 1
      omega
    have := ih b' (req.take r ++ b :: 0 :: req.drop (r + 2)) (r + 1) extra
      (by rw [htake]; exact hclean)
      (fun c hc => hin c (by simp at hc ⊢; tauto))
      (by simp [List.length_take, Nat.min_eq_left hlt]; omega)
      (by omega)
      (hex.imp id (fun e => by omega))
    simp only [List.cons_append] at this
    rw [this, htake, hdrop]
    simp only [Bool.false_eq_true, if_false, Prod.mk.injEq]
    constructor
    · simp
    · omega

/-! ## Server engine: headers and request validation -/

theorem format_header_eq (s : gfstatus_t) (n : Nat) (hn : n < SIZE_LIMIT) :
    format_header s n = (wire_header s n, ((wire_header s n).length : Int)) := by
  have hlen := decimal_length_size n hn
  have hb1 : bytes "GETFILE OK " = GETFILE ++ [32] ++ OK ++ [32] := by decide
  have hb2 : bytes "\r\n\r\n" = CRLFCRLF := by decide
  cases s
  · have htake : ∀ l : List Nat, l.length ≤ 20 →
        List.take (BUF_SIZE - 1) (GETFILE ++ [32] ++ OK ++ [32] ++ l ++ CRLFCRLF) =
          GETFILE ++ [32] ++ OK ++ [32] ++ l ++ CRLFCRLF := by
      intro l hl
      apply List.take_of_length_le
      simp [GETFILE, OK, CRLFCRLF, BUF_SIZE]
      omega
    simp only [format_header, snprintf, wire_header, if_true, hb1, hb2, ← decimal_eq_repr,
      htake _ hlen]
  · rfl
  · rfl
  · rfl

theorem header_length_pos (s : gfstatus_t) (n : Nat) : 0 < (wire_header s n).length := by
  cases s <;> simp [wire_header, bytes]

theorem sscanf_request_parts (s : List Nat) :
    (sscanf_request s).1 = if (sscanf_request s).2 = [] then -1
      else ((sscanf_request s).2.length : Int) := by
  unfold sscanf_request
  cases scan_s none s with
  | none => simp
  | some a =>
    obtain ⟨t1, r1⟩ := a
    simp only
    cases scan_s none r1 with
    | none => simp
    | some a2 =>
      obtain ⟨t2, r2⟩ := a2
      simp only
      cases scan_s none r2 with
      | none => simp
      | some a3 => simp

theorem sscanf_request_le (s : List Nat) : (sscanf_request s).1 ≤ 3 := by
  unfold sscanf_request
  cases scan_s none s with
  | none => simp
  | some a =>
    obtain ⟨t1, r1⟩ := a
    simp only
    cases scan_s none r1 with
    | none => simp
    | some a2 =>
      obtain ⟨t2, r2⟩ := a2
      simp only
      cases scan_s none r2 with
      | none => simp
      | some a3 => simp

theorem gfs_sendheader_some (c : gfcontext_t) (s : gfstatus_t) (n : Nat) (sends : List Int)
    (hn : n < SIZE_LIMIT) :
    gfs_sendheader (some c) s n sends =
      (if (send_all sends (wire_header s n)).1 < 0 then -1 else ((wire_header s n).length : Int),
        [SrvEvent.sent c.clientfd (send_all sends (wire_header s n)).2.1],
        (send_all sends (wire_header s n)).2.2) := by
  have hpos := header_length_pos s n
  have h1 : ¬ ((wire_header s n).length : Int) ≤ 0 := by omega
  simp only [gfs_sendheader, format_header_eq s n hn, h1, if_false, Int.toNat_ofNat,
    List.take_length]
  split <;> rfl

/-- C4: on a live context `gfs_sendheader` hands the socket exactly
`"GETFILE OK <n>\r\n\r\n"` for OK and `"GETFILE <STATUS>\r\n\r\n"` for the
other statuses whatever `n` is: what reaches the socket is a prefix of that
text, it is the whole text when no `send` fails, and whenever the call does not
fail the whole text was written and its length is returned. -/
theorem gfs_sendheader_writes (c : gfcontext_t) (s : gfstatus_t) (n : Nat) (sends : List Int)
    (hn : n < SIZE_LIMIT) :
    ∃ w, (gfs_sendheader (some c) s n sends).2.1 = [SrvEvent.sent c.clientfd w] ∧
      w <+: wire_header s n ∧
      ((gfs_sendheader (some c) s n sends).1 ≠ -1 →
        w = wire_header s n ∧ (gfs_sendheader (some c) s n sends).1 = (w.length : Int)) ∧
      ((∀ r ∈ sends, 0 < r) → (gfs_sendheader (some c) s n sends).1 ≠ -1) ∧
      (s ≠ GF_OK → wire_header s n = wire_header s 0) := by
  refine ⟨(send_all sends (wire_header s n)).2.1, ?_, send_all_initial _ _, ?_, ?_, ?_⟩
  · rw [gfs_sendheader_some c s n sends hn]
  · rw [gfs_sendheader_some c s n sends hn]
    intro h
    rcases send_all_ret sends (wire_header s n) with h0 | h0
    · have hw := send_all_ok sends _ h0
      simp [h0, hw]
    · simp [h0] at h
  · intro hp
    rw [gfs_sendheader_some c s n sends hn]
    have h0 := send_all_pos sends (wire_header s n) hp
    have hpos := header_length_pos s n
    simp only [h0]
    simp
  · intro hs
    cases s <;> simp_all [wire_header]

theorem gfs_sendheader_writes_witness :
    120 < SIZE_LIMIT ∧
    ∃ w, (gfs_sendheader (some ⟨4⟩) GF_OK 120 [5, 100]).2.1 = [SrvEvent.sent 4 w] ∧
      w <+: wire_header GF_OK 120 ∧
      ((gfs_sendheader (some ⟨4⟩) GF_OK 120 [5, 100]).1 ≠ -1 →
        w = wire_header GF_OK 120 ∧
          (gfs_sendheader (some ⟨4⟩) GF_OK 120 [5, 100]).1 = (w.length : Int)) ∧
      ((∀ r ∈ [(5 : Int), 100], 0 < r) → (gfs_sendheader (some ⟨4⟩) GF_OK 120 [5, 100]).1 ≠ -1) ∧
      (GF_OK ≠ GF_OK → wire_header GF_OK 120 = wire_header GF_OK 0) :=
  ⟨by decide, gfs_sendheader_writes ⟨4⟩ GF_OK 120 [5, 100] (by decide)⟩

theorem serve_connection_of_invalid (handler : Option Handler) (fd : Nat)
    (stale incoming : List Nat) (sends : List Int)
    (h : request_invalid (sscanf_request (cstr (recv_request stale 0 incoming).1)) = true) :
    (serve_connection handler fd stale incoming sends).trace =
      [SrvEvent.sent fd (send_all sends (wire_header GF_INVALID 0)).2.1,
        SrvEvent.closed fd, SrvEvent.freed ⟨fd⟩] ∧
    (serve_connection handler fd stale incoming sends).ctx = none := by
  have hz : (0 : Nat) < SIZE_LIMIT := by decide
  simp [serve_connection, h, gfs_sendheader_some ⟨fd⟩ GF_INVALID 0 sends hz, gfs_abort]

theorem serve_connection_of_valid (f : Handler) (fd : Nat)
    (stale incoming : List Nat) (sends : List Int)
    (h : request_invalid (sscanf_request (cstr (recv_request stale 0 incoming).1)) = false) :
    (serve_connection (some f) fd stale incoming sends).trace =
      SrvEvent.handled (some ⟨fd⟩)
          ((sscanf_request (cstr (recv_request stale 0 incoming).1)).2.getD 2 []) ::
        (gfs_abort (f (some ⟨fd⟩)
          ((sscanf_request (cstr (recv_request stale 0 incoming).1)).2.getD 2 [])).1).2 := by
  simp only [serve_connection, h]
  cases hc : (f (some ⟨fd⟩)
      ((sscanf_request (cstr (recv_request stale 0 incoming).1)).2.getD 2 [])).1 with
  | none => simp [gfs_abort]
  | some c => simp [gfs_abort]

/-- A request that fails the validation, with every scanned token within its
array: when the parse of the request read on a connection yields fewer than
three tokens, or the first token is not `GETFILE`, or the second is not `GET`,
or the third does not begin with `/`, the only effects of the engine are the
INVALID header on that connection (all of it unless a `send` fails), `close`
and `free` of the context; the reference ends null and the handler is not
invoked.  A token longer than its array is left out: there the scan writes
past the array. -/
theorem serve_connection_rejects (handler : Option Handler) (fd : Nat)
    (stale incoming : List Nat) (sends : List Int) (p : Int × List (List Nat))
    (hp : p = sscanf_request (cstr (recv_request stale 0 incoming).1))
    (hfit : tokens_overflow p.2 = false)
    (h : p.1 < 3 ∨ p.2.getD 0 [] ≠ bytes "GETFILE" ∨ p.2.getD 1 [] ≠ bytes "GET" ∨
      (p.2.getD 2 []).head? ≠ some 47) :
    (serve_connection handler fd stale incoming sends).overflow = false ∧
    ∃ w, (serve_connection handler fd stale incoming sends).trace =
        [SrvEvent.sent fd w, SrvEvent.closed fd, SrvEvent.freed ⟨fd⟩] ∧
      w <+: bytes "GETFILE INVALID\r\n\r\n" ∧
      ((∀ r ∈ sends, 0 < r) → w = bytes "GETFILE INVALID\r\n\r\n") ∧
      (serve_connection handler fd stale incoming sends).ctx = none ∧
      ∀ c path, SrvEvent.handled c path ∉ (serve_connection handler fd stale incoming sends).trace := by
  have hinv : request_invalid (sscanf_request (cstr (recv_request stale 0 incoming).1)) = true := by
    rw [← hp]
    have h1 : bytes "GETFILE" = GETFILE := by decide
    have h2 : bytes "GET" = GET := by decide
    rw [h1, h2] at h
    simp only [request_invalid, Bool.or_eq_true, bne_iff_ne, ne_eq]
    rcases h with h | h | h | h
    · left; left; left; omega
    · left; left; right; exact h
    · left; right; exact h
    · right; exact h
  have hov : (serve_connection handler fd stale incoming sends).overflow = false := by
    simp only [serve_connection, hinv, if_true]
    rw [← hp]
    exact hfit
  obtain ⟨ht, hc⟩ := serve_connection_of_invalid handler fd stale incoming sends hinv
  refine ⟨hov, _, ht, send_all_initial _ _, ?_, hc, ?_⟩
  · intro hpos
    exact send_all_ok _ _ (send_all_pos _ _ hpos)
  · intro c path hmem
    rw [ht] at hmem
    simp at hmem

theorem serve_connection_rejects_witness :
    ((1 : Int), [bytes "hello"]) =
        sscanf_request (cstr (recv_request (List.replicate 4096 0) 0 (bytes "hello\r\n\r\n")).1) ∧
    (serve_connection (some idle_handler) 7 (List.replicate 4096 0)
          (bytes "hello\r\n\r\n") []).overflow = false ∧
    ∃ w, (serve_connection (some idle_handler) 7 (List.replicate 4096 0)
          (bytes "hello\r\n\r\n") []).trace =
        [SrvEvent.sent 7 w, SrvEvent.closed 7, SrvEvent.freed ⟨7⟩] ∧
      w <+: bytes "GETFILE INVALID\r\n\r\n" ∧
      ((∀ r ∈ ([] : List Int), 0 < r) → w = bytes "GETFILE INVALID\r\n\r\n") ∧
      (serve_connection (some idle_handler) 7 (List.replicate 4096 0)
          (bytes "hello\r\n\r\n") []).ctx = none ∧
      ∀ c path, SrvEvent.handled c path ∉ (serve_connection (some idle_handler) 7
          (List.replicate 4096 0) (bytes "hello\r\n\r\n") []).trace :=
  ⟨by decide, serve_connection_rejects (some idle_handler) 7 (List.replicate 4096 0)
    (bytes "hello\r\n\r\n") [] (1, [bytes "hello"]) (by decide) (by decide) (by decide)⟩

/-- The trace of an iteration of the accept loop in the model when the three
tokens scanned are `GETFILE`, `GET` and a path that begins with `/`.  It
describes the C program where no token is longer than its array. -/
theorem serve_connection_valid_trace (f : Handler) (fd : Nat)
    (stale incoming : List Nat) (sends : List Int) (path : List Nat)
    (htok : (sscanf_request (cstr (recv_request stale 0 incoming).1)).2 =
      [bytes "GETFILE", bytes "GET", path])
    (hpath : path.head? = some 47) :
    (serve_connection (some f) fd stale incoming sends).trace =
      SrvEvent.handled (some ⟨fd⟩) path ::
        (match (f (some ⟨fd⟩) path).1 with
          | none => []
          | some c => [SrvEvent.closed c.clientfd, SrvEvent.freed c]) ∧
    ((serve_connection (some f) fd stale incoming sends).trace.filter
      (fun e => match e with
        | SrvEvent.handled _ _ => true
        | _ => false)).length = 1 ∧
    (serve_connection (some f) fd stale incoming sends).ctx = none := by
  have h1 : bytes "GETFILE" = GETFILE := by decide
  have h2 : bytes "GET" = GET := by decide
  have hparts := sscanf_request_parts (cstr (recv_request stale 0 incoming).1)
  rw [htok] at hparts
  have hinv : request_invalid (sscanf_request (cstr (recv_request stale 0 incoming).1)) = false := by
    simp [request_invalid, hparts, htok, h1, h2, hpath]
  have ht := serve_connection_of_valid f fd stale incoming sends hinv
  rw [htok] at ht
  simp only [List.getD_cons_succ, List.getD_cons_zero] at ht
  refine ⟨?_, ?_, ?_⟩
  · rw [ht]
    cases (f (some ⟨fd⟩) path).1 <;> simp [gfs_abort]
  · rw [ht]
    cases (f (some ⟨fd⟩) path).1 <;> simp [gfs_abort]
  · simp only [serve_connection, hinv, htok]
    cases hc : (f (some ⟨fd⟩) ([bytes "GETFILE", bytes "GET", path].getD 2 [])).1 <;>
      simp [gfs_abort, hc]

/-- A valid request with every scanned token within its array: for a request
whose three tokens are `GETFILE`, `GET` and a path of at most 255 bytes that
begins with `/`, a registered handler is invoked exactly once, with that path
and the reference to the live context, before anything else happens; after it
the engine aborts (closes and frees) the context the handler left in the
reference, and does nothing more when the handler left the reference null.  A
longer path is left out: there the scan writes past `path[256]`. -/
theorem serve_connection_dispatches (f : Handler) (fd : Nat)
    (stale incoming : List Nat) (sends : List Int) (path : List Nat)
    (htok : (sscanf_request (cstr (recv_request stale 0 incoming).1)).2 =
      [bytes "GETFILE", bytes "GET", path])
    (hpath : path.head? = some 47) (hfit : path.length ≤ 255) :
    (serve_connection (some f) fd stale incoming sends).overflow = false ∧
    (serve_connection (some f) fd stale incoming sends).trace =
      SrvEvent.handled (some ⟨fd⟩) path ::
        (match (f (some ⟨fd⟩) path).1 with
          | none => []
          | some c => [SrvEvent.closed c.clientfd, SrvEvent.freed c]) ∧
    ((serve_connection (some f) fd stale incoming sends).trace.filter
      (fun e => match e with
        | SrvEvent.handled _ _ => true
        | _ => false)).length = 1 ∧
    (serve_connection (some f) fd stale incoming sends).ctx = none := by
  have hov : (serve_connection (some f) fd stale incoming sends).overflow = false := by
    have hparts := sscanf_request_parts (cstr (recv_request stale 0 incoming).1)
    rw [htok] at hparts
    have h1 : bytes "GETFILE" = GETFILE := by decide
    have h2 : bytes "GET" = GET := by decide
    have hinv : request_invalid
        (sscanf_request (cstr (recv_request stale 0 incoming).1)) = false := by
      simp [request_invalid, hparts, htok, h1, h2, hpath]
    have h256 : ¬ 256 ≤ path.length := by omega
    cases hf : (f (some ⟨fd⟩) path).1 <;>
      simp [serve_connection, hinv, htok, tokens_overflow, bytes, h256, hf]
  exact ⟨hov, serve_connection_valid_trace f fd stale incoming sends path htok hpath⟩

theorem serve_connection_dispatches_witness :
    (sscanf_request (cstr (recv_request (List.replicate 4096 0) 0
        (bytes "GETFILE GET /x\r\n\r\n")).1)).2 = [bytes "GETFILE", bytes "GET", bytes "/x"] ∧
    (bytes "/x").head? = some 47 ∧ (bytes "/x").length ≤ 255 ∧
    ((serve_connection (some idle_handler) 7 (List.replicate 4096 0)
        (bytes "GETFILE GET /x\r\n\r\n") []).overflow = false ∧
    (serve_connection (some idle_handler) 7 (List.replicate 4096 0)
        (bytes "GETFILE GET /x\r\n\r\n") []).trace =
      SrvEvent.handled (some ⟨7⟩) (bytes "/x") ::
        (match (idle_handler (some ⟨7⟩) (bytes "/x")).1 with
          | none => []
          | some c => [SrvEvent.closed c.clientfd, SrvEvent.freed c]) ∧
    ((serve_connection (some idle_handler) 7 (List.replicate 4096 0)
        (bytes "GETFILE GET /x\r\n\r\n") []).trace.filter
      (fun e => match e with
        | SrvEvent.handled _ _ => true
        | _ => false)).length = 1 ∧
    (serve_connection (some idle_handler) 7 (List.replicate 4096 0)
        (bytes "GETFILE GET /x\r\n\r\n") []).ctx = none) :=
  ⟨by decide, by decide, by decide,
    serve_connection_dispatches idle_handler 7 (List.replicate 4096 0)
      (bytes "GETFILE GET /x\r\n\r\n") [] (bytes "/x") (by decide) (by decide) (by decide)⟩

theorem recv_overlong (stale junk extra : List Nat) (hs : stale.length = 4096)
    (hj : ∀ c ∈ junk, c ≠ 0 ∧ c ≠ 13) (hl : junk.length = 4080) :
    recv_request stale 0
        (71 :: ([69, 84, 70, 73, 76, 69, 32, 71, 69, 84, 32, 47, 120, 32] ++ junk) ++ extra) =
      (71 :: ([69, 84, 70, 73, 76, 69, 32, 71, 69, 84, 32, 47, 120, 32] ++ junk) ++ [0],
        4095) := by
  have := recv_request_plain
    ([69, 84, 70, 73, 76, 69, 32, 71, 69, 84, 32, 47, 120, 32] ++ junk)
    71 stale 0 extra
    (by simp)
    (by
      intro c hc
      simp only [List.mem_cons, List.mem_append, List.mem_nil_iff, or_false] at hc
      rcases hc with hc | hc | hc
      · omega
      · omega
      · exact hj c hc)
    (by simp [hs, hl])
    (by simp [BUF_SIZE, hl])
    (Or.inr (by simp [BUF_SIZE, hl]))
  rw [this]
  have hd : List.drop (0 + ([69, 84, 70, 73, 76, 69, 32, 71, 69, 84, 32, 47, 120, 32] ++
      junk).length + 2) stale = [] := by
    apply List.drop_eq_nil_of_le
    simp [hs, hl]
  rw [hd]
  simp [hl]

theorem parse_overlong (junk : List Nat) (hj : ∀ c ∈ junk, c ≠ 0 ∧ c ≠ 13) :
    sscanf_request (cstr (71 :: ([69, 84, 70, 73, 76, 69, 32, 71, 69, 84, 32, 47, 120, 32] ++
        junk) ++ [0])) = (3, [GETFILE, GET, [47, 120]]) := by
  rw [cstr_append_nul _ []
    (by
      intro c hc
      simp only [List.mem_cons, List.mem_append, List.mem_nil_iff, or_false] at hc
      rcases hc with hc | hc | hc
      · omega
      · omega
      · exact (hj c hc).1)]
  simp [sscanf_request, scan_s, isspace, List.takeWhile, List.dropWhile, GETFILE, GET]

theorem overlong_no_terminator (junk : List Nat) (hj : ∀ c ∈ junk, c ≠ 0 ∧ c ≠ 13) :
    strstr CRLFCRLF (cstr (71 :: ([69, 84, 70, 73, 76, 69, 32, 71, 69, 84, 32, 47, 120, 32] ++
        junk) ++ [0])) = none := by
  have hall : ∀ c ∈ 71 :: ([69, 84, 70, 73, 76, 69, 32, 71, 69, 84, 32, 47, 120, 32] ++ junk),
      c ≠ 0 ∧ c ≠ 13 := by
    intro c hc
    simp only [List.mem_cons, List.mem_append, List.mem_nil_iff, or_false] at hc
    rcases hc with hc | hc | hc
    · omega
    · omega
    · exact hj c hc
  rw [cstr_append_nul _ [] (fun c hc => (hall c hc).1)]
  exact strstr_no_cr _ (fun c hc => (hall c hc).2)

theorem letters_plain (k : Nat) : ∀ c ∈ List.replicate k 65, c ≠ 0 ∧ c ≠ 13 := by
  intro c hc
  have := (List.mem_replicate.mp hc).2
  omega

theorem unterminated_request_split :
    unterminated_request =
      71 :: ([69, 84, 70, 73, 76, 69, 32, 71, 69, 84, 32, 47, 120, 32] ++
        List.replicate 4080 65) ++ List.replicate 920 65 := by
  have h : List.replicate 5000 65 = List.replicate 4080 65 ++ List.replicate 920 65 :=
    List.replicate_add 4080 920 65
  unfold unterminated_request
  rw [h]
  simp only [GETFILE, GET, List.cons_append, List.nil_append, List.append_assoc]

theorem recv_unterminated :
    recv_request (List.replicate 4096 0) 0 unterminated_request =
      (71 :: ([69, 84, 70, 73, 76, 69, 32, 71, 69, 84, 32, 47, 120, 32] ++
        List.replicate 4080 65) ++ [0], 4095) := by
  rw [unterminated_request_split]
  exact recv_overlong _ _ _ (List.length_replicate _ _) (letters_plain _)
    (List.length_replicate _ _)

theorem parse_unterminated :
    sscanf_request (cstr (71 :: ([69, 84, 70, 73, 76, 69, 32, 71, 69, 84, 32, 47, 120, 32] ++
        List.replicate 4080 65) ++ [0])) = (3, [GETFILE, GET, [47, 120]]) :=
  parse_overlong _ (letters_plain _)

theorem cstr_unterminated_no_terminator :
    strstr CRLFCRLF (cstr (71 :: ([69, 84, 70, 73, 76, 69, 32, 71, 69, 84, 32, 47, 120, 32] ++
        List.replicate 4080 65) ++ [0])) = none :=
  overlong_no_terminator _ (letters_plain _)

/-- C2, refuted as stated: the request `"GETFILE GET /x "` followed by 5000
letters fills the buffer (4095 bytes read) without a terminator, and the engine
still invokes the handler with `/x` and sends no INVALID header. -/
theorem serve_connection_unterminated_dispatched :
    (serve_connection (some idle_handler) 7 (List.replicate 4096 0)
      unterminated_request []).received = BUF_SIZE - 1 ∧
    strstr CRLFCRLF (cstr (serve_connection (some idle_handler) 7 (List.replicate 4096 0)
      unterminated_request []).req) = none ∧
    (serve_connection (some idle_handler) 7 (List.replicate 4096 0)
      unterminated_request []).trace =
      [SrvEvent.handled (some ⟨7⟩) (bytes "/x"), SrvEvent.closed 7, SrvEvent.freed ⟨7⟩] := by
  have hinv : request_invalid (3, [GETFILE, GET, [47, 120]]) = false := by decide
  have hb : bytes "/x" = [47, 120] := by decide
  refine ⟨?_, ?_, ?_⟩
  · simp only [serve_connection, recv_unterminated, parse_unterminated, hinv]
    simp only [idle_handler, Option.isSome_some, if_true, Bool.false_eq_true, if_false,
      BUF_SIZE]
  · simp only [serve_connection, recv_unterminated, parse_unterminated, hinv]
    simp only [idle_handler, Option.isSome_some, if_true, Bool.false_eq_true, if_false]
    exact cstr_unterminated_no_terminator
  · simp only [serve_connection, recv_unterminated, parse_unterminated, hinv]
    simp only [idle_handler, Option.isSome_some, if_true, Bool.false_eq_true, if_false,
      gfs_abort, hb, List.getD_cons_succ, List.getD_cons_zero]

/-- C2, amended: when the buffer is exhausted (4095 bytes read) and holds no
terminator, and each token the scan stores fits its array (tag and method at
most 15 bytes, path at most 255), the engine decides on the tokens of the bytes
read alone.  If they fail the validation it sends the INVALID header, closes
the connection and does not invoke the handler; if they pass it, the registered
handler is invoked with the path token.  A token longer than its array is left
out: there the scan writes past the array. -/
theorem serve_connection_exhausted (f : Handler) (fd : Nat)
    (stale incoming : List Nat) (sends : List Int) (p : Int × List (List Nat))
    (hfull : (recv_request stale 0 incoming).2 = BUF_SIZE - 1)
    (_hnoterm : strstr CRLFCRLF (cstr (recv_request stale 0 incoming).1) = none)
    (hp : p = sscanf_request (cstr (recv_request stale 0 incoming).1))
    (hfit : tokens_overflow p.2 = false) :
    (serve_connection (some f) fd stale incoming sends).received = BUF_SIZE - 1 ∧
    (serve_connection (some f) fd stale incoming sends).overflow = false ∧
    ((p.1 < 3 ∨ p.2.getD 0 [] ≠ bytes "GETFILE" ∨ p.2.getD 1 [] ≠ bytes "GET" ∨
        (p.2.getD 2 []).head? ≠ some 47) →
      (serve_connection (some f) fd stale incoming sends).trace =
        [SrvEvent.sent fd (send_all sends (bytes "GETFILE INVALID\r\n\r\n")).2.1,
          SrvEvent.closed fd, SrvEvent.freed ⟨fd⟩]) ∧
    (¬ (p.1 < 3 ∨ p.2.getD 0 [] ≠ bytes "GETFILE" ∨ p.2.getD 1 [] ≠ bytes "GET" ∨
        (p.2.getD 2 []).head? ≠ some 47) →
      (serve_connection (some f) fd stale incoming sends).trace =
        SrvEvent.handled (some ⟨fd⟩) (p.2.getD 2 []) ::
          (gfs_abort (f (some ⟨fd⟩) (p.2.getD 2 [])).1).2) := by
  have h1 : bytes "GETFILE" = GETFILE := by decide
  have h2 : bytes "GET" = GET := by decide
  have h3 : bytes "GETFILE INVALID\r\n\r\n" = wire_header GF_INVALID 0 := by decide
  have hle := sscanf_request_le (cstr (recv_request stale 0 incoming).1)
  rw [← hp] at hle
  have hiff : request_invalid p = true ↔
      (p.1 < 3 ∨ p.2.getD 0 [] ≠ bytes "GETFILE" ∨ p.2.getD 1 [] ≠ bytes "GET" ∨
        (p.2.getD 2 []).head? ≠ some 47) := by
    rw [h1, h2]
    simp only [request_invalid, Bool.or_eq_true, bne_iff_ne, ne_eq]
    constructor
    · rintro (((h | h) | h) | h)
      · left; omega
      · right; left; exact h
      · right; right; left; exact h
      · right; right; right; exact h
    · rintro (h | h | h | h)
      · left; left; left; omega
      · left; left; right; exact h
      · left; right; exact h
      · right; exact h
  refine ⟨?_, ?_, ?_, ?_⟩
  · simp only [serve_connection]
    split
    · exact hfull
    · split <;> exact hfull
  · rw [hp] at hfit
    simp only [serve_connection]
    split
    · exact hfit
    · split <;> exact hfit
  · intro h
    rw [h3]
    exact (serve_connection_of_invalid (some f) fd stale incoming sends
      (by rw [← hp]; exact hiff.mpr h)).1
  · intro h
    have hv : request_invalid p = false := by
      cases hr : request_invalid p
      · rfl
      · exact absurd (hiff.mp hr) h
    rw [hp]
    exact serve_connection_of_valid f fd stale incoming sends (by rw [← hp]; exact hv)

theorem serve_connection_exhausted_witness :
    (recv_request (List.replicate 4096 0) 0 unterminated_request).2 = BUF_SIZE - 1 ∧
    strstr CRLFCRLF (cstr (recv_request (List.replicate 4096 0) 0 unterminated_request).1) =
      none ∧
    ((3 : Int), [GETFILE, GET, [47, 120]]) =
      sscanf_request (cstr (recv_request (List.replicate 4096 0) 0 unterminated_request).1) ∧
    tokens_overflow [GETFILE, GET, [47, 120]] = false ∧
    (serve_connection (some idle_handler) 9 (List.replicate 4096 0)
      unterminated_request [1]).received = BUF_SIZE - 1 ∧
    (serve_connection (some idle_handler) 9 (List.replicate 4096 0)
      unterminated_request [1]).overflow = false :=
  have hfull : (recv_request (List.replicate 4096 0) 0 unterminated_request).2 =
      BUF_SIZE - 1 := by
    rw [recv_unterminated]; rfl
  have hnoterm : strstr CRLFCRLF
      (cstr (recv_request (List.replicate 4096 0) 0 unterminated_request).1) = none := by
    rw [recv_unterminated]; exact cstr_unterminated_no_terminator
  have hp : ((3 : Int), [GETFILE, GET, [47, 120]]) =
      sscanf_request (cstr (recv_request (List.replicate 4096 0) 0 unterminated_request).1) := by
    rw [recv_unterminated]; exact parse_unterminated.symm
  have hfit : tokens_overflow [GETFILE, GET, [47, 120]] = false := by decide
  ⟨hfull, hnoterm, hp, hfit,
    (serve_connection_exhausted idle_handler 9 (List.replicate 4096 0) unterminated_request
      [1] (3, [GETFILE, GET, [47, 120]]) hfull hnoterm hp hfit).1,
    (serve_connection_exhausted idle_handler 9 (List.replicate 4096 0) unterminated_request
      [1] (3, [GETFILE, GET, [47, 120]]) hfull hnoterm hp hfit).2.1⟩

/-! ## Client engine: connection set-up -/

theorem request_line_eq (path : List Nat) :
    GETFILE ++ [32] ++ GET ++ [32] ++ path ++ CRLFCRLF = request_line path := by
  have h1 : bytes "GETFILE GET " = GETFILE ++ [32] ++ GET ++ [32] := by decide
  have h2 : bytes "\r\n\r\n" = CRLFCRLF := by decide
  rw [request_line, h1, h2]

theorem gfc_perform_of_sent (req : gfcrequest_t) (net : ClientNet)
    (h : request_sent req net = true) :
    gfc_perform req net =
      (gfc_header_loop { req with bytesreceived := 0, filelen := 0, status := GF_INVALID }
        (recv_fuel net.recvs) [] net.recvs).map
        (fun r => { r with sent := request_line (cstr req.path) }) := by
  simp only [request_sent, Bool.and_eq_true, decide_eq_true_eq] at h
  obtain ⟨⟨⟨h1, h2⟩, h3⟩, h4⟩ := h
  have hw := send_all_ok _ _ h4
  have hpos : 0 < (request_line (cstr req.path)).length := by
    simp [request_line, bytes]
  have htake : List.take (REQ_BUFSIZE - 1) (request_line (cstr req.path)) =
      request_line (cstr req.path) := List.take_of_length_le (by omega)
  have hc1 : ¬ (((request_line (cstr req.path)).length : Int) ≤ 0 ∨
      (REQ_BUFSIZE : Int) ≤ ((request_line (cstr req.path)).length : Int)) := by omega
  simp only [gfc_perform, h1, h2, Bool.not_true, Bool.false_eq_true, if_false, snprintf,
    request_line_eq, htake, hc1, Int.toNat_ofNat, List.take_length, h4, hw]
  simp

theorem gfc_perform_of_not_sent (req : gfcrequest_t) (net : ClientNet)
    (h : request_sent req net = false) :
    ∃ sent, gfc_perform req net =
      some ⟨-1, { req with bytesreceived := 0, filelen := 0, status := GF_INVALID }, [], 0,
        sent⟩ := by
  by_cases h1 : net.resolved = true
  · by_cases h2 : connect_any net.candidates = true
    · by_cases h3 : (request_line (cstr req.path)).length < REQ_BUFSIZE
      · have h4 : ¬ (send_all net.sends (request_line (cstr req.path))).1 = 0 := by
          intro h4
          simp [request_sent, h1, h2, h3, h4] at h
        have h5 : (send_all net.sends (request_line (cstr req.path))).1 = -1 := by
          rcases send_all_ret net.sends (request_line (cstr req.path)) with h0 | h0
          · exact absurd h0 h4
          · exact h0
        have hpos : 0 < (request_line (cstr req.path)).length := by
          simp [request_line, bytes]
        have htake : List.take (REQ_BUFSIZE - 1) (request_line (cstr req.path)) =
            request_line (cstr req.path) := List.take_of_length_le (by omega)
        have hc1 : ¬ (((request_line (cstr req.path)).length : Int) ≤ 0 ∨
            (REQ_BUFSIZE : Int) ≤ ((request_line (cstr req.path)).length : Int)) := by omega
        refine ⟨(send_all net.sends (request_line (cstr req.path))).2.1, ?_⟩
        simp only [gfc_perform, h1, h2, Bool.not_true, Bool.false_eq_true, if_false, snprintf,
          request_line_eq, htake, hc1, Int.toNat_ofNat, List.take_length, h5]
        simp
      · refine ⟨[], ?_⟩
        have hc1 : (((request_line (cstr req.path)).length : Int) ≤ 0 ∨
            (REQ_BUFSIZE : Int) ≤ ((request_line (cstr req.path)).length : Int)) := by
          right; omega
        simp only [gfc_perform, h1, h2, Bool.not_true, Bool.false_eq_true, if_false, snprintf,
          request_line_eq, hc1, if_true]
    · refine ⟨[], ?_⟩
      simp [gfc_perform, h1, h2]
  · refine ⟨[], ?_⟩
    simp [gfc_perform, h1]

/-! ## Locating the terminator -/

theorem strstr_short (x : List Nat) (h : x.length < 4) : strstr CRLFCRLF x = none := by
  induction x with
  | nil => simp [strstr, CRLFCRLF, List.isPrefixOf]
  | cons b t ih =>
    have hp : CRLFCRLF.isPrefixOf (b :: t) = false := by
      cases hpre : CRLFCRLF.isPrefixOf (b :: t)
      · rfl
      · have := (List.isPrefixOf_iff_prefix.mp hpre).length_le
        simp [CRLFCRLF] at this h
        omega
    have := ih (by simp at h; omega)
    simp [strstr, hp, this]

theorem strstr_clean_partial (l : List Nat) : ∀ hb : List Nat, (∀ b ∈ l, b ≠ 13) →
    hb <+: l ++ CRLFCRLF → hb.length < l.length + 4 → strstr CRLFCRLF hb = none := by
  induction l with
  | nil =>
    intro hb _ _ hlen
    exact strstr_short hb (by simpa using hlen)
  | cons a l ih =>
    intro hb hcr hpre hlen
    cases hb with
    | nil => simp [strstr, CRLFCRLF, List.isPrefixOf]
    | cons b t =>
      rw [List.cons_append, List.cons_prefix_cons] at hpre
      obtain ⟨hab, hpre⟩ := hpre
      have hb13 : b ≠ 13 := by
        rw [hab]; exact hcr a (by simp)
      have := ih t (fun c hc => hcr c (by simp [hc])) hpre (by simp at hlen; omega)
      simp [strstr, crlf_not_leading b t hb13, this]

theorem strstr_clean_found (l : List Nat) : ∀ x : List Nat, (∀ b ∈ l, b ≠ 13) →
    strstr CRLFCRLF (l ++ CRLFCRLF ++ x) = some l.length := by
  induction l with
  | nil =>
    intro x _
    simp [strstr, CRLFCRLF, List.isPrefixOf]
  | cons a l ih =>
    intro x hcr
    have ha : a ≠ 13 := hcr a (by simp)
    have := ih x (fun c hc => hcr c (by simp [hc]))
    simp only [List.cons_append, strstr, crlf_not_leading a _ ha, Bool.false_eq_true, if_false]
    simp only [List.append_assoc] at this
    simp [this]

/-- What the header loop sees of a stream that starts with a line free of NUL
and CR followed by the terminator: nothing before the terminator is complete,
the terminator at the end of the line afterwards. -/
theorem strstr_stream (l r hb t : List Nat) (hl : ∀ b ∈ l, b ≠ 0 ∧ b ≠ 13)
    (hs : hb ++ t = l ++ CRLFCRLF ++ r) :
    (hb.length < l.length + 4 → strstr CRLFCRLF (cstr hb) = none) ∧
    (l.length + 4 ≤ hb.length → ∃ p, hb = l ++ CRLFCRLF ++ p ∧ r = p ++ t ∧
      cstr hb = l ++ CRLFCRLF ++ cstr p ∧ strstr CRLFCRLF (cstr hb) = some l.length) := by
  have hlt : ∀ b ∈ l ++ CRLFCRLF, b ≠ 0 := by
    intro b hb'
    rcases List.mem_append.mp hb' with h | h
    · exact (hl b h).1
    · simp [CRLFCRLF] at h
      omega
  have hp1 : hb <+: l ++ CRLFCRLF ++ r := ⟨t, hs⟩
  have hp2 : l ++ CRLFCRLF <+: l ++ CRLFCRLF ++ r := ⟨r, rfl⟩
  constructor
  · intro hlen
    have hpre : hb <+: l ++ CRLFCRLF :=
      List.prefix_of_prefix_length_le hp1 hp2 (by simp [CRLFCRLF]; omega)
    have hnz : ∀ b ∈ hb, b ≠ 0 := fun b hb' => hlt b (hpre.subset hb')
    rw [cstr_self hb hnz]
    exact strstr_clean_partial l hb (fun b hb' => (hl b hb').2) hpre hlen
  · intro hlen
    have hpre : l ++ CRLFCRLF <+: hb :=
      List.prefix_of_prefix_length_le hp2 hp1 (by simp [CRLFCRLF]; omega)
    obtain ⟨p, hp⟩ := hpre
    have hr : r = p ++ t := by
      rw [← hp, List.append_assoc] at hs
      exact (List.append_cancel_left hs).symm
    have hc : cstr hb = l ++ CRLFCRLF ++ cstr p := by
      rw [← hp, cstr_append _ _ hlt]
    refine ⟨p, hp.symm, hr, hc, ?_⟩
    rw [hc]
    exact strstr_clean_found l _ (fun b hb' => (hl b hb').2)

/-! ## The header loop on a stream of arrivals -/

theorem recv_data_le (cap : Nat) (bs : List Nat) (rest : List RecvEvent)
    (h : bs.length ≤ cap) :
    recv cap (RecvEvent.data bs :: rest) = ((bs.length : Int), bs, rest) := by
  simp [recv, h]

theorem recv_data_gt (cap : Nat) (bs : List Nat) (rest : List RecvEvent)
    (h : cap < bs.length) :
    recv cap (RecvEvent.data bs :: rest) =
      ((cap : Int), bs.take cap, RecvEvent.data (bs.drop cap) :: rest) := by
  have : ¬ bs.length ≤ cap := by omega
  simp [recv, this]

theorem recv_fuel_pos (sock : List RecvEvent) : 0 < recv_fuel sock := by
  cases sock with
  | nil => simp [recv_fuel]
  | cons e rest => cases e <;> simp [recv_fuel]

/-- On a stream that starts with a line free of NUL and CR followed by the
terminator, all within the header buffer, the header loop reaches the header
parse with the buffer holding the line, the terminator and the body bytes `p`
that came in the same read; the rest of the stream is still to be read. -/
theorem header_loop_arrivals (req : gfcrequest_t) (l r : List Nat)
    (hl : ∀ b ∈ l, b ≠ 0 ∧ b ≠ 13) (hfit : l.length + 4 ≤ HDR_BUFSIZE - 1) :
    ∀ (chunks : List (List Nat)) (hdr : List Nat) (fuel : Nat),
      (∀ c ∈ chunks, c ≠ []) → hdr ++ chunks.flatten = l ++ CRLFCRLF ++ r →
      hdr.length < l.length + 4 → recv_fuel (arrivals chunks) ≤ fuel →
      ∃ p chunks' fuel',
        gfc_header_loop req fuel hdr (arrivals chunks) =
          gfc_parse_header req fuel' (l ++ CRLFCRLF ++ p) l.length (arrivals chunks') ∧
        p ++ chunks'.flatten = r ∧ (∀ c ∈ chunks', c ≠ []) ∧
        recv_fuel (arrivals chunks') ≤ fuel' := by
  intro chunks
  induction chunks with
  | nil =>
    intro hdr fuel _ hs hlen _
    exfalso
    have := congrArg List.length hs
    simp [CRLFCRLF] at this
    omega
  | cons c cs ih =>
    intro hdr fuel hne hs hlen hfuel
    have hc : c ≠ [] := hne c (by simp)
    have hcpos : 0 < c.length := List.length_pos.mpr hc
    have hcs : ∀ c ∈ cs, c ≠ [] := fun x hx => hne x (by simp [hx])
    simp only [arrivals, List.map_cons, recv_fuel] at hfuel
    obtain ⟨f, rfl⟩ : ∃ f, fuel = f + 1 := ⟨fuel - 1, by omega⟩
    have hroom : hdr.length + 1 < HDR_BUFSIZE := by
      simp only [HDR_BUFSIZE] at hfit ⊢
      omega
    simp only [arrivals, List.map_cons]
    rw [gfc_header_loop]
    simp only [hroom, if_true]
    by_cases hcap : c.length ≤ HDR_BUFSIZE - hdr.length - 1
    · rw [recv_data_le _ _ _ hcap]
      have hr0 : ¬ ((c.length : Int) ≤ 0) := by omega
      simp only [hr0, if_false]
      have hs' : (hdr ++ c) ++ cs.flatten = l ++ CRLFCRLF ++ r := by
        rw [List.append_assoc, ← List.flatten_cons]; exact hs
      obtain ⟨hnone, hsome⟩ := strstr_stream l r (hdr ++ c) cs.flatten hl hs'
      by_cases hshort : (hdr ++ c).length < l.length + 4
      · rw [hnone hshort]
        simp only
        exact ih (hdr ++ c) f hcs hs' hshort (by simp only [arrivals]; omega)
      · obtain ⟨p, hp, hr, _, hfound⟩ := hsome (by omega)
        rw [hfound]
        simp only
        refine ⟨p, cs, f, ?_, hr.symm, hcs, by omega⟩
        rw [hp]
    · have hgt : HDR_BUFSIZE - hdr.length - 1 < c.length := by omega
      rw [recv_data_gt _ _ _ hgt]
      have hr0 : ¬ (((HDR_BUFSIZE - hdr.length - 1 : Nat) : Int) ≤ 0) := by omega
      simp only [hr0, if_false]
      have hs' : (hdr ++ c.take (HDR_BUFSIZE - hdr.length - 1)) ++
          (c.drop (HDR_BUFSIZE - hdr.length - 1) ++ cs.flatten) = l ++ CRLFCRLF ++ r := by
        rw [← hs, List.flatten_cons]
        simp only [List.append_assoc]
        rw [← List.append_assoc (c.take _), List.take_append_drop]
      obtain ⟨_, hsome⟩ := strstr_stream l r _ _ hl hs'
      have hfull : l.length + 4 ≤ (hdr ++ c.take (HDR_BUFSIZE - hdr.length - 1)).length := by
        simp only [List.length_append, List.length_take]
        omega
      obtain ⟨p, hp, hr, _, hfound⟩ := hsome hfull
      rw [hfound]
      simp only
      refine ⟨p, c.drop (HDR_BUFSIZE - hdr.length - 1) :: cs, f, ?_, ?_, ?_, ?_⟩
      · rw [hp, List.map_cons]
      · rw [List.flatten_cons]; exact hr.symm
      · intro x hx
        rcases List.mem_cons.mp hx with hx | hx
        · rw [hx]
          intro hnil
          have := congrArg List.length hnil
          simp at this
          omega
        · exact hcs x hx
      · simp only [List.map_cons, recv_fuel, List.length_drop]
        omega

/-! ## Callback traces -/

theorem delivered_append (a b : List CliEvent) :
    delivered (a ++ b) = delivered a ++ delivered b := by
  induction a with
  | nil => simp [delivered]
  | cons e a ih => cases e <;> simp [delivered, ih]

theorem header_calls_append (a b : List CliEvent) :
    header_calls (a ++ b) = header_calls a ++ header_calls b := by
  induction a with
  | nil => simp [header_calls]
  | cons e a ih => cases e <;> simp [header_calls, ih]

/-! ## The body loop on a stream of arrivals -/

/-- When the arrivals hold no more bytes than are still missing, the body loop
takes all of them, hands them to the data callback in order, and ends in
success exactly when nothing is missing at the close. -/
theorem body_loop_arrivals (fuel : Nat) : ∀ (chunks : List (List Nat)) (req : gfcrequest_t)
    (tr : List CliEvent) (reads : Nat),
    (∀ c ∈ chunks, c ≠ []) → req.bytesreceived + chunks.flatten.length ≤ req.filelen →
    req.filelen < SIZE_LIMIT → recv_fuel (arrivals chunks) ≤ fuel →
    ∃ r, gfc_body_loop fuel req tr reads (arrivals chunks) = some r ∧
      r.req = { req with bytesreceived := req.bytesreceived + chunks.flatten.length } ∧
      r.ret = (if req.bytesreceived + chunks.flatten.length < req.filelen then -1 else 0) ∧
      delivered r.trace = delivered tr ++ (if req.writefunc then chunks.flatten else []) ∧
      header_calls r.trace = header_calls tr ∧ reads < r.body_reads := by
  induction fuel with
  | zero =>
    intro chunks req tr reads _ _ _ hfuel
    have := recv_fuel_pos (arrivals chunks)
    omega
  | succ f ih =>
    intro chunks req tr reads hne hle hsz hfuel
    cases chunks with
    | nil =>
      simp only [arrivals, List.map_nil, gfc_body_loop, recv]
      by_cases hlt : req.bytesreceived < req.filelen
      · refine ⟨_, by simp only [hlt]; rfl, ?_, ?_, ?_, ?_, ?_⟩ <;> simp [hlt]
      · refine ⟨_, by simp only [hlt]; rfl, ?_, ?_, ?_, ?_, ?_⟩ <;> simp [hlt]
    | cons c cs =>
      have hc : c ≠ [] := hne c (by simp)
      have hcpos : 0 < c.length := List.length_pos.mpr hc
      have hcs : ∀ c ∈ cs, c ≠ [] := fun x hx => hne x (by simp [hx])
      simp only [List.flatten_cons, List.length_append] at hle ⊢
      simp only [arrivals, List.map_cons, recv_fuel] at hfuel
      simp only [arrivals, List.map_cons]
      rw [gfc_body_loop]
      by_cases hcap : c.length ≤ DATA_BUFSIZE
      · rw [recv_data_le _ _ _ hcap]
        have h1 : ¬ ((c.length : Int) < 0) := by omega
        have h2 : ¬ ((c.length : Int) = 0) := by omega
        have hmod : (req.bytesreceived + c.length) % SIZE_LIMIT = req.bytesreceived + c.length :=
          Nat.mod_eq_of_lt (by omega)
        simp only [h1, h2, if_false, hmod]
        by_cases hdone : req.bytesreceived + c.length ≥ req.filelen
        · have hz : cs.flatten.length = 0 := by omega
          have hnl : cs.flatten = [] := List.length_eq_zero.mp hz
          have hnot : ¬ req.bytesreceived + (c.length + 0) < req.filelen := by omega
          simp only [hdone, if_true, hz, hnl, hnot, if_false]
          refine ⟨_, rfl, rfl, ?_, ?_, ?_, by simp⟩
          · simp only [List.length_nil, Nat.add_zero]
            rw [if_neg (by omega)]
          · cases req.writefunc <;> simp [delivered_append, delivered]
          · cases req.writefunc <;> simp [header_calls_append, header_calls]
        · simp only [hdone, if_false]
          obtain ⟨r, hr, hreq, hret, hdel, hhdr, hreads⟩ :=
            ih cs { req with bytesreceived := req.bytesreceived + c.length }
              (if req.writefunc then tr ++ [CliEvent.data c] else tr) (reads + 1) hcs
              (by simp only; omega) hsz (by simp only [arrivals]; omega)
          refine ⟨r, hr, ?_, ?_, ?_, ?_, by omega⟩
          · rw [hreq]
            simp only [gfcrequest_t.mk.injEq, true_and]
            omega
          · rw [hret]
            simp only [Nat.add_assoc]
          · rw [hdel]
            cases req.writefunc <;> simp [delivered_append, delivered]
          · rw [hhdr]
            cases req.writefunc <;> simp [header_calls_append, header_calls]
      · have hgt : DATA_BUFSIZE < c.length := by omega
        rw [recv_data_gt _ _ _ hgt]
        have h1 : ¬ ((DATA_BUFSIZE : Int) < 0) := by omega
        have h2 : ¬ ((DATA_BUFSIZE : Int) = 0) := by simp [DATA_BUFSIZE]
        have htl : (c.take DATA_BUFSIZE).length = DATA_BUFSIZE := by
          simp only [List.length_take]; omega
        have hmod : (req.bytesreceived + DATA_BUFSIZE) % SIZE_LIMIT =
            req.bytesreceived + DATA_BUFSIZE := Nat.mod_eq_of_lt (by omega)
        have hmore : ¬ req.bytesreceived + DATA_BUFSIZE ≥ req.filelen := by omega
        simp only [h1, h2, if_false, htl, hmod, hmore]
        obtain ⟨r, hr, hreq, hret, hdel, hhdr, hreads⟩ :=
          ih (c.drop DATA_BUFSIZE :: cs)
            { req with bytesreceived := req.bytesreceived + DATA_BUFSIZE }
            (if req.writefunc then tr ++ [CliEvent.data (c.take DATA_BUFSIZE)] else tr)
            (reads + 1)
            (by
              intro x hx
              rcases List.mem_cons.mp hx with hx | hx
              · rw [hx]
                intro hnil
                have := congrArg List.length hnil
                simp at this
                omega
              · exact hcs x hx)
            (by simp only [List.flatten_cons, List.length_append, List.length_drop]; omega)
            hsz
            (by simp only [arrivals, List.map_cons, recv_fuel, List.length_drop]; omega)
        simp only [arrivals, List.map_cons] at hr
        simp only [List.flatten_cons, List.length_append, List.length_drop] at hreq hret hdel
        refine ⟨r, hr, ?_, ?_, ?_, ?_, by omega⟩
        · rw [hreq]
          simp only [gfcrequest_t.mk.injEq, true_and]
          omega
        · rw [hret]
          have : req.bytesreceived + DATA_BUFSIZE + (c.length - DATA_BUFSIZE + cs.flatten.length) =
              req.bytesreceived + (c.length + cs.flatten.length) := by omega
          rw [this]
        · rw [hdel]
          cases req.writefunc
          · simp
          · simp only [if_true, delivered_append, delivered, List.append_nil,
              List.append_assoc]
            rw [← List.append_assoc (c.take DATA_BUFSIZE), List.take_append_drop]
        · rw [hhdr]
          cases req.writefunc <;> simp [header_calls_append, header_calls]

/-! ## Scanning the header line -/

theorem takeWhile_stop (p : Nat → Bool) (rest : List Nat)
    (h : ∀ b, rest.head? = some b → p b = false) : rest.takeWhile p = [] := by
  cases rest with
  | nil => rfl
  | cons b t =>
    have := h b rfl
    simp [List.takeWhile_cons, this]

theorem scan_s_token (w : Nat) (lead tok rest : List Nat) (hlead : ∀ b ∈ lead, isspace b = true)
    (htok : tok ≠ []) (hns : ∀ b ∈ tok, isspace b = false)
    (hrest : ∀ b, rest.head? = some b → isspace b = true) :
    scan_s (some w) (lead ++ tok ++ rest) = some (tok.take w, tok.drop w ++ rest) := by
  obtain ⟨t0, ts, rfl⟩ : ∃ t0 ts, tok = t0 :: ts := by
    cases tok with
    | nil => exact absurd rfl htok
    | cons a b => exact ⟨a, b, rfl⟩
  have h0 : isspace t0 = false := hns t0 (by simp)
  have hdrop : List.dropWhile isspace (lead ++ (t0 :: ts) ++ rest) = (t0 :: ts) ++ rest := by
    rw [List.append_assoc, List.dropWhile_append_of_pos hlead]
    exact List.dropWhile_cons_of_neg (by simp [h0])
  have hrun : List.takeWhile (fun b => !isspace b) ((t0 :: ts) ++ rest) = t0 :: ts := by
    rw [List.takeWhile_append_of_pos (by intro b hb; simp [hns b hb])]
    rw [takeWhile_stop _ rest (by intro b hb; simp [hrest b hb])]
    simp
  simp only [scan_s, hdrop, hrun]
  have hne : ¬ ((t0 :: ts) ++ rest = []) := by simp
  simp only [hne, if_false, Option.some.injEq, Prod.mk.injEq, true_and]
  by_cases hw : w ≤ (t0 :: ts).length
  · rw [List.length_take, Nat.min_eq_left hw, List.drop_append_of_le_length hw]
  · have hw' : (t0 :: ts).length ≤ w := by omega
    rw [List.length_take, Nat.min_eq_right hw', List.drop_eq_nil_of_le hw']
    simp

theorem isspace_of_isdigit (b : Nat) (h : isdigit b = true) : isspace b = false := by
  simp only [isdigit, Bool.and_eq_true, decide_eq_true_eq] at h
  have h1 : b ≠ 32 := by omega
  have h2 : b ≠ 9 := by omega
  have h3 : b ≠ 10 := by omega
  have h4 : b ≠ 11 := by omega
  have h5 : b ≠ 12 := by omega
  have h6 : b ≠ 13 := by omega
  simp [isspace, h1, h2, h3, h4, h5, h6]

/-- `%zu` reads back what `%zu` printed, up to the CR that follows it. -/
theorem scan_zu_decimal (n : Nat) (y : List Nat) (hn : n < SIZE_LIMIT) :
    scan_zu (32 :: (decimal n ++ CRLFCRLF ++ y)) = some n := by
  obtain ⟨d0, ds, hd⟩ : ∃ d0 ds, decimal n = d0 :: ds := by
    cases h : decimal n with
    | nil => exact absurd h (decimal_ne_nil n)
    | cons a b => exact ⟨a, b, rfl⟩
  have hdig := decimal_isdigit n
  have hd0 : isdigit d0 = true := hdig d0 (by rw [hd]; simp)
  have hsp0 : isspace d0 = false := isspace_of_isdigit d0 hd0
  have hrange : 48 ≤ d0 ∧ d0 ≤ 57 := by
    simpa [isdigit] using hd0
  have h45 : d0 ≠ 45 := by omega
  have h43 : d0 ≠ 43 := by omega
  have hdrop : List.dropWhile isspace (32 :: (decimal n ++ CRLFCRLF ++ y)) =
      decimal n ++ CRLFCRLF ++ y := by
    rw [List.dropWhile_cons_of_pos (by decide), hd]
    exact List.dropWhile_cons_of_neg (by simp [hsp0])
  have hhead : (decimal n ++ CRLFCRLF ++ y).head? = some d0 := by
    rw [hd]; rfl
  have htake : List.takeWhile isdigit (decimal n ++ CRLFCRLF ++ y) = decimal n := by
    rw [List.append_assoc, List.takeWhile_append_of_pos hdig]
    simp [CRLFCRLF, List.takeWhile_cons, isdigit]
  simp only [scan_zu, hdrop, hhead]
  have e1 : (some d0 == some 45) = false := by simp [h45]
  have e2 : (some d0 == some 43) = false := by simp [h43]
  simp only [e1, e2, Bool.or_self, Bool.false_eq_true, if_false, htake, decimal_ne_nil,
    digitsValue_decimal]
  have : ¬ SIZE_LIMIT ≤ n := by omega
  simp [this]

/-- The header scan of a line `GETFILE <token>` whose token is followed by
white space: tag and token (cut to 31 bytes) are stored, and `%zu` goes on from
behind the 31st byte of the token. -/
theorem sscanf_header_line (tok rest : List Nat) (htok : tok ≠ [])
    (hns : ∀ b ∈ tok, isspace b = false)
    (hrest : ∀ b, rest.head? = some b → isspace b = true) :
    sscanf_header (GETFILE ++ [32] ++ tok ++ rest) =
      (if (scan_zu (tok.drop 31 ++ rest)).isSome then 3 else 2, GETFILE, tok.take 31,
        (scan_zu (tok.drop 31 ++ rest)).getD 0) := by
  have h1 : scan_s (some 31) (GETFILE ++ [32] ++ tok ++ rest) =
      some (GETFILE, [32] ++ tok ++ rest) := by
    have := scan_s_token 31 [] GETFILE ([32] ++ tok ++ rest) (by simp) (by simp [GETFILE])
      (by decide) (by intro b hb; simp at hb; subst hb; decide)
    simpa [GETFILE] using this
  have h2 : scan_s (some 31) ([32] ++ tok ++ rest) = some (tok.take 31, tok.drop 31 ++ rest) :=
    scan_s_token 31 [32] tok rest (by decide) htok hns hrest
  simp only [sscanf_header, h1, h2]
  cases scan_zu (tok.drop 31 ++ rest) <;> simp

/-! ## The header parse on a well-formed line -/

theorem not_space_ne (b : Nat) (h : isspace b = false) : b ≠ 13 := by
  intro hb
  subst hb
  simp [isspace] at h

theorem status_line_clean (tok tail : List Nat) (hnz : ∀ b ∈ tok, b ≠ 0)
    (hns : ∀ b ∈ tok, isspace b = false) (htail : ∀ b ∈ tail, b ≠ 0 ∧ b ≠ 13) :
    ∀ b ∈ GETFILE ++ [32] ++ tok ++ tail, b ≠ 0 ∧ b ≠ 13 := by
  intro b hb
  simp only [List.mem_append] at hb
  rcases hb with ((hb | hb) | hb) | hb
  · simp [GETFILE] at hb
    omega
  · simp at hb
    omega
  · exact ⟨hnz b hb, not_space_ne b (hns b hb)⟩
  · exact htail b hb

/-- The header parse once the scan of the buffer is known to yield the tag
`GETFILE` and at least two fields. -/
theorem gfc_parse_header_eval (req : gfcrequest_t) (fuel : Nat) (hdrbuf : List Nat) (e : Nat)
    (sock : List RecvEvent) (k : Int) (st : List Nat) (v fl : Nat)
    (hsc : sscanf_header (cstr hdrbuf) = (k, GETFILE, st, v)) (hk : ¬ k < 2)
    (hv : (if k = 2 then 0 else v) = fl) :
    gfc_parse_header req fuel hdrbuf e sock =
      if parse_status st = GF_OK then
        gfc_read_body fuel
          { req with
            status := parse_status st
            filelen := fl
            bytesreceived := (req.bytesreceived + (hdrbuf.length - (e + 4))) % SIZE_LIMIT }
          (if hdrbuf.length - (e + 4) > 0 ∧ req.writefunc = true then
            (if req.headerfunc = true then [CliEvent.header (hdrbuf.take (e + 4))] else []) ++
              [CliEvent.data (hdrbuf.drop (e + 4))]
          else (if req.headerfunc = true then [CliEvent.header (hdrbuf.take (e + 4))] else []))
          sock
      else
        gfc_read_body fuel { req with status := parse_status st, filelen := fl }
          (if req.headerfunc = true then [CliEvent.header (hdrbuf.take (e + 4))] else [])
          sock := by
  simp only [gfc_parse_header, hsc, hk, hv, if_false, ne_eq, not_true_eq_false]

/-- The header parse on a buffer that holds a line `GETFILE <token><tail>`,
the terminator and the bytes `p` read with it. -/
theorem gfc_parse_header_line (req : gfcrequest_t) (fuel : Nat) (tok tail p : List Nat)
    (sock : List RecvEvent) (htok : tok ≠ []) (hnz : ∀ b ∈ tok, b ≠ 0)
    (hns : ∀ b ∈ tok, isspace b = false) (htail : ∀ b ∈ tail, b ≠ 0 ∧ b ≠ 13)
    (hsep : ∀ b, tail.head? = some b → isspace b = true) :
    gfc_parse_header req fuel (GETFILE ++ [32] ++ tok ++ tail ++ CRLFCRLF ++ p)
        (GETFILE ++ [32] ++ tok ++ tail).length sock =
      if parse_status (tok.take 31) = GF_OK then
        gfc_read_body fuel
          { req with
            status := parse_status (tok.take 31)
            filelen := (scan_zu (tok.drop 31 ++ (tail ++ CRLFCRLF ++ cstr p))).getD 0
            bytesreceived := (req.bytesreceived + p.length) % SIZE_LIMIT }
          (if p.length > 0 ∧ req.writefunc = true then
            (if req.headerfunc = true then
              [CliEvent.header (GETFILE ++ [32] ++ tok ++ tail ++ CRLFCRLF)] else []) ++
              [CliEvent.data p]
          else (if req.headerfunc = true then
              [CliEvent.header (GETFILE ++ [32] ++ tok ++ tail ++ CRLFCRLF)] else []))
          sock
      else
        gfc_read_body fuel
          { req with
            status := parse_status (tok.take 31)
            filelen := (scan_zu (tok.drop 31 ++ (tail ++ CRLFCRLF ++ cstr p))).getD 0 }
          (if req.headerfunc = true then
            [CliEvent.header (GETFILE ++ [32] ++ tok ++ tail ++ CRLFCRLF)] else [])
          sock := by
  have hclean := status_line_clean tok tail hnz hns htail
  have hnul : ∀ b ∈ GETFILE ++ [32] ++ tok ++ tail ++ CRLFCRLF, b ≠ 0 := by
    intro b hb
    rcases List.mem_append.mp hb with h | h
    · exact (hclean b h).1
    · simp [CRLFCRLF] at h
      omega
  have hcstr : cstr (GETFILE ++ [32] ++ tok ++ tail ++ CRLFCRLF ++ p) =
      GETFILE ++ [32] ++ tok ++ (tail ++ CRLFCRLF ++ cstr p) := by
    rw [cstr_append _ _ hnul]
    simp only [List.append_assoc]
  have hrest : ∀ b, (tail ++ CRLFCRLF ++ cstr p).head? = some b → isspace b = true := by
    intro b hb
    cases tail with
    | nil =>
      simp [CRLFCRLF] at hb
      subst hb
      decide
    | cons t ts =>
      exact hsep b (by simpa using hb)
  have hscan := sscanf_header_line tok (tail ++ CRLFCRLF ++ cstr p) htok hns hrest
  have htake : List.take ((GETFILE ++ [32] ++ tok ++ tail).length + 4)
      (GETFILE ++ [32] ++ tok ++ tail ++ CRLFCRLF ++ p) =
      GETFILE ++ [32] ++ tok ++ tail ++ CRLFCRLF := by
    have : (GETFILE ++ [32] ++ tok ++ tail).length + 4 =
        (GETFILE ++ [32] ++ tok ++ tail ++ CRLFCRLF).length := by
      simp only [List.length_append, CRLFCRLF, List.length_cons, List.length_nil]
    rw [this, List.take_left']
    rfl
  have hdrop : List.drop ((GETFILE ++ [32] ++ tok ++ tail).length + 4)
      (GETFILE ++ [32] ++ tok ++ tail ++ CRLFCRLF ++ p) = p := by
    have : (GETFILE ++ [32] ++ tok ++ tail).length + 4 =
        (GETFILE ++ [32] ++ tok ++ tail ++ CRLFCRLF).length := by
      simp only [List.length_append, CRLFCRLF, List.length_cons, List.length_nil]
    rw [this, List.drop_left']
    rfl
  have hrem : (GETFILE ++ [32] ++ tok ++ tail ++ CRLFCRLF ++ p).length -
      ((GETFILE ++ [32] ++ tok ++ tail).length + 4) = p.length := by
    simp [CRLFCRLF]
    omega
  have hk : ¬ ((if (scan_zu (tok.drop 31 ++ (tail ++ CRLFCRLF ++ cstr p))).isSome = true
      then (3 : Int) else 2) < 2) := by
    cases scan_zu (tok.drop 31 ++ (tail ++ CRLFCRLF ++ cstr p)) <;> simp
  have hv : (if (if (scan_zu (tok.drop 31 ++ (tail ++ CRLFCRLF ++ cstr p))).isSome = true
      then (3 : Int) else 2) = 2 then 0
      else (scan_zu (tok.drop 31 ++ (tail ++ CRLFCRLF ++ cstr p))).getD 0) =
      (scan_zu (tok.drop 31 ++ (tail ++ CRLFCRLF ++ cstr p))).getD 0 := by
    cases scan_zu (tok.drop 31 ++ (tail ++ CRLFCRLF ++ cstr p)) <;> simp
  rw [← hcstr] at hscan
  rw [gfc_parse_header_eval req fuel _ _ sock _ _ _ _ hscan hk hv, htake, hdrop, hrem]

/-! ## Whole runs of `gfc_perform` on well-formed responses -/

theorem wire_header_ok (n : Nat) :
    wire_header GF_OK n = GETFILE ++ [32] ++ OK ++ (32 :: decimal n) ++ CRLFCRLF := by
  have h1 : bytes "GETFILE OK " = GETFILE ++ [32] ++ OK ++ [32] := by decide
  have h2 : bytes "\r\n\r\n" = CRLFCRLF := by decide
  simp only [wire_header, h1, h2, ← decimal_eq_repr]
  simp

theorem decimal_tail_clean (n : Nat) : ∀ b ∈ 32 :: decimal n, b ≠ 0 ∧ b ≠ 13 := by
  intro b hb
  rcases List.mem_cons.mp hb with hb | hb
  · omega
  · have := decimal_isdigit n b hb
    simp only [isdigit, Bool.and_eq_true, decide_eq_true_eq] at this
    omega

/-- A run on the stream `"GETFILE OK n\r\n\r\n"` followed by at most `n` body
bytes and the close, under any split into non-empty arrivals. -/
theorem perform_ok_stream (req : gfcrequest_t) (net : ClientNet) (chunks : List (List Nat))
    (n : Nat) (body : List Nat) (hsent : request_sent req net = true)
    (hrecv : net.recvs = arrivals chunks) (hne : ∀ c ∈ chunks, c ≠ [])
    (hstream : chunks.flatten = wire_header GF_OK n ++ body) (hn : n < SIZE_LIMIT)
    (hbody : body.length ≤ n) :
    ∃ r, gfc_perform req net = some r ∧
      r.ret = (if body.length < n then -1 else 0) ∧
      r.req.status = GF_OK ∧ r.req.filelen = n ∧ r.req.bytesreceived = body.length ∧
      delivered r.trace = (if req.writefunc = true then body else []) ∧
      header_calls r.trace = (if req.headerfunc = true then [wire_header GF_OK n] else []) := by
  have htail := decimal_tail_clean n
  have hnz : ∀ b ∈ OK, b ≠ 0 := by decide
  have hns : ∀ b ∈ OK, isspace b = false := by decide
  have hclean := status_line_clean OK (32 :: decimal n) hnz hns htail
  have hdl := decimal_length_size n hn
  have hfit : (GETFILE ++ [32] ++ OK ++ (32 :: decimal n)).length + 4 ≤ HDR_BUFSIZE - 1 := by
    simp [GETFILE, OK, HDR_BUFSIZE]
    omega
  rw [wire_header_ok] at hstream
  obtain ⟨p, chunks', fuel', hloop, hp, hne', hfuel'⟩ :=
    header_loop_arrivals { req with bytesreceived := 0, filelen := 0, status := GF_INVALID }
      (GETFILE ++ [32] ++ OK ++ (32 :: decimal n)) body hclean hfit chunks []
      (recv_fuel (arrivals chunks)) hne (by simpa using hstream) (by simp) (le_refl _)
  have hzu : scan_zu (OK.drop 31 ++ (32 :: decimal n ++ CRLFCRLF ++ cstr p)) = some n := by
    have := scan_zu_decimal n (cstr p) hn
    simpa [OK] using this
  have hst : parse_status (OK.take 31) = GF_OK := by decide
  have hlen : p.length + chunks'.flatten.length = body.length := by
    rw [← hp, List.length_append]
  rw [gfc_perform_of_sent req net hsent, hrecv, hloop,
    gfc_parse_header_line _ fuel' OK (32 :: decimal n) p _ (by decide) hnz hns htail
      (by intro b hb; simp at hb; subst hb; decide)]
  simp only [hst, if_true, hzu, Option.getD_some, Nat.zero_add, gfc_read_body, ne_eq,
    not_true_eq_false, if_false]
  have hmod : p.length % SIZE_LIMIT = p.length := Nat.mod_eq_of_lt (by omega)
  rw [hmod]
  obtain ⟨r, hr, hreq, hret, hdel, hhdr, _⟩ :=
    body_loop_arrivals fuel' chunks'
      { req with status := GF_OK, filelen := n, bytesreceived := p.length }
      (if p.length > 0 ∧ req.writefunc = true then
        (if req.headerfunc = true then
          [CliEvent.header (GETFILE ++ [32] ++ OK ++ (32 :: decimal n) ++ CRLFCRLF)] else []) ++
          [CliEvent.data p]
        else (if req.headerfunc = true then
          [CliEvent.header (GETFILE ++ [32] ++ OK ++ (32 :: decimal n) ++ CRLFCRLF)] else []))
      0 hne' (by simp only; omega) (by simpa using hn) hfuel'
  rw [hr]
  refine ⟨{ r with sent := request_line (cstr req.path) }, rfl, ?_, ?_, ?_, ?_, ?_, ?_⟩
  · simp only [hret, hlen]
  · simp only [hreq]
  · simp only [hreq]
  · simp only [hreq, hlen]
  · simp only [hdel]
    cases hw : req.writefunc
    · cases req.headerfunc <;> simp [delivered]
    · rw [← hp]
      cases hpz : p with
      | nil => cases req.headerfunc <;> simp [delivered]
      | cons a t => cases req.headerfunc <;> simp [delivered, delivered_append]
  · simp only [hhdr]
    rw [wire_header_ok]
    cases req.headerfunc <;> cases req.writefunc <;> cases p <;>
      simp [header_calls, header_calls_append]

/-- A run on a stream whose header line `GETFILE <token><tail>` carries a
status token that does not parse to OK, under any split into non-empty
arrivals; `p` are the bytes behind the terminator that came with it. -/
theorem perform_status_stream (req : gfcrequest_t) (net : ClientNet)
    (chunks : List (List Nat)) (tok tail extra : List Nat)
    (hsent : request_sent req net = true) (hrecv : net.recvs = arrivals chunks)
    (hne : ∀ c ∈ chunks, c ≠ [])
    (hstream : chunks.flatten = GETFILE ++ [32] ++ tok ++ tail ++ CRLFCRLF ++ extra)
    (htok : tok ≠ []) (hnz : ∀ b ∈ tok, b ≠ 0) (hns : ∀ b ∈ tok, isspace b = false)
    (htail : ∀ b ∈ tail, b ≠ 0 ∧ b ≠ 13)
    (hsep : ∀ b, tail.head? = some b → isspace b = true)
    (hfit : (GETFILE ++ [32] ++ tok ++ tail).length + 4 ≤ HDR_BUFSIZE - 1)
    (hst : parse_status (tok.take 31) ≠ GF_OK) :
    ∃ r p, gfc_perform req net = some r ∧ r.ret = 0 ∧
      r.req.status = parse_status (tok.take 31) ∧ r.req.bytesreceived = 0 ∧
      r.trace = (if req.headerfunc = true then
        [CliEvent.header (GETFILE ++ [32] ++ tok ++ tail ++ CRLFCRLF)] else []) ∧
      r.body_reads = 0 ∧ p <+: extra ∧
      r.req.filelen = (scan_zu (tok.drop 31 ++ (tail ++ CRLFCRLF ++ cstr p))).getD 0 := by
  have hclean := status_line_clean tok tail hnz hns htail
  obtain ⟨p, chunks', fuel', hloop, hp, _, _⟩ :=
    header_loop_arrivals { req with bytesreceived := 0, filelen := 0, status := GF_INVALID }
      (GETFILE ++ [32] ++ tok ++ tail) extra hclean hfit chunks []
      (recv_fuel (arrivals chunks)) hne (by simpa using hstream) (by simp) (le_refl _)
  rw [gfc_perform_of_sent req net hsent, hrecv, hloop,
    gfc_parse_header_line _ fuel' tok tail p _ htok hnz hns htail hsep]
  simp only [hst, if_false, gfc_read_body, ne_eq, not_false_eq_true, if_true, Option.map_some']
  exact ⟨_, p, rfl, rfl, rfl, rfl, rfl, rfl, ⟨_, hp⟩, rfl⟩

/-! ## Client engine: the claims on well-formed responses -/

theorem parse_status_ok_iff (s : List Nat) : parse_status s = GF_OK ↔ s = OK := by
  unfold parse_status
  constructor
  · intro h
    by_contra hne
    simp only [hne, if_false] at h
    split at h
    · exact absurd h (by decide)
    · split at h
      · exact absurd h (by decide)
      · split at h <;> exact absurd h (by decide)
  · intro h
    simp [h]

theorem take_eq_ok (tok : List Nat) (h : tok.take 31 = OK) : tok = OK := by
  have hl := congrArg List.length h
  simp only [List.length_take, OK, List.length_cons, List.length_nil] at hl
  have : tok.length ≤ 31 := by omega
  rw [List.take_of_length_le this] at h
  exact h

/-- C5 (header round trip): when `gfs_sendheader` succeeds for status `s` and
length `n`, a client that receives exactly the bytes it wrote, split into reads
in any way, accepts the header: the header callback gets those bytes, `status`
is `s`, and `filelen` is `n` for OK and 0 otherwise.  (For OK with `n > 0` the
run then fails on the missing body; otherwise it returns 0.) -/
theorem header_round_trip (req : gfcrequest_t) (net : ClientNet) (chunks : List (List Nat))
    (c : gfcontext_t) (s : gfstatus_t) (n : Nat) (sends : List Int) (w : List Nat)
    (hn : n < SIZE_LIMIT) (hok : (gfs_sendheader (some c) s n sends).1 ≠ -1)
    (hw : (gfs_sendheader (some c) s n sends).2.1 = [SrvEvent.sent c.clientfd w])
    (hsent : request_sent req net = true) (hrecv : net.recvs = arrivals chunks)
    (hne : ∀ x ∈ chunks, x ≠ []) (hstream : chunks.flatten = w) :
    ∃ r, gfc_perform req net = some r ∧ r.req.status = s ∧
      r.req.filelen = (if s = GF_OK then n else 0) ∧
      header_calls r.trace = (if req.headerfunc = true then [w] else []) ∧
      delivered r.trace = [] ∧
      r.ret = (if s = GF_OK ∧ 0 < n then -1 else 0) := by
  have hwire : w = wire_header s n := by
    rw [gfs_sendheader_some c s n sends hn] at hok hw
    simp only [List.cons.injEq, SrvEvent.sent.injEq, true_and, and_true] at hw
    rcases send_all_ret sends (wire_header s n) with h0 | h0
    · rw [← hw]; exact send_all_ok _ _ h0
    · simp [h0] at hok
  subst hwire
  cases s with
  | GF_OK =>
    obtain ⟨r, hr, hret, hst, hfl, hbr, hdel, hhdr⟩ :=
      perform_ok_stream req net chunks n [] hsent hrecv hne (by simpa using hstream) hn
        (by simp)
    refine ⟨r, hr, hst, by simpa using hfl, hhdr, ?_, ?_⟩
    · rw [hdel]; simp
    · rw [hret]
      simp
  | GF_FILE_NOT_FOUND =>
    obtain ⟨r, p, hr, hret, hst, hbr, htr, _, hp, hfl⟩ :=
      perform_status_stream req net chunks FILE_NOT_FOUND [] [] hsent hrecv hne
        (by rw [hstream]; rfl) (by decide) (by decide) (by decide) (by simp) (by simp)
        (by decide) (by decide)
    have hp0 : p = [] := List.prefix_nil.mp hp
    subst hp0
    refine ⟨r, hr, by rw [hst]; decide, by rw [hfl]; rfl, ?_, ?_, by rw [hret]; simp⟩
    · rw [htr]
      cases req.headerfunc
      · simp [header_calls]
      · simp only [if_true, header_calls]
        rfl
    · rw [htr]
      cases req.headerfunc <;> simp [delivered]
  | GF_ERROR =>
    obtain ⟨r, p, hr, hret, hst, hbr, htr, _, hp, hfl⟩ :=
      perform_status_stream req net chunks ERROR [] [] hsent hrecv hne
        (by rw [hstream]; rfl) (by decide) (by decide) (by decide) (by simp) (by simp)
        (by decide) (by decide)
    have hp0 : p = [] := List.prefix_nil.mp hp
    subst hp0
    refine ⟨r, hr, by rw [hst]; decide, by rw [hfl]; rfl, ?_, ?_, by rw [hret]; simp⟩
    · rw [htr]
      cases req.headerfunc
      · simp [header_calls]
      · simp only [if_true, header_calls]
        rfl
    · rw [htr]
      cases req.headerfunc <;> simp [delivered]
  | GF_INVALID =>
    obtain ⟨r, p, hr, hret, hst, hbr, htr, _, hp, hfl⟩ :=
      perform_status_stream req net chunks INVALID [] [] hsent hrecv hne
        (by rw [hstream]; rfl) (by decide) (by decide) (by decide) (by simp) (by simp)
        (by decide) (by decide)
    have hp0 : p = [] := List.prefix_nil.mp hp
    subst hp0
    refine ⟨r, hr, by rw [hst]; decide, by rw [hfl]; rfl, ?_, ?_, by rw [hret]; simp⟩
    · rw [htr]
      cases req.headerfunc
      · simp [header_calls]
      · simp only [if_true, header_calls]
        rfl
    · rw [htr]
      cases req.headerfunc <;> simp [delivered]

theorem header_round_trip_witness :
    5 < SIZE_LIMIT ∧ (gfs_sendheader (some ⟨4⟩) GF_OK 5 [3]).1 ≠ -1 ∧
    (gfs_sendheader (some ⟨4⟩) GF_OK 5 [3]).2.1 =
      [SrvEvent.sent 4 (bytes "GETFILE OK 5\r\n\r\n")] ∧
    request_sent sample_request
      (sample_net (arrivals [bytes "GETFILE OK 5\r", bytes "\n\r\n"])) = true ∧
    (∀ x ∈ [bytes "GETFILE OK 5\r", bytes "\n\r\n"], x ≠ []) ∧
    [bytes "GETFILE OK 5\r", bytes "\n\r\n"].flatten = bytes "GETFILE OK 5\r\n\r\n" ∧
    ∃ r, gfc_perform sample_request
        (sample_net (arrivals [bytes "GETFILE OK 5\r", bytes "\n\r\n"])) = some r ∧
      r.req.status = GF_OK ∧ r.req.filelen = (if GF_OK = GF_OK then 5 else 0) ∧
      header_calls r.trace =
        (if sample_request.headerfunc = true then [bytes "GETFILE OK 5\r\n\r\n"] else []) ∧
      delivered r.trace = [] ∧
      r.ret = (if GF_OK = GF_OK ∧ 0 < 5 then -1 else 0) :=
  ⟨by decide, by decide, by decide, by decide, by decide, by decide,
    header_round_trip sample_request
      (sample_net (arrivals [bytes "GETFILE OK 5\r", bytes "\n\r\n"]))
      [bytes "GETFILE OK 5\r", bytes "\n\r\n"] ⟨4⟩ GF_OK 5 [3] (bytes "GETFILE OK 5\r\n\r\n")
      (by decide) (by decide) (by decide) (by decide) rfl (by decide) (by decide)⟩

/-- C6: on the stream `"GETFILE OK n\r\n\r\n"` followed by a body of `n` bytes
and the close, split into non-empty reads in any way, `gfc_perform` returns 0
with status OK, `filelen = n`, `bytesreceived = n`, and the buffers handed to
the data callback, concatenated in call order, are the body. -/
theorem perform_delivers_body (req : gfcrequest_t) (net : ClientNet)
    (chunks : List (List Nat)) (body : List Nat)
    (hsent : request_sent req net = true) (hrecv : net.recvs = arrivals chunks)
    (hne : ∀ x ∈ chunks, x ≠ [])
    (hstream : chunks.flatten =
      bytes "GETFILE OK " ++ bytes (toString body.length) ++ bytes "\r\n\r\n" ++ body)
    (hsize : body.length < SIZE_LIMIT) (hcb : req.writefunc = true) :
    ∃ r, gfc_perform req net = some r ∧ r.ret = 0 ∧ r.req.status = GF_OK ∧
      r.req.filelen = body.length ∧ r.req.bytesreceived = body.length ∧
      delivered r.trace = body := by
  obtain ⟨r, hr, hret, hst, hfl, hbr, hdel, _⟩ :=
    perform_ok_stream req net chunks body.length body hsent hrecv hne hstream hsize (le_refl _)
  refine ⟨r, hr, ?_, hst, hfl, hbr, ?_⟩
  · rw [hret]; simp
  · rw [hdel, hcb]; simp

theorem perform_delivers_body_witness :
    request_sent sample_request (sample_net (arrivals bytewise_response)) = true ∧
    (∀ x ∈ bytewise_response, x ≠ []) ∧
    bytewise_response.flatten =
      bytes "GETFILE OK " ++ bytes (toString (bytes "abc").length) ++ bytes "\r\n\r\n" ++
        bytes "abc" ∧
    ∃ r, gfc_perform sample_request (sample_net (arrivals bytewise_response)) = some r ∧
      r.ret = 0 ∧ r.req.status = GF_OK ∧ r.req.filelen = (bytes "abc").length ∧
      r.req.bytesreceived = (bytes "abc").length ∧ delivered r.trace = bytes "abc" :=
  ⟨by decide, by decide, by decide,
    perform_delivers_body sample_request (sample_net (arrivals bytewise_response))
      bytewise_response (bytes "abc") (by decide) rfl (by decide) (by decide) (by decide)
      (by decide)⟩

/-- C8 (premature close): on the stream `"GETFILE OK n\r\n\r\n"` followed by
fewer than `n` body bytes and the close, split into non-empty reads in any way,
`gfc_perform` returns -1. -/
theorem perform_premature_close (req : gfcrequest_t) (net : ClientNet)
    (chunks : List (List Nat)) (n : Nat) (body : List Nat)
    (hsent : request_sent req net = true) (hrecv : net.recvs = arrivals chunks)
    (hne : ∀ x ∈ chunks, x ≠ [])
    (hstream : chunks.flatten =
      bytes "GETFILE OK " ++ bytes (toString n) ++ bytes "\r\n\r\n" ++ body)
    (hsize : n < SIZE_LIMIT) (hshort : body.length < n) :
    ∃ r, gfc_perform req net = some r ∧ r.ret = -1 ∧ r.req.status = GF_OK ∧
      r.req.filelen = n ∧ r.req.bytesreceived = body.length := by
  obtain ⟨r, hr, hret, hst, hfl, hbr, _, _⟩ :=
    perform_ok_stream req net chunks n body hsent hrecv hne hstream hsize (by omega)
  refine ⟨r, hr, ?_, hst, hfl, hbr⟩
  rw [hret]; simp [hshort]

theorem perform_premature_close_witness :
    request_sent sample_request
      (sample_net (arrivals [bytes "GETFILE OK 5\r\n\r", bytes "\nab", bytes "c"])) = true ∧
    [bytes "GETFILE OK 5\r\n\r", bytes "\nab", bytes "c"].flatten =
      bytes "GETFILE OK " ++ bytes (toString 5) ++ bytes "\r\n\r\n" ++ bytes "abc" ∧
    5 < SIZE_LIMIT ∧ (bytes "abc").length < 5 ∧
    ∃ r, gfc_perform sample_request
        (sample_net (arrivals [bytes "GETFILE OK 5\r\n\r", bytes "\nab", bytes "c"])) = some r ∧
      r.ret = -1 ∧ r.req.status = GF_OK ∧ r.req.filelen = 5 ∧
      r.req.bytesreceived = (bytes "abc").length :=
  ⟨by decide, by decide, by decide, by decide,
    perform_premature_close sample_request
      (sample_net (arrivals [bytes "GETFILE OK 5\r\n\r", bytes "\nab", bytes "c"]))
      [bytes "GETFILE OK 5\r\n\r", bytes "\nab", bytes "c"] 5 (bytes "abc")
      (by decide) rfl (by decide) (by decide) (by decide) (by decide)⟩

/-- C9: on a well-framed response `"GETFILE <token><tail>\r\n\r\n"` (token of
non-space bytes, an optional tail that starts with white space, the terminator
within the header buffer) whose status token is not `OK`, followed by any extra
bytes and split into non-empty reads in any way, `gfc_perform` returns 0 with
`bytesreceived = 0` and a status other than OK, never calls the data callback
and makes no `recv` call for a body. -/
theorem perform_non_ok (req : gfcrequest_t) (net : ClientNet) (chunks : List (List Nat))
    (tok tail extra : List Nat)
    (hsent : request_sent req net = true) (hrecv : net.recvs = arrivals chunks)
    (hne : ∀ x ∈ chunks, x ≠ [])
    (hstream : chunks.flatten = bytes "GETFILE " ++ tok ++ tail ++ bytes "\r\n\r\n" ++ extra)
    (htok : tok ≠ []) (hchars : ∀ b ∈ tok, b ≠ 0 ∧ isspace b = false)
    (htail : ∀ b ∈ tail, b ≠ 0 ∧ b ≠ 13)
    (hsep : ∀ b, tail.head? = some b → isspace b = true)
    (hfit : tok.length + tail.length + 12 ≤ HDR_BUFSIZE - 1)
    (hstatus : tok ≠ bytes "OK") :
    ∃ r, gfc_perform req net = some r ∧ r.ret = 0 ∧ r.req.bytesreceived = 0 ∧
      r.req.status ≠ GF_OK ∧ r.req.status = parse_status (tok.take 31) ∧
      delivered r.trace = [] ∧ (∀ bs, CliEvent.data bs ∉ r.trace) ∧ r.body_reads = 0 := by
  have h1 : bytes "GETFILE " = GETFILE ++ [32] := by decide
  have h2 : bytes "\r\n\r\n" = CRLFCRLF := by decide
  have h3 : bytes "OK" = OK := by decide
  rw [h1, h2] at hstream
  rw [h3] at hstatus
  have hst : parse_status (tok.take 31) ≠ GF_OK := by
    intro h
    exact hstatus (take_eq_ok tok ((parse_status_ok_iff _).mp h))
  obtain ⟨r, p, hr, hret, hs, hbr, htr, hreads, _, _⟩ :=
    perform_status_stream req net chunks tok tail extra hsent hrecv hne hstream htok
      (fun b hb => (hchars b hb).1) (fun b hb => (hchars b hb).2) htail hsep
      (by simp [GETFILE]; omega) hst
  refine ⟨r, hr, hret, hbr, by rw [hs]; exact hst, hs, ?_, ?_, hreads⟩
  · rw [htr]
    cases req.headerfunc <;> simp [delivered]
  · intro bs hmem
    rw [htr] at hmem
    cases hh : req.headerfunc <;> simp [hh] at hmem

theorem perform_non_ok_witness :
    request_sent sample_request
      (sample_net (arrivals [bytes "GETFILE FILE_NOT", bytes "_FOUND\r\n\r\n12xyz"])) = true ∧
    [bytes "GETFILE FILE_NOT", bytes "_FOUND\r\n\r\n12xyz"].flatten =
      bytes "GETFILE " ++ bytes "FILE_NOT_FOUND" ++ [] ++ bytes "\r\n\r\n" ++ bytes "12xyz" ∧
    (∀ b ∈ bytes "FILE_NOT_FOUND", b ≠ 0 ∧ isspace b = false) ∧
    bytes "FILE_NOT_FOUND" ≠ bytes "OK" ∧
    ∃ r, gfc_perform sample_request
        (sample_net (arrivals [bytes "GETFILE FILE_NOT", bytes "_FOUND\r\n\r\n12xyz"])) =
          some r ∧
      r.ret = 0 ∧ r.req.bytesreceived = 0 ∧ r.req.status ≠ GF_OK ∧
      r.req.status = parse_status ((bytes "FILE_NOT_FOUND").take 31) ∧
      delivered r.trace = [] ∧ (∀ bs, CliEvent.data bs ∉ r.trace) ∧ r.body_reads = 0 :=
  ⟨by decide, by decide, by decide, by decide,
    perform_non_ok sample_request
      (sample_net (arrivals [bytes "GETFILE FILE_NOT", bytes "_FOUND\r\n\r\n12xyz"]))
      [bytes "GETFILE FILE_NOT", bytes "_FOUND\r\n\r\n12xyz"] (bytes "FILE_NOT_FOUND") []
      (bytes "12xyz") (by decide) rfl (by decide) (by decide) (by decide) (by decide)
      (by simp) (by simp) (by decide) (by decide)⟩

/-! ## Structure of an arbitrary run -/

theorem recv_stream_recv (cap : Nat) (sock : List RecvEvent) (h : 0 < (recv cap sock).1) :
    (recv cap sock).2.1 ++ recv_stream (recv cap sock).2.2 = recv_stream sock ∧
    (recv cap sock).1 = ((recv cap sock).2.1.length : Int) := by
  cases sock with
  | nil => simp [recv] at h
  | cons ev rest =>
    cases ev with
    | fail => simp [recv] at h
    | data bs =>
      by_cases hc : bs.length ≤ cap
      · simp [recv, hc, recv_stream]
      · have hlt : cap ≤ bs.length := by omega
        simp only [recv, hc, if_false, recv_stream, List.length_take, Nat.min_eq_left hlt,
          and_true]
        rw [← List.append_assoc, List.take_append_drop]

theorem scan_zu_lt (s : List Nat) (v : Nat) (h : scan_zu s = some v) : v < SIZE_LIMIT := by
  have key : ∀ (ds : List Nat) (neg : Bool),
      (if ds = [] then none
        else if SIZE_LIMIT ≤ digitsValue ds then some (SIZE_LIMIT - 1)
        else if neg = true then some ((SIZE_LIMIT - digitsValue ds) % SIZE_LIMIT)
        else some (digitsValue ds)) = some v → v < SIZE_LIMIT := by
    intro ds neg hk
    split at hk
    · exact absurd hk (by simp)
    · split at hk
      · simp only [Option.some.injEq] at hk
        rw [← hk]
        decide
      · split at hk
        · simp only [Option.some.injEq] at hk
          rw [← hk]
          exact Nat.mod_lt _ (by decide)
        · simp only [Option.some.injEq] at hk
          rw [← hk]
          omega
  exact key _ _ h

theorem sscanf_header_filelen_lt (s : List Nat) : (sscanf_header s).2.2.2 < SIZE_LIMIT := by
  unfold sscanf_header
  cases scan_s (some 31) s with
  | none => simp only; decide
  | some a =>
    obtain ⟨t1, r1⟩ := a
    simp only
    cases scan_s (some 31) r1 with
    | none => simp only; decide
    | some a2 =>
      obtain ⟨t2, r2⟩ := a2
      simp only
      cases hz : scan_zu r2 with
      | none => simp only; decide
      | some v => exact scan_zu_lt r2 v hz

/-- How the header loop can end: in the failure return with the handle
untouched, or in the header parse on a buffer that is a prefix of the bytes
received and in whose string `strstr` found the terminator. -/
theorem header_loop_cases (req : gfcrequest_t) (fuel : Nat) : ∀ (hdr : List Nat)
    (sock : List RecvEvent) (r : PerformResult),
    gfc_header_loop req fuel hdr sock = some r →
    r = ⟨-1, req, [], 0, []⟩ ∨
    ∃ fuel' hdrbuf e sock', hdrbuf ++ recv_stream sock' = hdr ++ recv_stream sock ∧
      strstr CRLFCRLF (cstr hdrbuf) = some e ∧
      gfc_parse_header req fuel' hdrbuf e sock' = some r := by
  induction fuel with
  | zero => intro hdr sock r h; simp [gfc_header_loop] at h
  | succ f ih =>
    intro hdr sock r h
    rw [gfc_header_loop] at h
    by_cases hroom : hdr.length + 1 < HDR_BUFSIZE
    · simp only [hroom, if_true] at h
      by_cases hrc : (recv (HDR_BUFSIZE - hdr.length - 1) sock).1 ≤ 0
      · simp only [hrc, if_true, Option.some.injEq] at h
        exact Or.inl h.symm
      · simp only [hrc, if_false] at h
        obtain ⟨hst, _⟩ := recv_stream_recv (HDR_BUFSIZE - hdr.length - 1) sock (by omega)
        cases hs : strstr CRLFCRLF
            (cstr (hdr ++ (recv (HDR_BUFSIZE - hdr.length - 1) sock).2.1)) with
        | none =>
          simp only [hs] at h
          rcases ih _ _ r h with h1 | ⟨fuel', hdrbuf, e, sock', h1, h2, h3⟩
          · exact Or.inl h1
          · refine Or.inr ⟨fuel', hdrbuf, e, sock', ?_, h2, h3⟩
            rw [h1, List.append_assoc, hst]
        | some e =>
          simp only [hs] at h
          refine Or.inr ⟨f, _, e, _, ?_, hs, h⟩
          rw [List.append_assoc, hst]
    · simp only [hroom, if_false, Option.some.injEq] at h
      exact Or.inl h.symm

/-- How the header parse can end: in the failure return with the handle
untouched; with a status other than OK, in `return 0` with the header callback
as the only call; or with status OK in the body loop, entered after the bytes
behind the header were handed to the data callback and counted. -/
theorem parse_header_cases (req : gfcrequest_t) (fuel : Nat) (hdrbuf : List Nat) (e : Nat)
    (sock : List RecvEvent) (r : PerformResult)
    (h : gfc_parse_header req fuel hdrbuf e sock = some r) :
    r = ⟨-1, req, [], 0, []⟩ ∨
    (∃ st fl, st ≠ GF_OK ∧
      r = ⟨0, { req with status := st, filelen := fl, bytesreceived := 0 },
        if req.headerfunc = true then [CliEvent.header (hdrbuf.take (e + 4))] else [], 0, []⟩) ∨
    (∃ fl, fl < SIZE_LIMIT ∧
      gfc_body_loop fuel
        { req with
          status := GF_OK
          filelen := fl
          bytesreceived := (req.bytesreceived + (hdrbuf.length - (e + 4))) % SIZE_LIMIT }
        (if hdrbuf.length - (e + 4) > 0 ∧ req.writefunc = true then
          (if req.headerfunc = true then [CliEvent.header (hdrbuf.take (e + 4))] else []) ++
            [CliEvent.data (hdrbuf.drop (e + 4))]
        else (if req.headerfunc = true then [CliEvent.header (hdrbuf.take (e + 4))] else []))
        0 sock = some r) := by
  unfold gfc_parse_header at h
  by_cases h1 : (sscanf_header (cstr hdrbuf)).1 < 2
  · simp only [h1, if_true, Option.some.injEq] at h
    exact Or.inl h.symm
  · simp only [h1, if_false] at h
    by_cases h2 : (sscanf_header (cstr hdrbuf)).2.1 = GETFILE
    swap
    · simp only [h2, ne_eq, not_false_eq_true, if_true, Option.some.injEq] at h
      exact Or.inl h.symm
    · simp only [h2, ne_eq, not_true_eq_false, if_false] at h
      have hfl : (if (sscanf_header (cstr hdrbuf)).1 = 2 then 0
          else (sscanf_header (cstr hdrbuf)).2.2.2) < SIZE_LIMIT := by
        split
        · decide
        · exact sscanf_header_filelen_lt _
      by_cases h3 : parse_status (sscanf_header (cstr hdrbuf)).2.2.1 = GF_OK
      · simp only [h3, if_true, gfc_read_body, ne_eq, not_true_eq_false, if_false] at h
        exact Or.inr (Or.inr ⟨_, hfl, h⟩)
      · simp only [h3, if_false, gfc_read_body, ne_eq, not_false_eq_true, if_true,
          Option.some.injEq] at h
        exact Or.inr (Or.inl ⟨_, _, h3, h.symm⟩)

/-- What every run of the body loop keeps: it only appends data callbacks,
leaves status and file length alone, returns 0 or -1, returns 0 only once the
count has reached the file length, and stays within the file length when the
socket holds no more bytes than are missing. -/
theorem body_loop_inv (fuel : Nat) : ∀ (req : gfcrequest_t) (tr : List CliEvent) (reads : Nat)
    (sock : List RecvEvent) (r : PerformResult),
    gfc_body_loop fuel req tr reads sock = some r →
    (∃ ds, r.trace = tr ++ ds ∧ header_calls ds = []) ∧
    r.req.status = req.status ∧ r.req.filelen = req.filelen ∧
    (r.ret = 0 ∨ r.ret = -1) ∧
    (r.ret = 0 → r.req.filelen ≤ r.req.bytesreceived) ∧
    (req.bytesreceived + (recv_stream sock).length ≤ req.filelen → req.filelen < SIZE_LIMIT →
      r.req.bytesreceived ≤ r.req.filelen) := by
  induction fuel with
  | zero => intro req tr reads sock r h; simp [gfc_body_loop] at h
  | succ f ih =>
    intro req tr reads sock r h
    rw [gfc_body_loop] at h
    by_cases h1 : (recv DATA_BUFSIZE sock).1 < 0
    · simp only [h1, if_true, Option.some.injEq] at h
      subst h
      refine ⟨⟨[], by simp, rfl⟩, rfl, rfl, Or.inr rfl, by simp, ?_⟩
      intro hb _
      simp only
      omega
    · simp only [h1, if_false] at h
      by_cases h2 : (recv DATA_BUFSIZE sock).1 = 0
      · simp only [h2, if_true] at h
        by_cases h3 : req.bytesreceived < req.filelen
        · simp only [h3, if_true, Option.some.injEq] at h
          subst h
          refine ⟨⟨[], by simp, rfl⟩, rfl, rfl, Or.inr rfl, by simp, ?_⟩
          intro hb _
          simp only
          omega
        · simp only [h3, if_false, Option.some.injEq] at h
          subst h
          refine ⟨⟨[], by simp, rfl⟩, rfl, rfl, Or.inl rfl, ?_, ?_⟩
          · intro _
            simp only
            omega
          · intro hb _
            simp only
            omega
      · simp only [h2, if_false] at h
        obtain ⟨hst, _⟩ := recv_stream_recv DATA_BUFSIZE sock (by omega)
        have hlen := congrArg List.length hst
        simp only [List.length_append] at hlen
        by_cases h3 : (req.bytesreceived + (recv DATA_BUFSIZE sock).2.1.length) % SIZE_LIMIT ≥
            req.filelen
        · simp only [h3, if_true, Option.some.injEq] at h
          subst h
          refine ⟨?_, rfl, rfl, Or.inl rfl, fun _ => h3, ?_⟩
          · cases req.writefunc
            · exact ⟨[], by simp, rfl⟩
            · exact ⟨[CliEvent.data (recv DATA_BUFSIZE sock).2.1], by simp, rfl⟩
          · intro hb hsz
            simp only
            rw [Nat.mod_eq_of_lt (by omega)]
            omega
        · simp only [h3, if_false] at h
          obtain ⟨⟨ds, hds, hhd⟩, hs, hf, hret, hsucc, hbound⟩ := ih _ _ _ _ r h
          refine ⟨?_, hs, hf, hret, hsucc, ?_⟩
          · cases hw : req.writefunc
            · simp only [hw, Bool.false_eq_true, if_false] at hds
              exact ⟨ds, hds, hhd⟩
            · simp only [hw, if_true] at hds
              refine ⟨CliEvent.data (recv DATA_BUFSIZE sock).2.1 :: ds, ?_, ?_⟩
              · rw [hds]; simp
              · simp [header_calls, hhd]
          · intro hb hsz
            apply hbound
            · simp only
              rw [Nat.mod_eq_of_lt (by omega)]
              omega
            · exact hsz

/-! ## The first terminator of a stream -/

theorem window_of_initial (a b : List Nat) (j : Nat) (hp : a <+: b) (hj : j + 4 ≤ a.length) :
    (b.drop j).take 4 = (a.drop j).take 4 := by
  obtain ⟨t, rfl⟩ := hp
  rw [List.drop_append_of_le_length (by omega)]
  rw [List.take_append_of_le_length (by simp only [List.length_drop]; omega)]

theorem first_terminator_fits (a : List Nat) (e : Nat) (h : (a.drop e).take 4 = CRLFCRLF) :
    e + 4 ≤ a.length := by
  have := congrArg List.length h
  simp only [List.length_take, List.length_drop, CRLFCRLF, List.length_cons,
    List.length_nil] at this
  omega

theorem first_terminator_mono (a b : List Nat) (e : Nat) (hp : a <+: b)
    (h : FirstTerminatorAt a e) : FirstTerminatorAt b e := by
  obtain ⟨h1, h2⟩ := h
  have hfit := first_terminator_fits a e h1
  refine ⟨?_, ?_⟩
  · rw [window_of_initial a b e hp hfit]; exact h1
  · intro j hj
    rw [window_of_initial a b j hp (by omega)]
    exact h2 j hj

theorem strstr_first (x : List Nat) : ∀ e, strstr CRLFCRLF x = some e →
    FirstTerminatorAt x e := by
  induction x with
  | nil => intro e h; simp [strstr, CRLFCRLF, List.isPrefixOf] at h
  | cons b t ih =>
    intro e h
    rw [strstr] at h
    by_cases hp : CRLFCRLF.isPrefixOf (b :: t) = true
    · simp only [hp, if_true, Option.some.injEq] at h
      subst h
      refine ⟨?_, fun j hj => absurd hj (by omega)⟩
      obtain ⟨s, hs⟩ := List.isPrefixOf_iff_prefix.mp hp
      rw [List.drop_zero, ← hs]
      simp [CRLFCRLF]
    · simp only [hp, if_false] at h
      cases hs : strstr CRLFCRLF t with
      | none => simp [hs] at h
      | some e' =>
        simp only [hs, Option.map_some', Bool.false_eq_true, if_false, Option.some.injEq] at h
        subst h
        obtain ⟨h1, h2⟩ := ih e' hs
        refine ⟨by simpa using h1, ?_⟩
        intro j hj
        cases j with
        | zero =>
          intro hw
          apply hp
          rw [List.isPrefixOf_iff_prefix]
          rw [List.drop_zero] at hw
          rw [← hw]
          exact List.take_prefix 4 (b :: t)
        | succ j =>
          have := h2 j (by omega)
          simpa using this

theorem cstr_initial (x : List Nat) : cstr x <+: x :=
  List.takeWhile_prefix _

/-- The terminator `strstr` finds in the header buffer is the first terminator
of the whole stream, and the header bytes are the stream up to its end. -/
theorem found_is_first (hdrbuf stream : List Nat) (e : Nat) (hp : hdrbuf <+: stream)
    (h : strstr CRLFCRLF (cstr hdrbuf) = some e) :
    FirstTerminatorAt stream e ∧ hdrbuf.take (e + 4) = stream.take (e + 4) := by
  have h1 := strstr_first _ e h
  have hfit := first_terminator_fits _ e h1.1
  have hlen : (cstr hdrbuf).length ≤ hdrbuf.length := (cstr_initial hdrbuf).length_le
  refine ⟨first_terminator_mono _ _ e ((cstr_initial hdrbuf).trans hp) h1, ?_⟩
  obtain ⟨t, rfl⟩ := hp
  rw [List.take_append_of_le_length (by omega)]

theorem first_terminator_unique (s : List Nat) (i j : Nat) (hi : FirstTerminatorAt s i)
    (hj : FirstTerminatorAt s j) : i = j := by
  rcases Nat.lt_trichotomy i j with h | h | h
  · exact absurd hi.1 (hj.2 i h)
  · exact h
  · exact absurd hj.1 (hi.2 j h)

/-! ## Client engine: the claims on arbitrary runs -/

/-- How a run of `gfc_perform` can end: in a failure return before any header
was accepted, or through the header parse on a buffer that is a prefix of the
received stream. -/
theorem perform_cases (req : gfcrequest_t) (net : ClientNet) (r : PerformResult)
    (h : gfc_perform req net = some r) :
    (∃ sent, r = ⟨-1, { req with bytesreceived := 0, filelen := 0, status := GF_INVALID }, [], 0,
      sent⟩) ∨
    ∃ fuel' hdrbuf e sock' r', hdrbuf ++ recv_stream sock' = recv_stream net.recvs ∧
      strstr CRLFCRLF (cstr hdrbuf) = some e ∧
      gfc_parse_header { req with bytesreceived := 0, filelen := 0, status := GF_INVALID }
        fuel' hdrbuf e sock' = some r' ∧
      r = { r' with sent := request_line (cstr req.path) } := by
  cases hs : request_sent req net with
  | false =>
    obtain ⟨sent, hsent⟩ := gfc_perform_of_not_sent req net hs
    rw [hsent] at h
    simp only [Option.some.injEq] at h
    exact Or.inl ⟨sent, h.symm⟩
  | true =>
    rw [gfc_perform_of_sent req net hs, Option.map_eq_some'] at h
    obtain ⟨r', hloop, hr⟩ := h
    rcases header_loop_cases _ _ _ _ _ hloop with hfail | ⟨fuel', hdrbuf, e, sock', h1, h2, h3⟩
    · left
      refine ⟨request_line (cstr req.path), ?_⟩
      rw [← hr, hfail]
    · right
      exact ⟨fuel', hdrbuf, e, sock', r', by simpa using h1, h2, h3, hr.symm⟩

theorem parse_header_trace (req : gfcrequest_t) (fuel : Nat) (hdrbuf : List Nat) (e : Nat)
    (sock : List RecvEvent) (r : PerformResult)
    (h : gfc_parse_header req fuel hdrbuf e sock = some r) :
    r.trace = [] ∨
    ∃ ds, r.trace = (if req.headerfunc = true then [CliEvent.header (hdrbuf.take (e + 4))]
      else []) ++ ds ∧ header_calls ds = [] := by
  rcases parse_header_cases req fuel hdrbuf e sock r h with h1 | ⟨st, fl, _, h1⟩ | ⟨fl, _, h1⟩
  · left; rw [h1]
  · right
    exact ⟨[], by rw [h1]; simp, rfl⟩
  · right
    obtain ⟨⟨ds, hds, hhd⟩, _⟩ := body_loop_inv _ _ _ _ _ _ h1
    by_cases hc : hdrbuf.length - (e + 4) > 0 ∧ req.writefunc = true
    · simp only [hc, and_self, if_true] at hds
      refine ⟨CliEvent.data (hdrbuf.drop (e + 4)) :: ds, ?_, ?_⟩
      · rw [hds]; simp
      · simp [header_calls, hhd]
    · simp only [hc, if_false] at hds
      exact ⟨ds, hds, hhd⟩

theorem only_data (ds : List CliEvent) (h : header_calls ds = []) :
    ∃ bufs : List (List Nat), ds = bufs.map CliEvent.data := by
  induction ds with
  | nil => exact ⟨[], rfl⟩
  | cons ev ds ih =>
    cases ev with
    | header bs => simp [header_calls] at h
    | data bs =>
      obtain ⟨bufs, hb⟩ := ih (by simpa [header_calls] using h)
      exact ⟨bs :: bufs, by simp [hb]⟩

/-- The header callback in a run that returns `r`. -/
theorem header_callback_of_run (req : gfcrequest_t) (net : ClientNet) (r : PerformResult)
    (h : gfc_perform req net = some r) :
    (header_calls r.trace).length ≤ 1 ∧
    ∀ hb ∈ header_calls r.trace,
      (∃ i, FirstTerminatorAt (recv_stream net.recvs) i ∧
        hb = (recv_stream net.recvs).take (i + 4)) ∧
      ∃ bufs : List (List Nat), r.trace = CliEvent.header hb :: bufs.map CliEvent.data := by
  rcases perform_cases req net r h with ⟨sent, hr⟩ | ⟨fuel', hdrbuf, e, sock', r', hs, hf, hp, hr⟩
  · rw [hr]
    simp [header_calls]
  · have htr : r.trace = r'.trace := by rw [hr]
    rw [htr]
    rcases parse_header_trace _ _ _ _ _ _ hp with h0 | ⟨ds, hds, hhd⟩
    · rw [h0]
      simp [header_calls]
    · rw [hds]
      cases req.headerfunc
      · simp [header_calls_append, header_calls, hhd]
      · obtain ⟨hfirst, htake⟩ := found_is_first hdrbuf (recv_stream net.recvs) e ⟨_, hs⟩ hf
        obtain ⟨bufs, hbufs⟩ := only_data ds hhd
        have hc : header_calls ([CliEvent.header (hdrbuf.take (e + 4))] ++ ds) =
            [hdrbuf.take (e + 4)] := by
          rw [header_calls_append, hhd]
          rfl
        simp only [if_true]
        rw [hc]
        refine ⟨by simp, ?_⟩
        intro hb hmem
        rw [List.mem_singleton] at hmem
        subst hmem
        exact ⟨⟨e, hfirst, htake⟩, bufs, by rw [hbufs]; rfl⟩

/-- C7, refuted as stated: on the response `"GETFILE OK\r\n\r\nabc"`, whose
header omits the length, `gfc_perform` returns 0 with status OK, `filelen = 0`
and `bytesreceived = 3`; and on `"GETFILE OK 3\r\n\r\nabcdefg"` read in one
piece it returns 0 with status OK, `filelen = 3` and `bytesreceived = 7`. -/
theorem perform_overshoots :
    (gfc_perform sample_request
      (sample_net (arrivals [bytes "GETFILE OK\r\n\r\nabc"]))).map
        (fun r => (r.ret, r.req.status, r.req.filelen, r.req.bytesreceived)) =
      some (0, GF_OK, 0, 3) ∧
    (gfc_perform sample_request
      (sample_net (arrivals [bytes "GETFILE OK 3\r\n\r\nabcdefg"]))).map
        (fun r => (r.ret, r.req.status, r.req.filelen, r.req.bytesreceived)) =
      some (0, GF_OK, 3, 7) := by
  decide

/-- The byte count of a run that returns `r`. -/
theorem byte_count_of_run (req : gfcrequest_t) (net : ClientNet) (r : PerformResult)
    (h : gfc_perform req net = some r) :
    (r.ret = 0 → r.req.status = GF_OK → r.req.filelen ≤ r.req.bytesreceived) ∧
    ((∀ i, FirstTerminatorAt (recv_stream net.recvs) i →
        (recv_stream net.recvs).length ≤ i + 4 + r.req.filelen) →
      r.req.bytesreceived ≤ r.req.filelen ∧
      (r.ret = 0 → r.req.status = GF_OK → r.req.bytesreceived = r.req.filelen)) := by
  have hmain : (r.ret = 0 → r.req.status = GF_OK → r.req.filelen ≤ r.req.bytesreceived) ∧
      ((∀ i, FirstTerminatorAt (recv_stream net.recvs) i →
        (recv_stream net.recvs).length ≤ i + 4 + r.req.filelen) →
      r.req.bytesreceived ≤ r.req.filelen) := by
    rcases perform_cases req net r h with
      ⟨sent, hr⟩ | ⟨fuel', hdrbuf, e, sock', r', hs, hf, hp, hr⟩
    · rw [hr]
      simp
    · rcases parse_header_cases _ _ _ _ _ _ hp with h1 | ⟨st, fl, hst, h1⟩ | ⟨fl, hfl, h1⟩
      · rw [hr, h1]
        simp
      · rw [hr, h1]
        simp only [Nat.zero_le, implies_true, and_true]
        intro _ hok
        exact absurd hok hst
      · obtain ⟨_, _, hfile, _, hsucc, hbound⟩ := body_loop_inv _ _ _ _ _ _ h1
        have hreq : r.req = r'.req := by rw [hr]
        have hret : r.ret = r'.ret := by rw [hr]
        rw [hreq, hret]
        refine ⟨fun h0 _ => hsucc h0, ?_⟩
        intro hlen
        obtain ⟨hfirst, _⟩ := found_is_first hdrbuf (recv_stream net.recvs) e ⟨_, hs⟩ hf
        have hl := hlen e hfirst
        have hfit := first_terminator_fits _ e (strstr_first _ e hf).1
        have hcl : (cstr hdrbuf).length ≤ hdrbuf.length := (cstr_initial hdrbuf).length_le
        have htot := congrArg List.length hs
        simp only [List.length_append] at htot
        simp only at hfile
        rw [hfile] at hl
        apply hbound
        · simp only [Nat.zero_add]
          have := Nat.mod_le (hdrbuf.length - (e + 4)) SIZE_LIMIT
          omega
        · exact hfl
  refine ⟨hmain.1, fun hlen => ⟨hmain.2 hlen, fun h0 hok => ?_⟩⟩
  have h1 := hmain.1 h0 hok
  have h2 := hmain.2 hlen
  omega

/-! ## Termination -/

theorem recv_fuel_recv (cap : Nat) (sock : List RecvEvent) (hcap : 0 < cap)
    (h : 0 < (recv cap sock).1) : recv_fuel (recv cap sock).2.2 < recv_fuel sock := by
  cases sock with
  | nil => simp [recv] at h
  | cons ev rest =>
    cases ev with
    | fail => simp [recv] at h
    | data bs =>
      by_cases hc : bs.length ≤ cap
      · simp only [recv, hc, if_true, recv_fuel]
        omega
      · simp only [recv, hc, if_false, recv_fuel, List.length_drop]
        omega

theorem body_loop_total (fuel : Nat) : ∀ (req : gfcrequest_t) (tr : List CliEvent)
    (reads : Nat) (sock : List RecvEvent), recv_fuel sock ≤ fuel →
    ∃ r, gfc_body_loop fuel req tr reads sock = some r := by
  induction fuel with
  | zero =>
    intro req tr reads sock h
    have := recv_fuel_pos sock
    omega
  | succ f ih =>
    intro req tr reads sock h
    rw [gfc_body_loop]
    by_cases h1 : (recv DATA_BUFSIZE sock).1 < 0
    · simp only [h1, if_true]
      exact ⟨_, rfl⟩
    · simp only [h1, if_false]
      by_cases h2 : (recv DATA_BUFSIZE sock).1 = 0
      · simp only [h2, if_true]
        split <;> exact ⟨_, rfl⟩
      · simp only [h2, if_false]
        split
        · exact ⟨_, rfl⟩
        · apply ih
          have := recv_fuel_recv DATA_BUFSIZE sock (by decide) (by omega)
          omega

theorem parse_header_total (req : gfcrequest_t) (fuel : Nat) (hdrbuf : List Nat) (e : Nat)
    (sock : List RecvEvent) (h : recv_fuel sock ≤ fuel) :
    ∃ r, gfc_parse_header req fuel hdrbuf e sock = some r := by
  unfold gfc_parse_header gfc_read_body
  simp only
  repeat' split
  all_goals first | exact ⟨_, rfl⟩ | exact body_loop_total fuel _ _ _ _ h

theorem header_loop_total (req : gfcrequest_t) (fuel : Nat) : ∀ (hdr : List Nat)
    (sock : List RecvEvent), recv_fuel sock ≤ fuel →
    ∃ r, gfc_header_loop req fuel hdr sock = some r := by
  induction fuel with
  | zero =>
    intro hdr sock h
    have := recv_fuel_pos sock
    omega
  | succ f ih =>
    intro hdr sock h
    rw [gfc_header_loop]
    by_cases hroom : hdr.length + 1 < HDR_BUFSIZE
    · simp only [hroom, if_true]
      by_cases hrc : (recv (HDR_BUFSIZE - hdr.length - 1) sock).1 ≤ 0
      · simp only [hrc, if_true]
        exact ⟨_, rfl⟩
      · simp only [hrc, if_false]
        have hf := recv_fuel_recv (HDR_BUFSIZE - hdr.length - 1) sock (by omega) (by omega)
        cases strstr CRLFCRLF (cstr (hdr ++ (recv (HDR_BUFSIZE - hdr.length - 1) sock).2.1)) with
        | none => exact ih _ _ (by omega)
        | some e => exact parse_header_total req f _ e _ (by omega)
    · simp only [hroom, if_false]
      exact ⟨_, rfl⟩

/-- `gfc_perform` always returns: the fuel of the model never runs out. -/
theorem gfc_perform_total (req : gfcrequest_t) (net : ClientNet) :
    ∃ r, gfc_perform req net = some r := by
  cases hs : request_sent req net with
  | false =>
    obtain ⟨sent, h⟩ := gfc_perform_of_not_sent req net hs
    exact ⟨_, h⟩
  | true =>
    obtain ⟨r, hr⟩ := header_loop_total
      { req with bytesreceived := 0, filelen := 0, status := GF_INVALID }
      (recv_fuel net.recvs) [] net.recvs (le_refl _)
    rw [gfc_perform_of_sent req net hs, hr]
    exact ⟨_, rfl⟩

/-- C10: every run of `gfc_perform` returns, and in it the header callback is
invoked at most once; when it is invoked, its buffer is the received stream
from its start up to and including the first `\r\n\r\n`, and the call comes
first in the trace: every other callback of the run is a data callback after
it. -/
theorem header_callback_once (req : gfcrequest_t) (net : ClientNet) :
    ∃ r, gfc_perform req net = some r ∧
      (header_calls r.trace).length ≤ 1 ∧
      ∀ hb ∈ header_calls r.trace,
        (∃ i, FirstTerminatorAt (recv_stream net.recvs) i ∧
          hb = (recv_stream net.recvs).take (i + 4)) ∧
        ∃ bufs : List (List Nat), r.trace = CliEvent.header hb :: bufs.map CliEvent.data := by
  obtain ⟨r, hr⟩ := gfc_perform_total req net
  exact ⟨r, hr, header_callback_of_run req net r hr⟩

theorem header_callback_once_witness :
    gfc_perform sample_request
      (sample_net (arrivals [bytes "GETFILE OK 3\r\n\r\na", bytes "bc"])) = some sample_result ∧
    header_calls sample_result.trace = [bytes "GETFILE OK 3\r\n\r\n"] ∧
    ∃ r, gfc_perform sample_request
        (sample_net (arrivals [bytes "GETFILE OK 3\r\n\r\na", bytes "bc"])) = some r ∧
      (header_calls r.trace).length ≤ 1 ∧
      ∀ hb ∈ header_calls r.trace,
        (∃ i, FirstTerminatorAt
            (recv_stream
              (sample_net (arrivals [bytes "GETFILE OK 3\r\n\r\na", bytes "bc"])).recvs) i ∧
          hb = (recv_stream
            (sample_net (arrivals [bytes "GETFILE OK 3\r\n\r\na", bytes "bc"])).recvs).take
              (i + 4)) ∧
        ∃ bufs : List (List Nat), r.trace = CliEvent.header hb :: bufs.map CliEvent.data :=
  ⟨by decide, by decide, header_callback_once sample_request
    (sample_net (arrivals [bytes "GETFILE OK 3\r\n\r\na", bytes "bc"]))⟩

/-- C7, amended: every run of `gfc_perform` returns; when it returns success
with status OK, `bytesreceived` is at least `filelen`; and for a stream that
carries at most `filelen` bytes behind its first header terminator, under every
chunking, `bytesreceived` is at most `filelen` on every return, hence equal to
it on success with status OK. -/
theorem perform_byte_count (req : gfcrequest_t) (net : ClientNet) :
    ∃ r, gfc_perform req net = some r ∧
      (r.ret = 0 → r.req.status = GF_OK → r.req.filelen ≤ r.req.bytesreceived) ∧
      ((∀ i, FirstTerminatorAt (recv_stream net.recvs) i →
          (recv_stream net.recvs).length ≤ i + 4 + r.req.filelen) →
        r.req.bytesreceived ≤ r.req.filelen ∧
        (r.ret = 0 → r.req.status = GF_OK → r.req.bytesreceived = r.req.filelen)) := by
  obtain ⟨r, hr⟩ := gfc_perform_total req net
  exact ⟨r, hr, byte_count_of_run req net r hr⟩

theorem perform_byte_count_witness :
    gfc_perform sample_request
      (sample_net (arrivals [bytes "GETFILE OK 3\r\n\r\na", bytes "bc"])) = some sample_result ∧
    ∃ r, gfc_perform sample_request
        (sample_net (arrivals [bytes "GETFILE OK 3\r\n\r\na", bytes "bc"])) = some r ∧
      (r.ret = 0 → r.req.status = GF_OK → r.req.filelen ≤ r.req.bytesreceived) ∧
      ((∀ i, FirstTerminatorAt
          (recv_stream
            (sample_net (arrivals [bytes "GETFILE OK 3\r\n\r\na", bytes "bc"])).recvs) i →
          (recv_stream
            (sample_net (arrivals [bytes "GETFILE OK 3\r\n\r\na", bytes "bc"])).recvs).length ≤
            i + 4 + r.req.filelen) →
        r.req.bytesreceived ≤ r.req.filelen ∧
        (r.ret = 0 → r.req.status = GF_OK → r.req.bytesreceived = r.req.filelen)) :=
  ⟨by decide, perform_byte_count sample_request
    (sample_net (arrivals [bytes "GETFILE OK 3\r\n\r\na", bytes "bc"]))⟩

/-! ## `send_all`: full write or failure -/

theorem send_all_calls (sends : List Int) : ∀ buf : List Nat,
    sends.length ≤ (send_all sends buf).2.2.length + buf.length := by
  induction sends with
  | nil => intro buf; cases buf <;> simp [send_all]
  | cons r rs ih =>
    intro buf
    cases buf with
    | nil => simp [send_all]
    | cons b buf =>
      unfold send_all
      by_cases h : r ≤ 0
      · simp [h]
      · simp only [h, if_false]
        have := ih ((b :: buf).drop (min r.toNat (b :: buf).length))
        simp only [List.length_drop, List.length_cons] at this ⊢
        omega

theorem send_all_fail_at (r : Int) (post : List Int) (hr : r ≤ 0) : ∀ (pre : List Int)
    (buf : List Nat), (∀ x ∈ pre, 0 < x) → (pre.map Int.toNat).sum < buf.length →
    send_all (pre ++ r :: post) buf = (-1, buf.take (pre.map Int.toNat).sum, post) := by
  intro pre
  induction pre with
  | nil =>
    intro buf _ hlen
    cases buf with
    | nil => simp at hlen
    | cons b buf => simp [send_all, hr]
  | cons x pre ih =>
    intro buf hpos hlen
    cases buf with
    | nil => simp at hlen
    | cons b buf =>
      have hx : 0 < x := hpos x (by simp)
      have hx0 : ¬ x ≤ 0 := by omega
      simp only [List.map_cons, List.sum_cons] at hlen ⊢
      have hk : min x.toNat (b :: buf).length = x.toNat := by
        apply Nat.min_eq_left
        omega
      simp only [List.cons_append]
      rw [send_all]
      simp only [hx0, if_false, hk]
      rw [ih _ (fun y hy => hpos y (by simp [hy]))
        (by simp only [List.length_drop]; omega)]
      simp only [Prod.mk.injEq, true_and, and_true]
      rw [List.take_add]

/-- C15 (full write or failure): `send_all` makes at most one `send` call per
byte of the buffer, so it terminates; when every `send` returns a positive
count, what reaches the socket is the whole buffer, in order, and `gfs_send`
returns its length; and when a `send` that is reached (the positive results
before it cover less than the buffer) returns 0 or a negative value, the result
is -1: exactly the bytes accepted before it were written, the rest of the
script is untouched (no further `send` call), and `gfs_send` returns -1. -/
theorem send_all_full_or_fail (c : gfcontext_t) (buf : List Nat) (sends : List Int) :
    sends.length - (send_all sends buf).2.2.length ≤ buf.length ∧
    ((∀ r ∈ sends, 0 < r) →
      (send_all sends buf).1 = 0 ∧ (send_all sends buf).2.1 = buf ∧
      (gfs_send (some c) buf sends).1 = (buf.length : Int) ∧
      (gfs_send (some c) buf sends).2.1 = [SrvEvent.sent c.clientfd buf]) ∧
    (∀ pre r post, sends = pre ++ r :: post → (∀ x ∈ pre, 0 < x) → r ≤ 0 →
      (pre.map Int.toNat).sum < buf.length →
      send_all sends buf = (-1, buf.take (pre.map Int.toNat).sum, post) ∧
      (gfs_send (some c) buf sends).1 = -1 ∧
      (gfs_send (some c) buf sends).2.1 =
        [SrvEvent.sent c.clientfd (buf.take (pre.map Int.toNat).sum)] ∧
      (gfs_send (some c) buf sends).2.2 = post) := by
  refine ⟨?_, ?_, ?_⟩
  · have := send_all_calls sends buf
    omega
  · intro hpos
    have h0 := send_all_pos sends buf hpos
    have hw := send_all_ok sends buf h0
    refine ⟨h0, hw, ?_, ?_⟩
    · simp [gfs_send, h0]
    · simp [gfs_send, h0, hw]
  · intro pre r post hs hpos hr hlen
    have h := send_all_fail_at r post hr pre buf hpos hlen
    rw [hs]
    refine ⟨h, ?_, ?_, ?_⟩
    · simp [gfs_send, h]
    · simp [gfs_send, h]
    · simp [gfs_send, h]

/-! ## What the data callback receives -/

theorem take_length_add (a b : List Nat) (m : Nat) :
    (a ++ b).take (a.length + m) = a ++ b.take m := by
  induction a with
  | nil => simp
  | cons x a ih =>
    have : (x :: a).length + m = (a.length + m) + 1 := by simp only [List.length_cons]; omega
    rw [this, List.cons_append, List.take_succ_cons, ih, List.cons_append]

/-- The body loop hands the data callback (when set) the bytes it takes from
the socket, in order, and counts them modulo `2^64`. -/
theorem body_loop_delivers (fuel : Nat) : ∀ (req : gfcrequest_t) (tr : List CliEvent)
    (reads : Nat) (sock : List RecvEvent) (r : PerformResult),
    gfc_body_loop fuel req tr reads sock = some r → req.bytesreceived < SIZE_LIMIT →
    ∃ m, m ≤ (recv_stream sock).length ∧
      r.req.bytesreceived = (req.bytesreceived + m) % SIZE_LIMIT ∧
      delivered r.trace =
        delivered tr ++ (if req.writefunc = true then (recv_stream sock).take m else []) := by
  induction fuel with
  | zero => intro req tr reads sock r h; simp [gfc_body_loop] at h
  | succ f ih =>
    intro req tr reads sock r h hb
    rw [gfc_body_loop] at h
    have hzero : ∀ r' : PerformResult, r'.req = req → r'.trace = tr →
        ∃ m, m ≤ (recv_stream sock).length ∧
          r'.req.bytesreceived = (req.bytesreceived + m) % SIZE_LIMIT ∧
          delivered r'.trace =
            delivered tr ++ (if req.writefunc = true then (recv_stream sock).take m else []) := by
      intro r' h1 h2
      refine ⟨0, Nat.zero_le _, ?_, ?_⟩
      · rw [h1, Nat.add_zero, Nat.mod_eq_of_lt hb]
      · rw [h2]
        cases req.writefunc <;> simp
    by_cases h1 : (recv DATA_BUFSIZE sock).1 < 0
    · simp only [h1, if_true, Option.some.injEq] at h
      exact hzero r (by rw [← h]) (by rw [← h])
    · simp only [h1, if_false] at h
      by_cases h2 : (recv DATA_BUFSIZE sock).1 = 0
      · simp only [h2, if_true] at h
        by_cases h3 : req.bytesreceived < req.filelen
        · simp only [h3, if_true, Option.some.injEq] at h
          exact hzero r (by rw [← h]) (by rw [← h])
        · simp only [h3, if_false, Option.some.injEq] at h
          exact hzero r (by rw [← h]) (by rw [← h])
      · simp only [h2, if_false] at h
        obtain ⟨hst, _⟩ := recv_stream_recv DATA_BUFSIZE sock (by omega)
        have hlen := congrArg List.length hst
        simp only [List.length_append] at hlen
        have htake : ∀ m', (recv_stream sock).take ((recv DATA_BUFSIZE sock).2.1.length + m') =
            (recv DATA_BUFSIZE sock).2.1 ++ (recv_stream (recv DATA_BUFSIZE sock).2.2).take m' := by
          intro m'
          rw [← hst, List.take_append_eq_append_take, List.take_of_length_le (by omega)]
          congr 2
          omega
        by_cases h3 : (req.bytesreceived + (recv DATA_BUFSIZE sock).2.1.length) % SIZE_LIMIT ≥
            req.filelen
        · simp only [h3, if_true, Option.some.injEq] at h
          subst h
          refine ⟨(recv DATA_BUFSIZE sock).2.1.length, by omega, rfl, ?_⟩
          have := htake 0
          simp only [Nat.add_zero, List.take_zero, List.append_nil] at this
          rw [this]
          cases req.writefunc <;> simp [delivered_append, delivered]
        · simp only [h3, if_false] at h
          obtain ⟨m', hm', hcount, hdel⟩ := ih _ _ _ _ r h (Nat.mod_lt _ (by decide))
          refine ⟨(recv DATA_BUFSIZE sock).2.1.length + m', by omega, ?_, ?_⟩
          · rw [hcount]
            simp only [Nat.mod_add_mod, Nat.add_assoc]
          · rw [hdel, htake m']
            cases req.writefunc <;> simp [delivered_append, delivered]

/-- The data callback in a run that returns `r` with status OK. -/
theorem delivered_of_run (req : gfcrequest_t) (net : ClientNet) (r : PerformResult)
    (h : gfc_perform req net = some r) (hok : r.req.status = GF_OK)
    (hcb : req.writefunc = true) :
    ∃ i k, FirstTerminatorAt (recv_stream net.recvs) i ∧
      i + 4 + k ≤ (recv_stream net.recvs).length ∧
      delivered r.trace = ((recv_stream net.recvs).drop (i + 4)).take k ∧
      (delivered r.trace).length = k ∧
      r.req.bytesreceived = k % SIZE_LIMIT := by
  rcases perform_cases req net r h with ⟨sent, hr⟩ | ⟨fuel', hdrbuf, e, sock', r', hs, hf, hp, hr⟩
  · rw [hr] at hok
    simp at hok
  · have hreq : r.req = r'.req := by rw [hr]
    have htr : r.trace = r'.trace := by rw [hr]
    rcases parse_header_cases _ _ _ _ _ _ hp with h1 | ⟨st, fl, hst, h1⟩ | ⟨fl, hfl, h1⟩
    · rw [hreq, h1] at hok
      simp at hok
    · rw [hreq, h1] at hok
      exact absurd hok hst
    · obtain ⟨hfirst, _⟩ := found_is_first hdrbuf (recv_stream net.recvs) e ⟨_, hs⟩ hf
      have hfit := first_terminator_fits _ e (strstr_first _ e hf).1
      have hcl : (cstr hdrbuf).length ≤ hdrbuf.length := (cstr_initial hdrbuf).length_le
      have htot := congrArg List.length hs
      simp only [List.length_append] at htot
      obtain ⟨m, hm, hcount, hdel⟩ := body_loop_delivers _ _ _ _ _ _ h1
        (Nat.mod_lt _ (by decide))
      simp only [hcb, and_true, if_true, Nat.zero_add] at hdel hcount
      have hdrop : (recv_stream net.recvs).drop (e + 4) =
          hdrbuf.drop (e + 4) ++ recv_stream sock' := by
        rw [← hs, List.drop_append_of_le_length (by omega)]
      have hpre : delivered (if hdrbuf.length - (e + 4) > 0 then
          (if req.headerfunc = true then [CliEvent.header (hdrbuf.take (e + 4))] else []) ++
            [CliEvent.data (hdrbuf.drop (e + 4))]
          else (if req.headerfunc = true then [CliEvent.header (hdrbuf.take (e + 4))] else [])) =
          hdrbuf.drop (e + 4) := by
        by_cases hz : hdrbuf.length - (e + 4) > 0
        · simp only [hz, if_true, delivered_append]
          cases req.headerfunc <;> simp [delivered]
        · simp only [hz, if_false]
          have hnil : hdrbuf.drop (e + 4) = [] := List.drop_eq_nil_of_le (by omega)
          rw [hnil]
          cases req.headerfunc <;> simp [delivered]
      rw [hpre] at hdel
      have hval : delivered r.trace =
          ((recv_stream net.recvs).drop (e + 4)).take (hdrbuf.length - (e + 4) + m) := by
        have hl : (hdrbuf.drop (e + 4)).length = hdrbuf.length - (e + 4) := List.length_drop _ _
        rw [htr, hdel, hdrop, ← hl, take_length_add]
      refine ⟨e, hdrbuf.length - (e + 4) + m, hfirst, by omega, hval, ?_, ?_⟩
      · rw [hval, List.length_take, List.length_drop]
        omega
      · rw [hreq, hcount]
        simp only [Nat.mod_add_mod]

/-- C11: every run of `gfc_perform` returns, and when it ends with status OK
(in success or failure) and the data callback is set, the buffers handed to the
data callback, concatenated in call order, are the first `k` bytes of the
received stream behind its first header terminator, where `bytesreceived` is
`k` as a `size_t` (`k` itself for every stream shorter than `2^64` bytes); the
bytes that arrived in the header read lead that run of bytes. -/
theorem data_callback_stream (req : gfcrequest_t) (net : ClientNet) :
    ∃ r, gfc_perform req net = some r ∧
      (r.req.status = GF_OK → req.writefunc = true →
        ∃ i k, FirstTerminatorAt (recv_stream net.recvs) i ∧
          i + 4 + k ≤ (recv_stream net.recvs).length ∧
          delivered r.trace = ((recv_stream net.recvs).drop (i + 4)).take k ∧
          (delivered r.trace).length = k ∧
          r.req.bytesreceived = k % SIZE_LIMIT ∧
          ((recv_stream net.recvs).length < SIZE_LIMIT →
            r.req.bytesreceived = k ∧
            delivered r.trace =
              ((recv_stream net.recvs).drop (i + 4)).take r.req.bytesreceived)) := by
  obtain ⟨r, hr⟩ := gfc_perform_total req net
  refine ⟨r, hr, ?_⟩
  intro hok hcb
  obtain ⟨i, k, h1, h2, h3, h4, h5⟩ := delivered_of_run req net r hr hok hcb
  refine ⟨i, k, h1, h2, h3, h4, h5, ?_⟩
  intro hlen
  have hk : k % SIZE_LIMIT = k := Nat.mod_eq_of_lt (by omega)
  rw [h5, hk]
  exact ⟨rfl, h3⟩

theorem data_callback_stream_witness :
    gfc_perform sample_request
      (sample_net (arrivals [bytes "GETFILE OK 3\r\n\r\na", bytes "bc"])) = some sample_result ∧
    delivered sample_result.trace = bytes "abc" ∧
    ∃ r, gfc_perform sample_request
        (sample_net (arrivals [bytes "GETFILE OK 3\r\n\r\na", bytes "bc"])) = some r ∧
      (r.req.status = GF_OK → sample_request.writefunc = true →
        ∃ i k, FirstTerminatorAt
            (recv_stream
              (sample_net (arrivals [bytes "GETFILE OK 3\r\n\r\na", bytes "bc"])).recvs) i ∧
          i + 4 + k ≤ (recv_stream
            (sample_net (arrivals [bytes "GETFILE OK 3\r\n\r\na", bytes "bc"])).recvs).length ∧
          delivered r.trace = ((recv_stream
            (sample_net (arrivals [bytes "GETFILE OK 3\r\n\r\na", bytes "bc"])).recvs).drop
              (i + 4)).take k ∧
          (delivered r.trace).length = k ∧
          r.req.bytesreceived = k % SIZE_LIMIT ∧
          ((recv_stream
              (sample_net (arrivals [bytes "GETFILE OK 3\r\n\r\na", bytes "bc"])).recvs).length <
              SIZE_LIMIT →
            r.req.bytesreceived = k ∧
            delivered r.trace = ((recv_stream
              (sample_net (arrivals [bytes "GETFILE OK 3\r\n\r\na", bytes "bc"])).recvs).drop
                (i + 4)).take r.req.bytesreceived)) :=
  ⟨by decide, by decide, data_callback_stream sample_request
    (sample_net (arrivals [bytes "GETFILE OK 3\r\n\r\na", bytes "bc"]))⟩

/-! ## Body bytes in the header read reach the header scan -/

/-- C12 (evaluation at the failing input): the response
`"GETFILE\r\n\r\nOK 3 abc"`, whose header holds the tag alone, arrives in one
read; `gfc_perform` returns 0 with status OK and file length 3, after one call
of the header callback and one of the data callback. -/
theorem perform_one_token_header :
    (gfc_perform sample_request (sample_net (arrivals [bytes "GETFILE\r\n\r\nOK 3 abc"]))).map
        (fun r => (r.ret, r.req.status, r.req.filelen, r.req.bytesreceived, r.trace)) =
      some (0, GF_OK, 3, 8, [CliEvent.header (bytes "GETFILE\r\n\r\n"),
        CliEvent.data (bytes "OK 3 abc")]) := by
  decide

/-- C13 (evaluation at the failing inputs): the header `"GETFILE ERROR\r\n\r\n"`
has no numeric field; followed by the body bytes `"12abc"` in the same read it
gives file length 12, and with the same bytes in a second read it gives file
length 0.  Likewise the stream `"GETFILE OK\r\n\r\n9abc"` gives file length 9
and the result -1 when it arrives in one read, and file length 0 and the result
0 when the body arrives in a read of its own. -/
theorem perform_filelen_from_body :
    (gfc_perform sample_request
        (sample_net (arrivals [bytes "GETFILE ERROR\r\n\r\n12abc"]))).map
        (fun r => (r.ret, r.req.status, r.req.filelen)) = some (0, GF_ERROR, 12) ∧
    (gfc_perform sample_request
        (sample_net (arrivals [bytes "GETFILE ERROR\r\n\r\n", bytes "12abc"]))).map
        (fun r => (r.ret, r.req.status, r.req.filelen)) = some (0, GF_ERROR, 0) ∧
    (gfc_perform sample_request
        (sample_net (arrivals [bytes "GETFILE OK\r\n\r\n9abc"]))).map
        (fun r => (r.ret, r.req.status, r.req.filelen)) = some (-1, GF_OK, 9) ∧
    (gfc_perform sample_request
        (sample_net (arrivals [bytes "GETFILE OK\r\n\r\n", bytes "9abc"]))).map
        (fun r => (r.ret, r.req.status, r.req.filelen)) = some (0, GF_OK, 0) :=
  ⟨by decide, by decide, by decide, by decide⟩

/-! ## An OK header without a length -/

theorem gfs_send_some (c : gfcontext_t) (data : List Nat) (sends : List Int) :
    gfs_send (some c) data sends =
      (if (send_all sends data).1 < 0 then -1 else (data.length : Int),
        [SrvEvent.sent c.clientfd (send_all sends data).2.1], (send_all sends data).2.2) := by
  simp only [gfs_send]
  split <;> rfl

theorem send_all_rest (sends : List Int) : ∀ buf : List Nat,
    (send_all sends buf).2.2 <:+ sends := by
  induction sends with
  | nil => intro buf; cases buf <;> simp [send_all]
  | cons r rs ih =>
    intro buf
    cases buf with
    | nil => simp [send_all]
    | cons b buf =>
      simp only [send_all]
      split
      · exact List.suffix_cons r rs
      · exact (ih _).trans (List.suffix_cons r rs)

/-- The bytes a `pread` stores lie in the file at the offset, are at most
`count`, and their number is the value returned unless the call fails. -/
theorem pread_spec (content : List Nat) (count offset : Nat) (preads : List Int) :
    (pread content count offset preads).2.1 <+: content.drop offset ∧
    (pread content count offset preads).2.1.length ≤ count ∧
    ((pread content count offset preads).1 = -1 ∨
      (pread content count offset preads).1 =
        ((pread content count offset preads).2.1.length : Int)) ∧
    (pread content count offset preads).2.2 <:+ preads := by
  cases preads with
  | nil =>
    refine ⟨List.take_prefix _ _, ?_, Or.inr rfl, List.suffix_refl _⟩
    show ((content.drop offset).take count).length ≤ count
    rw [List.length_take]
    omega
  | cons r rs =>
    by_cases hr : r < 0
    · have e : pread content count offset (r :: rs) = (-1, [], rs) := by
        simp only [pread, hr, if_true]
      rw [e]
      exact ⟨List.nil_prefix, Nat.zero_le _, Or.inl rfl, List.suffix_cons r rs⟩
    · have e : pread content count offset (r :: rs) =
          ((((content.drop offset).take (min r.toNat count)).length : Int),
            (content.drop offset).take (min r.toNat count), rs) := by
        simp only [pread, hr, if_false]
      rw [e]
      refine ⟨List.take_prefix _ _, ?_, Or.inr rfl, List.suffix_cons r rs⟩
      show ((content.drop offset).take (min r.toNat count)).length ≤ count
      rw [List.length_take]
      omega

/-- A `pread` that is not cut short reads `count` bytes when the file has them. -/
theorem pread_full (content : List Nat) (count offset : Nat) (preads : List Int)
    (hp : ∀ r ∈ preads, (BUFSIZE : Int) ≤ r) (hc : count ≤ BUFSIZE)
    (hfile : offset + count ≤ content.length) :
    pread content count offset preads =
      ((count : Int), (content.drop offset).take count, preads.tail) := by
  have hlen : ((content.drop offset).take count).length = count := by
    rw [List.length_take, List.length_drop]
    omega
  cases preads with
  | nil =>
    have e : pread content count offset [] =
        ((((content.drop offset).take count).length : Int),
          (content.drop offset).take count, []) := rfl
    rw [e, hlen]
    rfl
  | cons r rs =>
    have hr := hp r (by simp)
    have h1 : ¬ r < 0 := by
      have : (0 : Int) ≤ (BUFSIZE : Int) := Int.ofNat_nonneg _
      omega
    have h2 : min r.toNat count = count := by
      have : (count : Int) ≤ (BUFSIZE : Int) := by exact_mod_cast hc
      omega
    have e : pread content count offset (r :: rs) =
        ((((content.drop offset).take (min r.toNat count)).length : Int),
          (content.drop offset).take (min r.toNat count), rs) := by
      simp only [pread, h1, if_false]
    rw [e, h2, hlen]
    rfl

/-- The streaming loop ends: fuel of the size of `remaining` is enough. -/
theorem stream_loop_total (ctx : Option gfcontext_t) (content : List Nat) (fuel : Nat) :
    ∀ (remaining offset : Int) (preads sends : List Int), remaining.toNat ≤ fuel →
    ∃ res, stream_loop ctx content fuel remaining offset preads sends = some res := by
  induction fuel with
  | zero =>
    intro remaining offset preads sends h
    have : ¬ remaining > 0 := by omega
    exact ⟨([], [], sends), by simp only [stream_loop, this, if_false]⟩
  | succ f ih =>
    intro remaining offset preads sends h
    simp only [stream_loop]
    by_cases hr : remaining > 0
    · simp only [hr, if_true]
      generalize (if remaining > (BUFSIZE : Int) then BUFSIZE else remaining.toNat) = chunk
      by_cases h1 : (pread content chunk offset.toNat preads).1 ≤ 0
      · simp only [h1, if_true]
        exact ⟨_, rfl⟩
      · simp only [h1, if_false]
        by_cases h2 : (gfs_send ctx (pread content chunk offset.toNat preads).2.1 sends).1 ≤ 0
        · simp only [h2, if_true]
          exact ⟨_, rfl⟩
        · simp only [h2, if_false]
          obtain ⟨res, hres⟩ := ih
            (remaining - (gfs_send ctx (pread content chunk offset.toNat preads).2.1 sends).1)
            (offset + (gfs_send ctx (pread content chunk offset.toNat preads).2.1 sends).1)
            (pread content chunk offset.toNat preads).2.2
            (gfs_send ctx (pread content chunk offset.toNat preads).2.1 sends).2.2 (by omega)
          rw [hres]
          exact ⟨_, rfl⟩
    · simp only [hr, if_false]
      exact ⟨_, rfl⟩

/-- The work on a job ends, whatever the file and the socket do. -/
theorem worker_thread_job_total (job : job_t) (file : JobFile) (sends : List Int) :
    ∃ r, worker_thread_job job file sends = some r := by
  unfold worker_thread_job
  split
  · exact ⟨_, rfl⟩
  · split
    · exact ⟨_, rfl⟩
    · rename_i st_size _
      obtain ⟨res, hres⟩ := stream_loop_total job.ctx file.content st_size.toNat st_size 0
        file.preads (gfs_sendheader job.ctx GF_OK (st_size % (SIZE_LIMIT : Int)).toNat sends).2.2
        (le_refl _)
      simp only [hres]
      exact ⟨_, rfl⟩

theorem wire_bytes_append (a b : List SrvEvent) :
    wire_bytes (a ++ b) = wire_bytes a ++ wire_bytes b := by
  induction a with
  | nil => simp [wire_bytes]
  | cons e a ih => cases e <;> simp [wire_bytes, ih]

/-- A `gfs_send` that returns a positive value has put its whole buffer on the
wire; one that does not has put an initial part of it there. -/
theorem gfs_send_cases (c : gfcontext_t) (data : List Nat) (sends : List Int) :
    ((gfs_send (some c) data sends).1 = (data.length : Int) ∧
      (gfs_send (some c) data sends).2.1 = [SrvEvent.sent c.clientfd data]) ∨
    ((gfs_send (some c) data sends).1 = -1 ∧
      ∃ part, part <+: data ∧
        (gfs_send (some c) data sends).2.1 = [SrvEvent.sent c.clientfd part]) := by
  rw [gfs_send_some]
  rcases send_all_ret sends data with h | h
  · left
    have hw := send_all_ok sends data h
    simp [h, hw]
  · right
    exact ⟨by simp [h], _, send_all_initial sends data, rfl⟩

/-- The streaming loop, whatever the file and the socket do: every event is a
write of at most `BUFSIZE` bytes to the job's socket, one per `gfs_send` call;
the bytes written are an initial part of the file from the offset on; and a
`gfs_send` that does not return a positive value is the last one. -/
theorem stream_loop_inv (c : gfcontext_t) (content : List Nat) (fuel : Nat) :
    ∀ (remaining offset : Int) (preads sends : List Int)
      (res : List SrvEvent × List Int × List Int), 0 ≤ offset →
    stream_loop (some c) content fuel remaining offset preads sends = some res →
    (∀ e ∈ res.1, ∃ bs, e = SrvEvent.sent c.clientfd bs ∧ bs.length ≤ BUFSIZE) ∧
    wire_bytes res.1 <+: content.drop offset.toNat ∧
    res.1.length = res.2.1.length ∧
    (∀ pre r post, res.2.1 = pre ++ r :: post → r ≤ 0 → post = []) := by
  induction fuel with
  | zero =>
    intro remaining offset preads sends res _ h
    simp only [stream_loop] at h
    split at h
    · exact absurd h (by simp)
    · simp only [Option.some.injEq] at h
      subst h
      exact ⟨by simp, by simp [wire_bytes], rfl, by simp⟩
  | succ f ih =>
    intro remaining offset preads sends res hoff h
    simp only [stream_loop] at h
    have hdone : some (([] : List SrvEvent), ([] : List Int), sends) = some res →
        (∀ e ∈ res.1, ∃ bs, e = SrvEvent.sent c.clientfd bs ∧ bs.length ≤ BUFSIZE) ∧
        wire_bytes res.1 <+: content.drop offset.toNat ∧
        res.1.length = res.2.1.length ∧
        (∀ pre r post, res.2.1 = pre ++ r :: post → r ≤ 0 → post = []) := by
      intro h
      simp only [Option.some.injEq] at h
      subst h
      exact ⟨by simp, by simp [wire_bytes], rfl, by simp⟩
    by_cases hr : remaining > 0
    · simp only [hr, if_true] at h
      have hchunk : (if remaining > (BUFSIZE : Int) then BUFSIZE else remaining.toNat) ≤
          BUFSIZE := by
        split
        · exact le_refl _
        · omega
      generalize (if remaining > (BUFSIZE : Int) then BUFSIZE else remaining.toNat) = chunk
        at h hchunk
      obtain ⟨hpre, hlen, _, _⟩ := pread_spec content chunk offset.toNat preads
      by_cases h1 : (pread content chunk offset.toNat preads).1 ≤ 0
      · simp only [h1, if_true] at h
        exact hdone h
      · simp only [h1, if_false] at h
        generalize (pread content chunk offset.toNat preads).2.1 = d at h hpre hlen
        generalize (pread content chunk offset.toNat preads).2.2 = preads1 at h
        rcases gfs_send_cases c d sends with ⟨hs1, hs2⟩ | ⟨hs1, part, hpart, hs2⟩
        · by_cases h2 : (gfs_send (some c) d sends).1 ≤ 0
          · simp only [h2, if_true, Option.some.injEq] at h
            subst h
            simp only [hs2, hs1]
            refine ⟨?_, ?_, rfl, ?_⟩
            · intro e he
              rw [List.mem_singleton] at he
              exact ⟨d, he, by omega⟩
            · simpa [wire_bytes] using hpre
            · intro pre r post hsplit _
              cases pre with
              | nil =>
                simp only [List.nil_append, List.cons.injEq] at hsplit
                exact hsplit.2.symm
              | cons a t =>
                have := congrArg List.length hsplit
                simp only [List.length_cons, List.length_nil, List.length_append] at this
                omega
          · simp only [h2, if_false] at h
            cases hrec : stream_loop (some c) content f
                (remaining - (gfs_send (some c) d sends).1)
                (offset + (gfs_send (some c) d sends).1) preads1
                (gfs_send (some c) d sends).2.2 with
            | none => simp [hrec] at h
            | some res1 =>
              simp only [hrec, Option.map_some', Option.some.injEq] at h
              subst h
              have hoff1 : 0 ≤ offset + (gfs_send (some c) d sends).1 := by
                rw [hs1]
                omega
              obtain ⟨i1, i2, i3, i4⟩ := ih _ _ _ _ res1 hoff1 hrec
              have hpos : 0 < (gfs_send (some c) d sends).1 := by omega
              simp only [hs2]
              refine ⟨?_, ?_, ?_, ?_⟩
              · intro e he
                rcases List.mem_append.mp he with he | he
                · rw [List.mem_singleton] at he
                  exact ⟨d, he, by omega⟩
                · exact i1 e he
              · show wire_bytes (SrvEvent.sent c.clientfd d :: res1.1) <+: _
                simp only [wire_bytes]
                obtain ⟨t, ht⟩ := hpre
                have hto : (offset + (gfs_send (some c) d sends).1).toNat =
                    offset.toNat + d.length := by
                  rw [hs1]
                  omega
                rw [hto, ← List.drop_drop, ← ht, List.drop_left] at i2
                rw [← ht]
                exact (List.prefix_append_right_inj d).mpr i2
              · simp only [List.length_append, List.length_cons, List.length_nil, i3]
                omega
              · intro pre r post hsplit hrle
                cases pre with
                | nil =>
                  simp only [List.nil_append, List.cons.injEq] at hsplit
                  omega
                | cons a t =>
                  simp only [List.cons_append, List.cons.injEq] at hsplit
                  exact i4 t r post hsplit.2 hrle
        · have h2 : (gfs_send (some c) d sends).1 ≤ 0 := by
            rw [hs1]
            decide
          simp only [h2, if_true, Option.some.injEq] at h
          subst h
          simp only [hs2]
          refine ⟨?_, ?_, rfl, ?_⟩
          · intro e he
            rw [List.mem_singleton] at he
            exact ⟨part, he, by have := hpart.length_le; omega⟩
          · simpa [wire_bytes] using hpart.trans hpre
          · intro pre r post hsplit _
            cases pre with
            | nil =>
              simp only [List.nil_append, List.cons.injEq] at hsplit
              exact hsplit.2.symm
            | cons a t =>
              have := congrArg List.length hsplit
              simp only [List.length_cons, List.length_nil, List.length_append] at this
              omega
    · simp only [hr, if_false] at h
      exact hdone h

theorem gfs_send_pos (c : gfcontext_t) (data : List Nat) (sends : List Int)
    (hs : ∀ r ∈ sends, 0 < r) :
    gfs_send (some c) data sends =
      ((data.length : Int), [SrvEvent.sent c.clientfd data], (send_all sends data).2.2) := by
  have h0 := send_all_pos sends data hs
  have hw := send_all_ok sends data h0
  rw [gfs_send_some]
  simp [h0, hw]

theorem stream_loop_step (c : gfcontext_t) (content : List Nat) (f : Nat)
    (remaining offset : Int) (preads sends : List Int) (chunk : Nat) (d : List Nat)
    (preads1 sends1 : List Int) (hr : remaining > 0)
    (hchunk : (if remaining > (BUFSIZE : Int) then BUFSIZE else remaining.toNat) = chunk)
    (hrd : pread content chunk offset.toNat preads = ((d.length : Int), d, preads1))
    (hd : 0 < d.length)
    (hs : gfs_send (some c) d sends =
      ((d.length : Int), [SrvEvent.sent c.clientfd d], sends1)) :
    stream_loop (some c) content (f + 1) remaining offset preads sends =
      (stream_loop (some c) content f (remaining - (d.length : Int))
        (offset + (d.length : Int)) preads1 sends1).map
        (fun res => ([SrvEvent.sent c.clientfd d] ++ res.1, (d.length : Int) :: res.2.1,
          res.2.2)) := by
  have h1 : ¬ ((d.length : Int) ≤ 0) := by omega
  simp only [stream_loop, hr, if_true, hchunk, hrd, hs, h1, if_false]

/-- The streaming loop when no `pread` is cut short and no `send` fails: the
file goes out whole from the offset on, in `ceil(remaining / BUFSIZE)` calls of
`gfs_send`, all of which return a positive value. -/
theorem stream_loop_full (c : gfcontext_t) (content : List Nat) (fuel : Nat) :
    ∀ (off : Nat) (remaining offset : Int) (preads sends : List Int),
    offset = (off : Int) → remaining + offset = (content.length : Int) → 0 ≤ remaining →
    remaining.toNat ≤ fuel → (∀ r ∈ preads, (BUFSIZE : Int) ≤ r) → (∀ r ∈ sends, 0 < r) →
    ∃ res, stream_loop (some c) content fuel remaining offset preads sends = some res ∧
      wire_bytes res.1 = content.drop off ∧
      res.2.1.length = (remaining.toNat + (BUFSIZE - 1)) / BUFSIZE ∧
      (∀ r ∈ res.2.1, 0 < r) := by
  induction fuel with
  | zero =>
    intro off remaining offset preads sends ho hsum hrem hfuel _ _
    have h0 : ¬ remaining > 0 := by omega
    refine ⟨([], [], sends), by simp only [stream_loop, h0, if_false], ?_, ?_, by simp⟩
    · have : content.length ≤ off := by omega
      simp [wire_bytes, List.drop_eq_nil_of_le this]
    · have : remaining.toNat = 0 := by omega
      simp [this, BUFSIZE]
  | succ f ih =>
    intro off remaining offset preads sends ho hsum hrem hfuel hp hs
    by_cases hr : remaining > 0
    · have hB : (BUFSIZE : Int) = 4096 := by simp [BUFSIZE]
      have hBn : BUFSIZE = 4096 := rfl
      obtain ⟨chunk, hchunk⟩ : ∃ chunk,
          (if remaining > (BUFSIZE : Int) then BUFSIZE else remaining.toNat) = chunk := ⟨_, rfl⟩
      have hc1 : chunk ≤ BUFSIZE := by
        rw [← hchunk]
        split <;> omega
      have hc2 : (chunk : Int) ≤ remaining := by
        rw [← hchunk]
        split <;> omega
      have hc3 : 0 < chunk := by
        rw [← hchunk]
        split <;> omega
      have hc4 : remaining.toNat ≤ BUFSIZE → chunk = remaining.toNat := by
        intro hle
        rw [← hchunk]
        split <;> omega
      have hc5 : BUFSIZE < remaining.toNat → chunk = BUFSIZE := by
        intro hlt
        rw [← hchunk]
        split <;> omega
      have hot : offset.toNat = off := by omega
      have hfile : off + chunk ≤ content.length := by omega
      have hlen : ((content.drop off).take chunk).length = chunk := by
        rw [List.length_take, List.length_drop]
        omega
      have hrd : pread content chunk offset.toNat preads =
          ((((content.drop off).take chunk).length : Int), (content.drop off).take chunk,
            preads.tail) := by
        rw [hot, pread_full content chunk off preads hp hc1 hfile, hlen]
      have hsd := gfs_send_pos c ((content.drop off).take chunk) sends hs
      rw [stream_loop_step c content f remaining offset preads sends chunk _ _ _ hr hchunk hrd
        (by omega) hsd, hlen]
      obtain ⟨res1, hres1, hw1, hn1, hpos1⟩ := ih (off + chunk) (remaining - (chunk : Int))
        (offset + (chunk : Int)) preads.tail
        (send_all sends ((content.drop off).take chunk)).2.2
        (by rw [ho]; push_cast; rfl) (by omega) (by omega) (by omega)
        (fun r hr => hp r (List.mem_of_mem_tail hr))
        (fun r hr => hs r ((send_all_rest sends _).subset hr))
      rw [hres1]
      refine ⟨_, rfl, ?_, ?_, ?_⟩
      · show wire_bytes (SrvEvent.sent c.clientfd ((content.drop off).take chunk) :: res1.1) = _
        simp only [wire_bytes, hw1]
        rw [← List.drop_drop, List.take_append_drop]
      · simp only [List.length_cons, hn1]
        by_cases hbig : remaining.toNat ≤ BUFSIZE
        · have := hc4 hbig
          have h0 : (remaining - (chunk : Int)).toNat = 0 := by omega
          rw [h0]
          simp only [hBn] at hbig ⊢
          omega
        · have := hc5 (by omega)
          have h0 : (remaining - (chunk : Int)).toNat = remaining.toNat - 4096 := by omega
          rw [h0]
          simp only [hBn] at hbig ⊢
          omega
      · intro r hr
        rcases List.mem_cons.mp hr with h | h
        · omega
        · exact hpos1 r h
    · have h0 : ¬ remaining > 0 := hr
      refine ⟨([], [], sends), by simp only [stream_loop, h0, if_false], ?_, ?_, by simp⟩
      · have : content.length ≤ off := by omega
        simp [wire_bytes, List.drop_eq_nil_of_le this]
      · have : remaining.toNat = 0 := by omega
        simp [this, BUFSIZE]

theorem size_t_of_length (n : Nat) (hn : n < SIZE_LIMIT) :
    ((n : Int) % (SIZE_LIMIT : Int)).toNat = n := by
  rw [← Int.natCast_mod, Nat.mod_eq_of_lt hn, Int.toNat_natCast]

/-- The work on a job whose file is found and whose `fstat` gives the length
of the file. -/
theorem worker_thread_job_found (c : gfcontext_t) (path : List Nat) (file : JobFile)
    (sends : List Int) (hfd : 0 ≤ file.fd)
    (hstat : file.stat = some (file.content.length : Int))
    (hsize : file.content.length < SIZE_LIMIT) :
    worker_thread_job ⟨some c, path⟩ file sends =
      (stream_loop (some c) file.content file.content.length (file.content.length : Int) 0
        file.preads (send_all sends (wire_header GF_OK file.content.length)).2.2).map
        (fun res => ⟨SrvEvent.sent c.clientfd
          (send_all sends (wire_header GF_OK file.content.length)).2.1 :: res.1,
          res.2.1, none, res.2.2⟩) := by
  have h1 : ¬ file.fd < 0 := by omega
  simp only [worker_thread_job, h1, if_false, hstat, size_t_of_length _ hsize,
    Int.toNat_natCast, gfs_sendheader_some c GF_OK _ sends hsize]
  rfl

/-- C17: a job whose file is found, with `fstat` giving the length `n` of its
content `F`.  The worker first writes (an initial part of) the header
`"GETFILE OK n\r\n\r\n"`, then one write of at most 4096 bytes per `gfs_send`
call of the streaming loop; the body bytes written are an initial part of `F`,
and a `gfs_send` that fails is the last call, so nothing is sent behind it.
When every `pread` returns the bytes requested and every `send` succeeds, the
bytes written are exactly the header followed by `F`, in `ceil(n / 4096)`
`gfs_send` calls. -/
theorem worker_streams_file (c : gfcontext_t) (path : List Nat) (file : JobFile)
    (sends : List Int) (hfd : 0 ≤ file.fd)
    (hstat : file.stat = some (file.content.length : Int))
    (hsize : file.content.length < 2 ^ 63) :
    ∃ (r : JobResult) (h : List Nat) (evs : List SrvEvent),
      worker_thread_job ⟨some c, path⟩ file sends = some r ∧
      r.trace = SrvEvent.sent c.clientfd h :: evs ∧
      h <+: wire_header GF_OK file.content.length ∧
      (∀ e ∈ evs, ∃ bs, e = SrvEvent.sent c.clientfd bs ∧ bs.length ≤ 4096) ∧
      wire_bytes evs <+: file.content ∧
      evs.length = r.rets.length ∧
      (∀ pre x post, r.rets = pre ++ x :: post → x ≤ 0 → post = []) ∧
      ((∀ x ∈ file.preads, (BUFSIZE : Int) ≤ x) → (∀ x ∈ sends, 0 < x) →
        wire_bytes r.trace = wire_header GF_OK file.content.length ++ file.content ∧
        wire_bytes evs = file.content ∧
        r.rets.length = (file.content.length + 4095) / 4096 ∧
        (∀ x ∈ r.rets, 0 < x)) := by
  have hsz : file.content.length < SIZE_LIMIT := lt_trans hsize (by decide)
  obtain ⟨res, hres⟩ := stream_loop_total (some c) file.content file.content.length
    (file.content.length : Int) 0 file.preads
    (send_all sends (wire_header GF_OK file.content.length)).2.2 (by omega)
  obtain ⟨i1, i2, i3, i4⟩ := stream_loop_inv c file.content _ _ _ _ _ res (le_refl _) hres
  rw [worker_thread_job_found c path file sends hfd hstat hsz, hres]
  refine ⟨_, _, res.1, rfl, rfl, send_all_initial sends _, i1, ?_, i3, i4, ?_⟩
  · simpa using i2
  · intro hreads hsends
    have h0 := send_all_pos sends (wire_header GF_OK file.content.length) hsends
    have hw := send_all_ok sends (wire_header GF_OK file.content.length) h0
    obtain ⟨res1, hres1, f1, f2, f3⟩ := stream_loop_full c file.content file.content.length 0
      (file.content.length : Int) 0 file.preads
      (send_all sends (wire_header GF_OK file.content.length)).2.2 rfl (by omega) (by omega)
      (by omega) hreads (fun r hr => hsends r ((send_all_rest sends _).subset hr))
    rw [hres] at hres1
    simp only [Option.some.injEq] at hres1
    subst hres1
    simp only [List.drop_zero] at f1
    refine ⟨?_, f1, ?_, f3⟩
    · simp only [Option.map_some', wire_bytes, hw, f1]
    · simpa [BUFSIZE] using f2

theorem worker_streams_file_witness :
    ∃ (r : JobResult) (h : List Nat) (evs : List SrvEvent),
      worker_thread_job ⟨some ⟨5⟩, bytes "/x"⟩ sample_file [] = some r ∧
      r.trace = SrvEvent.sent 5 h :: evs ∧
      h <+: wire_header GF_OK sample_file.content.length ∧
      (∀ e ∈ evs, ∃ bs, e = SrvEvent.sent 5 bs ∧ bs.length ≤ 4096) ∧
      wire_bytes evs <+: sample_file.content ∧
      evs.length = r.rets.length ∧
      (∀ pre x post, r.rets = pre ++ x :: post → x ≤ 0 → post = []) ∧
      ((∀ x ∈ sample_file.preads, (BUFSIZE : Int) ≤ x) → (∀ x ∈ ([] : List Int), 0 < x) →
        wire_bytes r.trace =
          wire_header GF_OK sample_file.content.length ++ sample_file.content ∧
        wire_bytes evs = sample_file.content ∧
        r.rets.length = (sample_file.content.length + 4095) / 4096 ∧
        (∀ x ∈ r.rets, 0 < x)) :=
  worker_streams_file ⟨5⟩ (bytes "/x") sample_file [] (by decide)
    (by simp only [sample_file, List.length_replicate]; rfl)
    (by simp only [sample_file, List.length_replicate]; norm_num)

/-- The events of `gfs_sendheader` are writes to the socket. -/
theorem gfs_sendheader_events (ctx : Option gfcontext_t) (s : gfstatus_t) (n : Nat)
    (sends : List Int) :
    ∀ e ∈ (gfs_sendheader ctx s n sends).2.1, ∃ fd bs, e = SrvEvent.sent fd bs := by
  intro e he
  unfold gfs_sendheader at he
  split at he
  · simp at he
  · rename_i c
    simp only [] at he
    split at he
    · simp at he
    · split at he
      · simp only [List.mem_singleton] at he
        exact ⟨_, _, he⟩
      · simp only [List.mem_singleton] at he
        exact ⟨_, _, he⟩

/-- The work on a job of a live context records writes to the socket only:
no `close` of the socket and no `free` of the context, whatever the outcome. -/
theorem worker_thread_job_events (c : gfcontext_t) (path : List Nat) (file : JobFile)
    (sends : List Int) (r : JobResult)
    (h : worker_thread_job ⟨some c, path⟩ file sends = some r) :
    r.ctx = none ∧ ∀ e ∈ r.trace, ∃ fd bs, e = SrvEvent.sent fd bs := by
  unfold worker_thread_job at h
  split at h
  · simp only [Option.some.injEq] at h
    subst h
    exact ⟨rfl, gfs_sendheader_events _ _ _ _⟩
  · split at h
    · simp only [Option.some.injEq] at h
      subst h
      exact ⟨rfl, gfs_sendheader_events _ _ _ _⟩
    · rename_i st_size _
      simp only [] at h
      cases hl : stream_loop (some c) file.content st_size.toNat st_size 0 file.preads
          (gfs_sendheader (some c) GF_OK (st_size % (SIZE_LIMIT : Int)).toNat sends).2.2 with
      | none => simp [hl] at h
      | some res =>
        simp only [hl, Option.map_some', Option.some.injEq] at h
        subst h
        obtain ⟨i1, _, _, _⟩ := stream_loop_inv c file.content _ _ _ _ _ res (le_refl _) hl
        refine ⟨rfl, ?_⟩
        intro e he
        rcases List.mem_append.mp he with he | he
        · exact gfs_sendheader_events _ _ _ _ e he
        · obtain ⟨bs, hbs, _⟩ := i1 e he
          exact ⟨_, bs, hbs⟩

/-- C16 (evaluation at the failing inputs): a worker serves the job of the
context with socket 5 in the four outcomes: path not found, `fstat` failure,
full transfer of a file of 10 bytes, and a transfer cut short by a failed send.
Each time the events are the writes alone and `job->ctx` ends as NULL: the
socket is not closed and the context is not freed, which `gfs_abort` would
have recorded as `closed 5` and `freed`. -/
theorem worker_leaves_socket_open :
    worker_thread_job ⟨some ⟨5⟩, bytes "/x"⟩ missing_file [] =
      some ⟨[SrvEvent.sent 5 (bytes "GETFILE FILE_NOT_FOUND\r\n\r\n")], [], none, []⟩ ∧
    worker_thread_job ⟨some ⟨5⟩, bytes "/x"⟩ ⟨3, none, bytes "0123456789", []⟩ [] =
      some ⟨[SrvEvent.sent 5 (bytes "GETFILE ERROR\r\n\r\n")], [], none, []⟩ ∧
    worker_thread_job ⟨some ⟨5⟩, bytes "/x"⟩ short_file [] =
      some ⟨[SrvEvent.sent 5 (bytes "GETFILE OK 10\r\n\r\n"),
        SrvEvent.sent 5 (bytes "0123456789")], [10], none, []⟩ ∧
    worker_thread_job ⟨some ⟨5⟩, bytes "/x"⟩ short_file [100, 3, 0] =
      some ⟨[SrvEvent.sent 5 (bytes "GETFILE OK 10\r\n\r\n"), SrvEvent.sent 5 (bytes "012")],
        [-1], none, []⟩ ∧
    gfs_abort (some ⟨5⟩) = (none, [SrvEvent.closed 5, SrvEvent.freed ⟨5⟩]) :=
  ⟨by decide, by decide, by decide, by decide, by decide⟩

/-- C18: a job whose path the content lookup does not find, on a socket whose
sends succeed: the worker writes exactly `"GETFILE FILE_NOT_FOUND\r\n\r\n"`,
without a call of `gfs_send`; and a `gfc_perform` whose request went out and
that receives these bytes, split into reads in any way, returns 0 with status
FILE_NOT_FOUND, `bytesreceived = 0` and no call of the data callback. -/
theorem worker_not_found (c : gfcontext_t) (path : List Nat) (file : JobFile)
    (sends : List Int) (hnf : file.fd < 0) (hs : ∀ x ∈ sends, 0 < x) :
    ∃ r, worker_thread_job ⟨some c, path⟩ file sends = some r ∧
      r.trace = [SrvEvent.sent c.clientfd (bytes "GETFILE FILE_NOT_FOUND\r\n\r\n")] ∧
      r.rets = [] ∧
      wire_bytes r.trace = bytes "GETFILE FILE_NOT_FOUND\r\n\r\n" ∧
      ∀ (req : gfcrequest_t) (net : ClientNet) (chunks : List (List Nat)),
        request_sent req net = true → net.recvs = arrivals chunks →
        (∀ x ∈ chunks, x ≠ []) → chunks.flatten = wire_bytes r.trace →
        ∃ p, gfc_perform req net = some p ∧ p.ret = 0 ∧
          p.req.status = GF_FILE_NOT_FOUND ∧ p.req.bytesreceived = 0 ∧
          delivered p.trace = [] := by
  have h0 := send_all_pos sends (wire_header GF_FILE_NOT_FOUND 0) hs
  have hw := send_all_ok sends (wire_header GF_FILE_NOT_FOUND 0) h0
  have hwire : wire_header GF_FILE_NOT_FOUND 0 = bytes "GETFILE FILE_NOT_FOUND\r\n\r\n" := rfl
  have htr : (gfs_sendheader (some c) GF_FILE_NOT_FOUND 0 sends).2.1 =
      [SrvEvent.sent c.clientfd (bytes "GETFILE FILE_NOT_FOUND\r\n\r\n")] := by
    rw [gfs_sendheader_some c GF_FILE_NOT_FOUND 0 sends (by decide), hw, hwire]
  refine ⟨⟨(gfs_sendheader (some c) GF_FILE_NOT_FOUND 0 sends).2.1, [], none,
    (gfs_sendheader (some c) GF_FILE_NOT_FOUND 0 sends).2.2⟩, ?_, htr, rfl, ?_, ?_⟩
  · simp only [worker_thread_job, hnf, if_true]
  · simp only [htr, wire_bytes, List.append_nil]
  · intro req net chunks hsent hrecv hne hstream
    simp only [htr, wire_bytes, List.append_nil] at hstream
    obtain ⟨p, q, hp, hret, hst, hbr, htrace, _, _, _⟩ :=
      perform_status_stream req net chunks FILE_NOT_FOUND [] [] hsent hrecv hne
        (by rw [hstream]; rfl) (by decide) (by decide) (by decide) (by simp) (by simp)
        (by decide) (by decide)
    refine ⟨p, hp, hret, by rw [hst]; decide, hbr, ?_⟩
    rw [htrace]
    cases req.headerfunc <;> simp [delivered]

theorem worker_not_found_witness :
    ∃ r, worker_thread_job ⟨some ⟨5⟩, bytes "/nothing"⟩ missing_file [] = some r ∧
      r.trace = [SrvEvent.sent (gfcontext_t.mk 5).clientfd
        (bytes "GETFILE FILE_NOT_FOUND\r\n\r\n")] ∧
      r.rets = [] ∧
      wire_bytes r.trace = bytes "GETFILE FILE_NOT_FOUND\r\n\r\n" ∧
      ∀ (req : gfcrequest_t) (net : ClientNet) (chunks : List (List Nat)),
        request_sent req net = true → net.recvs = arrivals chunks →
        (∀ x ∈ chunks, x ≠ []) → chunks.flatten = wire_bytes r.trace →
        ∃ p, gfc_perform req net = some p ∧ p.ret = 0 ∧
          p.req.status = GF_FILE_NOT_FOUND ∧ p.req.bytesreceived = 0 ∧
          delivered p.trace = [] :=
  worker_not_found ⟨5⟩ (bytes "/nothing") missing_file [] (by decide) (by simp)

/-! ## Thread pool: `gfs_handler` and the worker loop -/

/-- C19: `gfs_handler` on a live context.  When both allocations succeed it
appends one job, holding the context and the copy of the path, at the tail of
the queue (the jobs already queued stay as they are), sets the caller's
reference to NULL, writes nothing and returns `gfh_success`.  When the job or
the path copy cannot be allocated it leaves the queue unchanged, makes the one
call `gfs_sendheader(ctx, GF_ERROR, 0)`, which writes `"GETFILE ERROR\r\n\r\n"`
if the sends succeed, sets the reference to NULL and returns `gfh_failure`. -/
theorem gfs_handler_enqueues (c : gfcontext_t) (path : List Nat) (queue : steque_t)
    (sends : List Int) :
    gfs_handler true true (some c) path queue sends =
      ⟨gfh_success, none, queue ++ [⟨some c, cstr path⟩], [], sends⟩ ∧
    ((∀ b ∈ path, b ≠ 0) → cstr path = path) ∧
    (∀ malloc_ok strdup_ok : Bool, (malloc_ok && strdup_ok) = false →
      (gfs_handler malloc_ok strdup_ok (some c) path queue sends).ret = gfh_failure ∧
      (gfs_handler malloc_ok strdup_ok (some c) path queue sends).queue = queue ∧
      (gfs_handler malloc_ok strdup_ok (some c) path queue sends).ctx = none ∧
      (gfs_handler malloc_ok strdup_ok (some c) path queue sends).trace =
        (gfs_sendheader (some c) GF_ERROR 0 sends).2.1 ∧
      (gfs_handler malloc_ok strdup_ok (some c) path queue sends).sends =
        (gfs_sendheader (some c) GF_ERROR 0 sends).2.2 ∧
      ∃ part, part <+: bytes "GETFILE ERROR\r\n\r\n" ∧
        (gfs_handler malloc_ok strdup_ok (some c) path queue sends).trace =
          [SrvEvent.sent c.clientfd part] ∧
        ((∀ x ∈ sends, 0 < x) → part = bytes "GETFILE ERROR\r\n\r\n")) := by
  refine ⟨rfl, cstr_self path, ?_⟩
  intro malloc_ok strdup_ok hfail
  have hwire : wire_header GF_ERROR 0 = bytes "GETFILE ERROR\r\n\r\n" := rfl
  have htr : (gfs_sendheader (some c) GF_ERROR 0 sends).2.1 =
      [SrvEvent.sent c.clientfd (send_all sends (bytes "GETFILE ERROR\r\n\r\n")).2.1] := by
    rw [gfs_sendheader_some c GF_ERROR 0 sends (by decide), hwire]
  have hpart : ∃ part, part <+: bytes "GETFILE ERROR\r\n\r\n" ∧
      (gfs_sendheader (some c) GF_ERROR 0 sends).2.1 = [SrvEvent.sent c.clientfd part] ∧
      ((∀ x ∈ sends, 0 < x) → part = bytes "GETFILE ERROR\r\n\r\n") :=
    ⟨_, send_all_initial sends _, htr,
      fun hs => send_all_ok sends _ (send_all_pos sends _ hs)⟩
  cases malloc_ok
  · exact ⟨rfl, rfl, rfl, rfl, rfl, hpart⟩
  · cases strdup_ok
    · exact ⟨rfl, rfl, rfl, rfl, rfl, hpart⟩
    · simp at hfail

theorem worker_thread_locked_eq (q : steque_t) (sd : Bool) :
    worker_thread_locked q sd =
      match q with
      | [] => if sd then (WorkerAction.exit, []) else (WorkerAction.wait, [])
      | job :: rest => (WorkerAction.take job, rest) := by
  cases q <;> cases sd <;> rfl

theorem pool_run_append (s : PoolState) (a b : List PoolEvent) :
    pool_run s (a ++ b) = pool_run (pool_run s a) b := by
  simp [pool_run, List.foldl_append]

/-- One step of the pool keeps the history consistent: the jobs enqueued are
the jobs taken followed by the queue; the history of enqueued jobs only grows;
and a worker has ended only with the flag set. -/
theorem pool_step_inv (s : PoolState) (e : PoolEvent)
    (h1 : s.enqueued = s.dequeued ++ s.queue)
    (h2 : s.exited ≠ [] → s.shutting_down = true) :
    (pool_step s e).enqueued = (pool_step s e).dequeued ++ (pool_step s e).queue ∧
    ((pool_step s e).exited ≠ [] → (pool_step s e).shutting_down = true) ∧
    s.enqueued <+: (pool_step s e).enqueued ∧
    (s.shutting_down = true → (pool_step s e).shutting_down = true) := by
  cases e with
  | enqueue job =>
    exact ⟨by show s.enqueued ++ [job] = s.dequeued ++ (s.queue ++ [job])
              rw [h1, List.append_assoc], h2, List.prefix_append _ _, fun h => h⟩
  | shutdown =>
    exact ⟨h1, fun _ => rfl, List.prefix_refl _, fun _ => rfl⟩
  | worker i =>
    by_cases hi : i ∈ s.exited
    · have e : pool_step s (PoolEvent.worker i) = s := by
        simp only [pool_step, hi, if_true]
      rw [e]
      exact ⟨h1, h2, List.prefix_refl _, fun h => h⟩
    · cases hq : s.queue with
      | nil =>
        cases hsd : s.shutting_down with
        | false =>
          have e : pool_step s (PoolEvent.worker i) = s := by
            simp [pool_step, hi, worker_thread_locked_eq, hq, hsd]
          rw [e]
          exact ⟨by rw [h1, hq], fun hx => by rw [h2 hx] at hsd; exact absurd hsd (by decide),
            List.prefix_refl _, fun h => absurd h (by decide)⟩
        | true =>
          have e : pool_step s (PoolEvent.worker i) = { s with exited := i :: s.exited } := by
            simp [pool_step, hi, worker_thread_locked_eq, hq, hsd]
          rw [e]
          exact ⟨by show s.enqueued = s.dequeued ++ s.queue
                    exact h1, fun _ => hsd, List.prefix_refl _, fun _ => hsd⟩
      | cons job rest =>
        have e : pool_step s (PoolEvent.worker i) =
            { s with queue := rest, dequeued := s.dequeued ++ [job] } := by
          simp [pool_step, hi, worker_thread_locked_eq, hq]
        rw [e]
        exact ⟨by show s.enqueued = (s.dequeued ++ [job]) ++ rest
                  rw [h1, hq]; simp, h2, List.prefix_refl _, fun h => h⟩

theorem pool_run_inv (evs : List PoolEvent) : ∀ s : PoolState,
    s.enqueued = s.dequeued ++ s.queue → (s.exited ≠ [] → s.shutting_down = true) →
    (pool_run s evs).enqueued = (pool_run s evs).dequeued ++ (pool_run s evs).queue ∧
    ((pool_run s evs).exited ≠ [] → (pool_run s evs).shutting_down = true) ∧
    s.enqueued <+: (pool_run s evs).enqueued := by
  induction evs with
  | nil => intro s h1 h2; exact ⟨h1, h2, List.prefix_refl _⟩
  | cons e evs ih =>
    intro s h1 h2
    obtain ⟨a1, a2, a3, _⟩ := pool_step_inv s e h1 h2
    obtain ⟨b1, b2, b3⟩ := ih (pool_step s e) a1 a2
    exact ⟨b1, b2, a3.trans b3⟩

/-- C20: the locked section of the worker loop as a step on the queue and the
shutdown flag.  A worker ends exactly in a state with the flag set and the
queue empty; on a non-empty queue it takes the job at the head, whatever the
flag; on an empty queue without shutdown it waits and leaves the queue as it
is; it never reads the head of an empty queue.  In every run of the pool from
`init_threads` the jobs enqueued are the jobs taken, in order, followed by the
queue; a worker that has ended implies the flag is set; and whenever a worker
is about to end, every job enqueued so far, so every job enqueued before the
shutdown, has been taken. -/
theorem worker_loop_steps :
    (∀ (q : steque_t) (sd : Bool),
      (worker_thread_locked q sd).1 = WorkerAction.exit ↔ (sd = true ∧ q = [])) ∧
    (∀ (job : job_t) (q : steque_t) (sd : Bool),
      worker_thread_locked (job :: q) sd = (WorkerAction.take job, q)) ∧
    worker_thread_locked [] false = (WorkerAction.wait, []) ∧
    (∀ (q : steque_t) (sd : Bool), (worker_thread_locked q sd).1 ≠ WorkerAction.fault) ∧
    (∀ evs : List PoolEvent,
      (pool_run init_threads evs).enqueued =
        (pool_run init_threads evs).dequeued ++ (pool_run init_threads evs).queue) ∧
    (∀ evs : List PoolEvent, (pool_run init_threads evs).exited ≠ [] →
      (pool_run init_threads evs).shutting_down = true) ∧
    (∀ pre post : List PoolEvent,
      (worker_thread_locked (pool_run init_threads (pre ++ post)).queue
        (pool_run init_threads (pre ++ post)).shutting_down).1 = WorkerAction.exit →
      (pool_run init_threads (pre ++ post)).shutting_down = true ∧
      (pool_run init_threads (pre ++ post)).dequeued =
        (pool_run init_threads (pre ++ post)).enqueued ∧
      (pool_run init_threads pre).enqueued <+:
        (pool_run init_threads (pre ++ post)).dequeued) := by
  have hexit : ∀ (q : steque_t) (sd : Bool),
      (worker_thread_locked q sd).1 = WorkerAction.exit ↔ (sd = true ∧ q = []) := by
    intro q sd
    rw [worker_thread_locked_eq]
    cases q <;> cases sd <;> simp
  have hinit1 : init_threads.enqueued = init_threads.dequeued ++ init_threads.queue := rfl
  have hinit2 : init_threads.exited ≠ [] → init_threads.shutting_down = true :=
    fun h => absurd rfl h
  refine ⟨hexit, fun job q sd => by rw [worker_thread_locked_eq], rfl, ?_,
    fun evs => (pool_run_inv evs init_threads hinit1 hinit2).1,
    fun evs => (pool_run_inv evs init_threads hinit1 hinit2).2.1, ?_⟩
  · intro q sd
    rw [worker_thread_locked_eq]
    cases q <;> cases sd <;> simp
  · intro pre post h
    obtain ⟨hsd, hq⟩ := (hexit _ _).mp h
    obtain ⟨a1, a2, _⟩ := pool_run_inv pre init_threads hinit1 hinit2
    have hall := (pool_run_inv (pre ++ post) init_threads hinit1 hinit2).1
    rw [hq, List.append_nil] at hall
    refine ⟨hsd, hall.symm, ?_⟩
    rw [← hall, pool_run_append]
    exact (pool_run_inv post (pool_run init_threads pre) a1 a2).2.2

/-! ## Status names -/

/-- C21: the status parser of the client is a closed set.  `parse_status`
returns OK, FILE_NOT_FOUND and ERROR exactly for the strings `"OK"`,
`"FILE_NOT_FOUND"` and `"ERROR"`, compared whole and with case, and INVALID for
every other string, `"INVALID"` included; and `parse_status (gfc_strstatus s)`
is `s` for each of the four statuses.  (A string is given by its bytes before
the NUL.) -/
theorem parse_status_closed :
    (∀ s : List Nat, parse_status s = GF_OK ↔ s = bytes "OK") ∧
    (∀ s : List Nat, parse_status s = GF_FILE_NOT_FOUND ↔ s = bytes "FILE_NOT_FOUND") ∧
    (∀ s : List Nat, parse_status s = GF_ERROR ↔ s = bytes "ERROR") ∧
    (∀ s : List Nat, parse_status s = GF_INVALID ↔
      (s ≠ bytes "OK" ∧ s ≠ bytes "FILE_NOT_FOUND" ∧ s ≠ bytes "ERROR")) ∧
    parse_status (bytes "INVALID") = GF_INVALID ∧
    parse_status (bytes "ok") = GF_INVALID ∧
    parse_status (bytes "OK ") = GF_INVALID ∧
    parse_status (bytes "O") = GF_INVALID ∧
    parse_status (bytes "UNKNOWN") = GF_INVALID ∧
    (∀ st : gfstatus_t, parse_status (gfc_strstatus st) = st) ∧
    (∀ st : gfstatus_t, gfc_strstatus st ≠ UNKNOWN) ∧
    gfc_strstatus GF_OK = bytes "OK" ∧
    gfc_strstatus GF_FILE_NOT_FOUND = bytes "FILE_NOT_FOUND" ∧
    gfc_strstatus GF_ERROR = bytes "ERROR" ∧
    gfc_strstatus GF_INVALID = bytes "INVALID" := by
  have h1 : bytes "OK" = OK := by decide
  have h2 : bytes "FILE_NOT_FOUND" = FILE_NOT_FOUND := by decide
  have h3 : bytes "ERROR" = ERROR := by decide
  have d12 : OK ≠ FILE_NOT_FOUND := by decide
  have d13 : OK ≠ ERROR := by decide
  have d23 : FILE_NOT_FOUND ≠ ERROR := by decide
  rw [h1, h2, h3]
  refine ⟨?_, ?_, ?_, ?_, by decide, by decide, by decide, by decide, by decide, ?_,
    fun st => by cases st <;> decide, rfl, rfl, rfl, by decide⟩
  · intro s
    unfold parse_status
    constructor
    · intro h
      by_contra hne
      simp only [hne, if_false] at h
      repeat' split at h
      all_goals exact absurd h (by decide)
    · intro h
      simp [h]
  · intro s
    unfold parse_status
    constructor
    · intro h
      by_contra hne
      simp only [hne, if_false] at h
      repeat' split at h
      all_goals exact absurd h (by decide)
    · intro h
      subst h
      simp [d12.symm]
  · intro s
    unfold parse_status
    constructor
    · intro h
      by_contra hne
      simp only [hne, if_false] at h
      repeat' split at h
      all_goals exact absurd h (by decide)
    · intro h
      subst h
      simp [d13.symm, d23.symm]
  · intro s
    unfold parse_status
    constructor
    · intro h
      refine ⟨?_, ?_, ?_⟩
      · intro e
        simp [e] at h
      · intro e
        subst e
        simp [d12.symm] at h
      · intro e
        subst e
        simp [d13.symm, d23.symm] at h
    · rintro ⟨a, b, c⟩
      simp [a, b, c]
  · intro st
    cases st <;> decide

/-! ## The request line from the client to the server -/

/-- The read loop of the server on bytes free of NUL, up to the first point
where the bytes read hold the terminator. -/
theorem recv_request_until (a : List Nat) : ∀ (req : List Nat) (r : Nat) (extra : List Nat),
    a ≠ [] → (∀ c ∈ req.take r ++ a, c ≠ 0) → r + a.length + 1 ≤ req.length →
    r + a.length ≤ BUF_SIZE - 1 →
    (∀ k, 0 < k → k < a.length → strstr CRLFCRLF (req.take r ++ a.take k) = none) →
    (strstr CRLFCRLF (req.take r ++ a)).isSome = true →
    recv_request req r (a ++ extra) =
      (req.take r ++ a ++ 0 :: req.drop (r + a.length + 1), r + a.length) := by
  induction a with
  | nil => intro req r extra h; exact absurd rfl h
  | cons b rest ih =>
    intro req r extra _ hnz hlen hcap hnone hsome
    simp only [List.length_cons] at hlen hcap hnone
    have hr : r < BUF_SIZE - 1 := by omega
    have hlt : r ≤ req.length := by omega
    have hclean : ∀ c ∈ req.take r ++ [b], c ≠ 0 := by
      intro c hc
      apply hnz c
      rcases List.mem_append.mp hc with hc | hc
      · exact List.mem_append_left _ hc
      · exact List.mem_append_right _ (by simp at hc; simp [hc])
    have hc : cstr (req.take r ++ b :: 0 :: req.drop (r + 2)) = req.take r ++ [b] := by
      have := cstr_append_nul (req.take r ++ [b]) (req.drop (r + 2)) hclean
      simpa using this
    simp only [List.cons_append]
    rw [recv_request]
    simp only [hr, if_true, set_set_eq r req b (by omega), hc]
    cases rest with
    | nil =>
      simp only [hsome, if_true, List.length_nil, Nat.add_zero]
      simp
    | cons b' rest' =>
      simp only [List.length_cons] at hlen hcap
      have hs : strstr CRLFCRLF (req.take r ++ [b]) = none := by
        have := hnone 1 (by omega) (by simp)
        simpa using this
      simp only [hs, Option.isSome_none, Bool.false_eq_true, if_false]
      have htake : (req.take r ++ b :: 0 :: req.drop (r + 2)).take (r + 1) =
          req.take r ++ [b] := by
        rw [List.take_append_eq_append_take]
        simp [List.length_take, Nat.min_eq_left hlt]
      have hdrop : (req.take r ++ b :: 0 :: req.drop (r + 2)).drop
          (r + 1 + (b' :: rest').length + 1) = req.drop (r + ((b' :: rest').length + 1) + 1) := by
        rw [List.drop_append_eq_append_drop]
        simp only [List.length_take, Nat.min_eq_left hlt, List.length_cons]
        have h1 : r + 1 + (rest'.length + 1) + 1 - r = (rest'.length + 1) + 2 := by omega
        rw [h1, List.drop_eq_nil_of_le (by simp; omega)]
        simp only [List.nil_append, List.drop_succ_cons, List.drop_drop]
        congr 1
        omega
      have := ih (req.take r ++ b :: 0 :: req.drop (r + 2)) (r + 1) extra (by simp)
        (by
          rw [htake]
          intro c hc
          apply hnz c
          simp only [List.mem_append, List.mem_cons, List.mem_singleton,
            List.not_mem_nil, or_false] at hc ⊢
          tauto)
        (by simp [List.length_take, Nat.min_eq_left hlt]; omega)
        (by simp only [List.length_cons] at hcap ⊢; omega)
        (by
          intro k hk0 hk
          rw [htake]
          have := hnone (k + 1) (by omega) (by simp only [List.length_cons] at hk ⊢; omega)
          simpa using this)
        (by rw [htake]; simpa using hsome)
      rw [this, htake, hdrop]
      simp only [List.length_cons, List.append_assoc, List.singleton_append, Prod.mk.injEq]
      first
        | omega
        | (constructor <;> first | trivial | rfl | omega)

/-- The `%s` directive without a width stores the whole token. -/
theorem scan_s_whole (lead tok rest : List Nat) (hlead : ∀ b ∈ lead, isspace b = true)
    (htok : tok ≠ []) (hns : ∀ b ∈ tok, isspace b = false)
    (hrest : ∀ b, rest.head? = some b → isspace b = true) :
    scan_s none (lead ++ tok ++ rest) = some (tok, rest) := by
  obtain ⟨t0, ts, rfl⟩ : ∃ t0 ts, tok = t0 :: ts := by
    cases tok with
    | nil => exact absurd rfl htok
    | cons a b => exact ⟨a, b, rfl⟩
  have h0 : isspace t0 = false := hns t0 (by simp)
  have hdrop : List.dropWhile isspace (lead ++ (t0 :: ts) ++ rest) = (t0 :: ts) ++ rest := by
    rw [List.append_assoc, List.dropWhile_append_of_pos hlead]
    exact List.dropWhile_cons_of_neg (by simp [h0])
  have hrun : List.takeWhile (fun b => !isspace b) ((t0 :: ts) ++ rest) = t0 :: ts := by
    rw [List.takeWhile_append_of_pos (by intro b hb; simp [hns b hb])]
    rw [takeWhile_stop _ rest (by intro b hb; simp [hrest b hb])]
    simp
  simp only [scan_s, hdrop, hrun]
  have hne : ¬ ((t0 :: ts) ++ rest = []) := by simp
  simp only [hne, if_false, Option.some.injEq, Prod.mk.injEq, true_and]
  exact List.drop_left _ _

/-- The request scan on the request line of a path without white space. -/
theorem sscanf_request_line (path : List Nat) (hne : path ≠ [])
    (hns : ∀ b ∈ path, isspace b = false) :
    sscanf_request (GETFILE ++ [32] ++ GET ++ [32] ++ path ++ CRLFCRLF) =
      (3, [GETFILE, GET, path]) := by
  have e1 : GETFILE ++ [32] ++ GET ++ [32] ++ path ++ CRLFCRLF =
      [] ++ GETFILE ++ ([32] ++ GET ++ ([32] ++ path ++ CRLFCRLF)) := by
    simp only [List.append_assoc, List.nil_append]
  have s1 := scan_s_whole [] GETFILE ([32] ++ GET ++ ([32] ++ path ++ CRLFCRLF)) (by simp)
    (by decide) (by decide) (by intro b hb; simp [GET] at hb; subst hb; decide)
  have s2 := scan_s_whole [32] GET ([32] ++ path ++ CRLFCRLF)
    (by intro b hb; simp at hb; subst hb; decide) (by decide) (by decide)
    (by
      intro b hb
      cases path with
      | nil => exact absurd rfl hne
      | cons p ps => simp at hb; subst hb; decide)
  have s3 := scan_s_whole [32] path CRLFCRLF
    (by intro b hb; simp at hb; subst hb; decide) hne hns
    (by intro b hb; simp [CRLFCRLF] at hb; subst hb; decide)
  rw [e1]
  simp only [sscanf_request, s1, s2, s3]

/-- What an iteration of the accept loop leaves of the request read. -/
theorem serve_connection_fields (handler : Option Handler) (fd : Nat)
    (stale incoming : List Nat) (sends : List Int) :
    (serve_connection handler fd stale incoming sends).req =
      (recv_request stale 0 incoming).1 ∧
    (serve_connection handler fd stale incoming sends).received =
      (recv_request stale 0 incoming).2 ∧
    (serve_connection handler fd stale incoming sends).overflow =
      tokens_overflow (sscanf_request (cstr (recv_request stale 0 incoming).1)).2 := by
  unfold serve_connection
  simp only []
  split
  · exact ⟨rfl, rfl, rfl⟩
  · split
    · split <;> exact ⟨rfl, rfl, rfl⟩
    · exact ⟨rfl, rfl, rfl⟩

theorem request_line_length (path : List Nat) :
    (request_line path).length = 16 + path.length := by
  simp only [request_line, bytes, List.length_append]
  simp
  omega

/-- The server reads the request line of a path free of NUL and white space up
to its end, whatever follows it and whatever the buffer held, and scans the
three tokens `GETFILE`, `GET` and the path. -/
theorem recv_request_line (path stale extra : List Nat) (hne : path ≠ [])
    (hclean : ∀ b ∈ path, b ≠ 0 ∧ isspace b = false)
    (hfit : (request_line path).length ≤ BUF_SIZE - 1) (hs : stale.length = BUF_SIZE) :
    recv_request stale 0 (request_line path ++ extra) =
      (request_line path ++ 0 :: stale.drop ((request_line path).length + 1),
        (request_line path).length) ∧
    cstr (recv_request stale 0 (request_line path ++ extra)).1 = request_line path ∧
    sscanf_request (cstr (recv_request stale 0 (request_line path ++ extra)).1) =
      (3, [GETFILE, GET, path]) := by
  have hl : ∀ b ∈ GETFILE ++ [32] ++ GET ++ [32] ++ path, b ≠ 0 ∧ b ≠ 13 := by
    intro b hb
    simp only [List.mem_append] at hb
    rcases hb with (((hb | hb) | hb) | hb) | hb
    · simp [GETFILE] at hb
      omega
    · simp at hb
      omega
    · simp [GET] at hb
      omega
    · simp at hb
      omega
    · exact ⟨(hclean b hb).1, not_space_ne b (hclean b hb).2⟩
  have hnz : ∀ c ∈ request_line path, c ≠ 0 := by
    rw [← request_line_eq]
    intro c hc
    rcases List.mem_append.mp hc with h | h
    · exact (hl c h).1
    · simp [CRLFCRLF] at h
      omega
  have hrun := recv_request_until (request_line path) stale 0 extra
    (by rw [← request_line_eq]; simp [CRLFCRLF])
    (by simpa using hnz)
    (by rw [hs]; simp only [BUF_SIZE] at hfit ⊢; omega)
    (by omega)
    (by
      intro k _ hk
      simp only [List.take_zero, List.nil_append]
      rw [← request_line_eq] at hk ⊢
      exact strstr_clean_partial _ _ (fun b hb => (hl b hb).2) (List.take_prefix _ _)
        (by
          rw [List.length_take]
          simp only [List.length_append, CRLFCRLF, List.length_cons, List.length_nil] at hk ⊢
          omega))
    (by
      simp only [List.take_zero, List.nil_append]
      rw [← request_line_eq]
      have := strstr_clean_found (GETFILE ++ [32] ++ GET ++ [32] ++ path) []
        (fun b hb => (hl b hb).2)
      rw [List.append_nil] at this
      rw [this]
      rfl)
  simp only [List.take_zero, List.nil_append, Nat.zero_add] at hrun
  have hc : cstr (recv_request stale 0 (request_line path ++ extra)).1 = request_line path := by
    rw [hrun]
    exact cstr_append_nul _ _ hnz
  refine ⟨hrun, hc, ?_⟩
  rw [hc, ← request_line_eq]
  exact sscanf_request_line path hne (fun b hb => (hclean b hb).2)

/-- The string `gfc_set_path` leaves in the handle: the first 255 bytes of the
path given. -/
theorem gfc_set_path_cstr (req : gfcrequest_t) (path : List Nat) :
    cstr (gfc_set_path req path).path = (cstr path).take 255 ∧
    (gfc_set_path req path).path.length = 256 := by
  have hnz : ∀ b ∈ (cstr path).take 255, b ≠ 0 := by
    intro b hb
    have hm := List.mem_of_mem_take hb
    simp only [cstr] at hm
    have := (List.mem_takeWhile_imp hm)
    simpa using this
  constructor
  · simp only [gfc_set_path, List.append_assoc]
    rw [cstr_append _ _ hnz]
    have : cstr (List.replicate (255 - ((cstr path).take 255).length) 0 ++ [0]) = [] := by
      cases h : List.replicate (255 - ((cstr path).take 255).length) 0 with
      | nil => simp [cstr]
      | cons x t =>
        have hx : x = 0 := List.eq_of_mem_replicate (by rw [h]; simp)
        subst hx
        simp [cstr]
    rw [this, List.append_nil]
  · simp only [gfc_set_path, List.length_append, List.length_replicate, List.length_take,
      List.length_cons, List.length_nil]
    omega

/-- C22: request round trip.  For a path of 1 to 255 bytes that begins with
`/` and has no NUL and no white space: `gfc_set_path` stores it whole; the
request line `gfc_perform` builds and sends is `"GETFILE GET " ++ path ++
"\r\n\r\n"`, of 16 + |path| bytes, below the 1024 bytes of the request buffer,
so the build does not fail; the read loop of the server stops at the end of
that line, whatever follows it and whatever the buffer held before; no token
overflows its array; and the engine invokes the handler with exactly that
path. -/
theorem request_round_trip (req : gfcrequest_t) (net : ClientNet) (path : List Nat)
    (hlen1 : 1 ≤ path.length) (hlen2 : path.length ≤ 255) (hslash : path.head? = some 47)
    (hclean : ∀ b ∈ path, b ≠ 0 ∧ isspace b = false) :
    cstr (gfc_set_path req path).path = path ∧
    (request_line path).length = 16 + path.length ∧
    (request_line path).length < REQ_BUFSIZE ∧
    (net.resolved = true → connect_any net.candidates = true → (∀ x ∈ net.sends, 0 < x) →
      request_sent (gfc_set_path req path) net = true ∧
      ∃ r, gfc_perform (gfc_set_path req path) net = some r ∧ r.sent = request_line path) ∧
    (∀ (f : Handler) (fd : Nat) (stale extra : List Nat) (sends : List Int),
      stale.length = BUF_SIZE →
      (serve_connection (some f) fd stale (request_line path ++ extra) sends).received =
        (request_line path).length ∧
      cstr (serve_connection (some f) fd stale (request_line path ++ extra) sends).req =
        request_line path ∧
      (serve_connection (some f) fd stale (request_line path ++ extra) sends).overflow =
        false ∧
      (serve_connection (some f) fd stale (request_line path ++ extra) sends).trace =
        SrvEvent.handled (some ⟨fd⟩) path ::
          (match (f (some ⟨fd⟩) path).1 with
            | none => []
            | some c => [SrvEvent.closed c.clientfd, SrvEvent.freed c])) := by
  have hne : path ≠ [] := by
    intro h
    rw [h] at hlen1
    simp at hlen1
  have hpath : cstr (gfc_set_path req path).path = path := by
    rw [(gfc_set_path_cstr req path).1, cstr_self path (fun b hb => (hclean b hb).1)]
    exact List.take_of_length_le hlen2
  have hlen := request_line_length path
  refine ⟨hpath, hlen, by rw [hlen]; simp only [REQ_BUFSIZE]; omega, ?_, ?_⟩
  · intro hres hcon hsends
    have hsent : request_sent (gfc_set_path req path) net = true := by
      simp only [request_sent, hres, hcon, hpath, Bool.and_eq_true, decide_eq_true_eq,
        true_and]
      exact ⟨by rw [hlen]; simp only [REQ_BUFSIZE]; omega, send_all_pos _ _ hsends⟩
    refine ⟨hsent, ?_⟩
    obtain ⟨r, hr⟩ := gfc_perform_total (gfc_set_path req path) net
    refine ⟨r, hr, ?_⟩
    rw [gfc_perform_of_sent _ _ hsent, hpath] at hr
    cases hl : gfc_header_loop
        { gfc_set_path req path with bytesreceived := 0, filelen := 0, status := GF_INVALID }
        (recv_fuel net.recvs) [] net.recvs with
    | none => simp [hl] at hr
    | some r0 =>
      simp only [hl, Option.map_some', Option.some.injEq] at hr
      rw [← hr]
  · intro f fd stale extra sends hs
    obtain ⟨hrun, hc, hscan⟩ := recv_request_line path stale extra hne hclean
      (by rw [hlen]; simp only [BUF_SIZE]; omega) hs
    obtain ⟨f1, f2, f3⟩ := serve_connection_fields (some f) fd stale
      (request_line path ++ extra) sends
    have h1 : bytes "GETFILE" = GETFILE := by decide
    have h2 : bytes "GET" = GET := by decide
    refine ⟨?_, ?_, ?_, ?_⟩
    · rw [f2, hrun]
    · rw [f1, hc]
    · rw [f3, hscan]
      have : ¬ 256 ≤ path.length := by omega
      simp [tokens_overflow, GETFILE, GET, this]
    · exact (serve_connection_valid_trace f fd stale (request_line path ++ extra) sends path
        (by rw [hscan, h1, h2]) hslash).1

theorem request_round_trip_witness :
    cstr (gfc_set_path sample_request (bytes "/file.txt")).path = bytes "/file.txt" ∧
    (request_line (bytes "/file.txt")).length = 16 + (bytes "/file.txt").length ∧
    (request_line (bytes "/file.txt")).length < REQ_BUFSIZE ∧
    ((sample_net []).resolved = true → connect_any (sample_net []).candidates = true →
      (∀ x ∈ (sample_net []).sends, 0 < x) →
      request_sent (gfc_set_path sample_request (bytes "/file.txt")) (sample_net []) = true ∧
      ∃ r, gfc_perform (gfc_set_path sample_request (bytes "/file.txt")) (sample_net []) =
        some r ∧ r.sent = request_line (bytes "/file.txt")) ∧
    (∀ (f : Handler) (fd : Nat) (stale extra : List Nat) (sends : List Int),
      stale.length = BUF_SIZE →
      (serve_connection (some f) fd stale (request_line (bytes "/file.txt") ++ extra)
        sends).received = (request_line (bytes "/file.txt")).length ∧
      cstr (serve_connection (some f) fd stale (request_line (bytes "/file.txt") ++ extra)
        sends).req = request_line (bytes "/file.txt") ∧
      (serve_connection (some f) fd stale (request_line (bytes "/file.txt") ++ extra)
        sends).overflow = false ∧
      (serve_connection (some f) fd stale (request_line (bytes "/file.txt") ++ extra)
        sends).trace =
        SrvEvent.handled (some ⟨fd⟩) (bytes "/file.txt") ::
          (match (f (some ⟨fd⟩) (bytes "/file.txt")).1 with
            | none => []
            | some c => [SrvEvent.closed c.clientfd, SrvEvent.freed c])) :=
  request_round_trip sample_request (sample_net []) (bytes "/file.txt") (by decide)
    (by decide) (by decide) (by decide)

/-! ## The request scan of the server and its arrays -/

theorem long_path_request_eq :
    long_path_request = request_line (47 :: List.replicate 299 97) ++ [] := by
  have e : bytes "GETFILE GET /" = bytes "GETFILE GET " ++ [47] := by decide
  simp only [long_path_request, request_line, e, List.append_assoc, List.singleton_append,
    List.cons_append, List.append_nil, List.nil_append]

/-- C23 (evaluation at the failing inputs): the request
`"GETFILEGETFILEGETFILE GET /x\r\n\r\n"` has a tag of 21 bytes, which the scan
stores whole in `scheme[16]`; the request `"GETFILE GET /aaa...a\r\n\r\n"` with
a path of 300 bytes is read in full (316 bytes), its path token is stored whole
in `path[256]`, and the handler is invoked with it.  Both scans write past the
end of their array. -/
theorem request_scan_overflows :
    (sscanf_request (cstr (recv_request (List.replicate 4096 0) 0 long_tag_request).1)).2.map
      List.length = [21, 3, 2] ∧
    (serve_connection (some idle_handler) 7 (List.replicate 4096 0)
      long_tag_request []).overflow = true ∧
    (serve_connection (some idle_handler) 7 (List.replicate 4096 0)
      long_path_request []).received = 316 ∧
    (sscanf_request (cstr (recv_request (List.replicate 4096 0) 0 long_path_request).1)).2 =
      [bytes "GETFILE", bytes "GET", 47 :: List.replicate 299 97] ∧
    (47 :: List.replicate 299 97).length = 300 ∧
    (serve_connection (some idle_handler) 7 (List.replicate 4096 0)
      long_path_request []).overflow = true ∧
    (serve_connection (some idle_handler) 7 (List.replicate 4096 0)
      long_path_request []).trace =
      [SrvEvent.handled (some ⟨7⟩) (47 :: List.replicate 299 97), SrvEvent.closed 7,
        SrvEvent.freed ⟨7⟩] := by
  have hplen : (47 :: List.replicate 299 97).length = 300 := by
    simp only [List.length_cons, List.length_replicate]
  have hclean : ∀ b ∈ 47 :: List.replicate 299 97, b ≠ 0 ∧ isspace b = false := by
    intro b hb
    rcases List.mem_cons.mp hb with h | h
    · subst h
      decide
    · have := List.eq_of_mem_replicate h
      subst this
      decide
  have hlen := request_line_length (47 :: List.replicate 299 97)
  rw [hplen] at hlen
  obtain ⟨hrun, hc, hscan⟩ := recv_request_line (47 :: List.replicate 299 97)
    (List.replicate 4096 0) [] (List.cons_ne_nil _ _) hclean (by rw [hlen]; decide)
    (by simp only [List.length_replicate, BUF_SIZE])
  rw [← long_path_request_eq] at hrun hc hscan
  obtain ⟨_, f2, f3⟩ := serve_connection_fields (some idle_handler) 7
    (List.replicate 4096 0) long_path_request []
  have h1 : bytes "GETFILE" = GETFILE := by decide
  have h2 : bytes "GET" = GET := by decide
  refine ⟨by decide, by decide, ?_, ?_, hplen, ?_, ?_⟩
  · rw [f2, hrun, hlen]
  · rw [hscan, h1, h2]
  · rw [f3, hscan]
    simp only [tokens_overflow, List.getD_cons_succ, List.getD_cons_zero, hplen]
    decide
  · have := (serve_connection_valid_trace idle_handler 7 (List.replicate 4096 0)
      long_path_request [] (47 :: List.replicate 299 97) (by rw [hscan, h1, h2]) rfl).1
    rw [this]
    rfl

/-! ## A connection without a request byte -/

/-- C24 (evaluation at the failing input): a first connection sends
`"GETFILE GET /x\r\n\r\n"`, a second one is closed by the peer before it sends
a byte.  On the second connection the engine parses what the first one left in
`req`: it invokes the handler with `/x` and sends no INVALID header.  The same
empty connection met with a buffer that starts with a NUL is rejected. -/
theorem empty_request_parses_stale :
    gfserver_serve (some idle_handler) (List.replicate 4096 0)
        [some (4, bytes "GETFILE GET /x\r\n\r\n", []), some (5, [], [])] =
      [SrvEvent.handled (some ⟨4⟩) (bytes "/x"), SrvEvent.closed 4, SrvEvent.freed ⟨4⟩,
        SrvEvent.handled (some ⟨5⟩) (bytes "/x"), SrvEvent.closed 5, SrvEvent.freed ⟨5⟩] ∧
    (serve_connection (some idle_handler) 5
        (bytes "GETFILE GET /x\r\n\r\n" ++ List.replicate 4078 0) [] []).received = 0 ∧
    (serve_connection (some idle_handler) 5
        (bytes "GETFILE GET /x\r\n\r\n" ++ List.replicate 4078 0) [] []).trace =
      [SrvEvent.handled (some ⟨5⟩) (bytes "/x"), SrvEvent.closed 5, SrvEvent.freed ⟨5⟩] ∧
    (serve_connection (some idle_handler) 5 (List.replicate 4096 0) [] []).trace =
      [SrvEvent.sent 5 (bytes "GETFILE INVALID\r\n\r\n"), SrvEvent.closed 5,
        SrvEvent.freed ⟨5⟩] :=
  ⟨by decide, by decide, by decide, by decide⟩

/-! ## Requests with a token longer than its array -/

/-- C1 (evaluation at the failing input): the request of 40 letters `G`
followed by `" GET /x\r\n\r\n"` is read in full and scanned into three tokens.
Its first token is not `GETFILE`, so the request fails the validation and the
INVALID header is due; but the token has 40 bytes, and the scan stores it
whole, with its closing NUL, in `scheme[16]`: it writes past the end of the
array before the validation test is reached. -/
theorem invalid_request_overflows :
    (serve_connection (some idle_handler) 7 (List.replicate 4096 0)
      overlong_tag_request []).received = 51 ∧
    sscanf_request (cstr (recv_request (List.replicate 4096 0) 0 overlong_tag_request).1) =
      (3, [List.replicate 40 71, bytes "GET", bytes "/x"]) ∧
    List.replicate 40 71 ≠ bytes "GETFILE" ∧
    request_invalid
      (sscanf_request (cstr (recv_request (List.replicate 4096 0) 0 overlong_tag_request).1)) =
      true ∧
    16 ≤ (List.replicate 40 71).length ∧
    (serve_connection (some idle_handler) 7 (List.replicate 4096 0)
      overlong_tag_request []).overflow = true :=
  ⟨by decide, by decide, by decide, by decide, by decide, by decide⟩

theorem full_path_request_eq :
    full_path_request = request_line (47 :: List.replicate 255 98) ++ [] := by
  have e : bytes "GETFILE GET /" = bytes "GETFILE GET " ++ [47] := by decide
  simp only [full_path_request, request_line, e, List.append_assoc, List.singleton_append,
    List.cons_append, List.append_nil, List.nil_append]

/-- C3 (evaluation at the failing input): the request
`"GETFILE GET /bbb...b\r\n\r\n"` with a path of 256 bytes is read in full (272
bytes) and scanned into the tokens `GETFILE`, `GET` and the path, which begins
with `/`: it is a valid request.  The scan stores the 256 bytes of the path and
the closing NUL in `path[256]`: it writes past the end of the array before the
handler is reached. -/
theorem valid_request_overflows :
    (serve_connection (some idle_handler) 7 (List.replicate 4096 0)
      full_path_request []).received = 272 ∧
    sscanf_request (cstr (recv_request (List.replicate 4096 0) 0 full_path_request).1) =
      (3, [bytes "GETFILE", bytes "GET", 47 :: List.replicate 255 98]) ∧
    (47 :: List.replicate 255 98).head? = some 47 ∧
    (47 :: List.replicate 255 98).length = 256 ∧
    request_invalid
      (sscanf_request (cstr (recv_request (List.replicate 4096 0) 0 full_path_request).1)) =
      false ∧
    (serve_connection (some idle_handler) 7 (List.replicate 4096 0)
      full_path_request []).overflow = true := by
  have hplen : (47 :: List.replicate 255 98).length = 256 := by
    simp only [List.length_cons, List.length_replicate]
  have hclean : ∀ b ∈ 47 :: List.replicate 255 98, b ≠ 0 ∧ isspace b = false := by
    intro b hb
    rcases List.mem_cons.mp hb with h | h
    · subst h
      decide
    · have := List.eq_of_mem_replicate h
      subst this
      decide
  have hlen := request_line_length (47 :: List.replicate 255 98)
  rw [hplen] at hlen
  obtain ⟨hrun, _, hscan⟩ := recv_request_line (47 :: List.replicate 255 98)
    (List.replicate 4096 0) [] (List.cons_ne_nil _ _) hclean (by rw [hlen]; decide)
    (by simp only [List.length_replicate, BUF_SIZE])
  rw [← full_path_request_eq] at hrun hscan
  obtain ⟨_, f2, f3⟩ := serve_connection_fields (some idle_handler) 7
    (List.replicate 4096 0) full_path_request []
  have h1 : bytes "GETFILE" = GETFILE := by decide
  have h2 : bytes "GET" = GET := by decide
  refine ⟨?_, ?_, rfl, hplen, ?_, ?_⟩
  · rw [f2, hrun, hlen]
  · rw [hscan, h1, h2]
  · rw [hscan]
    simp only [request_invalid, List.getD_cons_succ, List.getD_cons_zero, List.head?_cons]
    decide
  · rw [f3, hscan]
    simp only [tokens_overflow, List.getD_cons_succ, List.getD_cons_zero, hplen]
    decide

end GetFile
